import Mathlib

/-!
EdomaeElf: grid pathfinding, nearest-walkable-tile search and the worshipper lifecycle

A shallow embedding of the pathfinding core of `miko_game_with_worshippers.go`
(`isWalkable`, `isValidPosition`, `manhattanDistance`, `findPath` together with the
`container/heap` operations it drives, `pixelToTile`, `findNearestWalkableTile`) and
of the worshipper agents (`NewWorshipper`, `Worshipper.Update`, `Worshipper.IsOffScreen`,
`updateWorshippers`), followed by theorems about them.

Conventions of the embedding.

* Go `int` is `Int`; the coordinates that occur are tiny, so no wrap-around is modelled.
* `float64` costs `G`, `H`, `F` only ever hold small non-negative whole numbers
  (step counts and Manhattan distances), which `float64` represents exactly: they are `Nat`.
* `float64` pixel coordinates are rationals (`ℚ`); every finite `float64` is one, and the
  only operation applied to them here is the exact division by `64 = 128 * 0.5`
  followed by Go's truncating conversion to `int`.
* A computation has type `Option _`: `none` means the Go program does not return
  normally (an index-out-of-range panic, or a loop that has not finished within the
  iteration budget given to the model). `some r` is a normal return with result `r`.
* A slice of pointers `[]*Node` is a `List Node`. A `Parent` pointer always points to a
  node that has already been popped from the open list, and only nodes still in the open
  list are ever mutated, so the pointee is immutable and is stored by value.
* The `float64` fields of a worshipper (`X`, `Y`, `Speed`, ...) are rationals and `+`, `-`,
  `*`, `/` on them are exact. `math.Sqrt` is a parameter `sqrt : ℚ → ℚ` of every function
  that calls it, so a theorem stated for all `sqrt` holds for whatever the square root
  returns; examples are evaluated with `sqrtModel`, which is exact on the squares used.
* Random draws (`rand.Intn`, `rand.Float64`) are parameters of the function that makes
  them. The receiver of `Update` is mutated in Go; here the updated worshipper is the
  result. The `Image` handles and the logging calls are left out.
* `searchStates` runs the same steps as `findPathLoop` and records the open and closed
  list at the start of every iteration, so that statements about what happens during the
  search can be made.
-/

namespace EdomaeElf

/-! ## Constants -/

def mikoTileSize : ℚ := 128
def mikoScaleFactor : ℚ := 1 / 2
def mikoMapWidth : Int := 16
def mikoMapHeight : Int := 12
def donationBoxX : Int := 8
def donationBoxY : Int := 4
def maxSearchRadius : Int := 5

/-! ## Data model -/

/-- TileID represents a tile by its x,y position in the tileset. -/
structure TileID where
  X : Int
  Y : Int
deriving DecidableEq, Repr

/-- Point represents a tile coordinate. -/
structure Point where
  X : Int
  Y : Int
deriving DecidableEq, Repr

/-- Node of the A* search: `Point`, `Parent` (nil is `none`), `G`, `H`, `F`. -/
inductive Node where
  | mk (Point : Point) (Parent : Option Node) (G H F : Nat) : Node

def Node.Point : Node → Point
  | .mk p _ _ _ _ => p

def Node.Parent : Node → Option Node
  | .mk _ p _ _ _ => p

def Node.G : Node → Nat
  | .mk _ _ g _ _ => g

def Node.H : Node → Nat
  | .mk _ _ _ h _ => h

def Node.F : Node → Nat
  | .mk _ _ _ _ f => f

/-- The slice `[]*Node` used as the priority queue. -/
abbrev NodeList := List Node

/-- The grid `[][]TileID`: a list of rows. -/
abbrev ShrineMap := List (List TileID)

/-- The closed list `map[Point]*Node`, as an association list (newest binding first). -/
abbrev ClosedList := List (Point × Node)

/-- The errors `findPath` builds with `fmt.Errorf`, one constructor per message. -/
inductive PathError where
  | invalidStart
  | invalidGoal
  | startNotWalkable
  | goalNotWalkable
  | noPathFound
deriving DecidableEq, Repr

/-- The error `findNearestWalkableTile` builds with `fmt.Errorf`. -/
inductive NearestError where
  | noWalkableTileFound
deriving DecidableEq, Repr

/-! ## Walkability -/

/-- The table `walkableTilesMap`, as its list of key/value pairs. -/
def walkableTilesMap : List (TileID × Bool) :=
  [(⟨0, 1⟩, true), (⟨0, 5⟩, true), (⟨2, 1⟩, true), (⟨0, 3⟩, true),
   (⟨0, 6⟩, true), (⟨1, 6⟩, true), (⟨4, 2⟩, true), (⟨5, 2⟩, true)]

/-- Go map read `walkableTilesMap[tile]`: the stored value, or `false` for a missing key. -/
def walkableTilesMapLookup (tile : TileID) : Bool :=
  match walkableTilesMap.lookup tile with
  | some b => b
  | none => false

/-- isWalkable checks if a tile at the given coordinates is walkable.
`shrineMap[y][x]` is a checked index: out of range is `none`. -/
def isWalkable (shrineMap : ShrineMap) (x y : Int) : Option Bool :=
  if x < 0 ∨ x ≥ mikoMapWidth ∨ y < 0 ∨ y ≥ mikoMapHeight then some false
  else
    match shrineMap[y.toNat]? with
    | none => none
    | some row =>
      match row[x.toNat]? with
      | none => none
      | some tile => some (walkableTilesMapLookup tile)

/-- isValidPosition checks if a position is within map bounds. -/
def isValidPosition (p : Point) : Bool :=
  decide (p.X ≥ 0 ∧ p.X < mikoMapWidth ∧ p.Y ≥ 0 ∧ p.Y < mikoMapHeight)

/-- manhattanDistance calculates the Manhattan distance between two points. -/
def manhattanDistance (a b : Point) : Nat :=
  (a.X - b.X).natAbs + (a.Y - b.Y).natAbs

/-! ## Pixel and tile coordinates -/

/-- Go's conversion `int(f)` of a `float64`: the fractional part is discarded
(truncation toward zero). -/
def floatToInt (q : ℚ) : Int :=
  if 0 ≤ q then ⌊q⌋ else ⌈q⌉

/-- pixelToTile converts pixel coordinates to tile coordinates. -/
def pixelToTile (x y : ℚ) : Point :=
  { X := floatToInt (x / (mikoTileSize * mikoScaleFactor)),
    Y := floatToInt (y / (mikoTileSize * mikoScaleFactor)) }

/-- tileToPixel converts tile coordinates to pixel coordinates (center of tile). -/
def tileToPixel (p : Point) : ℚ × ℚ :=
  ((p.X : ℚ) * mikoTileSize * mikoScaleFactor + (mikoTileSize * mikoScaleFactor) / 2,
   (p.Y : ℚ) * mikoTileSize * mikoScaleFactor + (mikoTileSize * mikoScaleFactor) / 2)

/-! ## Nearest walkable tile -/

/-- The values of a counting loop `for v := lo; v <= hi; v++`, in order. -/
def intRange (lo hi : Int) : List Int :=
  (List.range (hi - lo + 1).toNat).map (fun (k : Nat) => lo + (k : Int))

/-- A `for` loop whose body may `return`: the body is run on each value in order;
`some (some r)` is a `return r` from inside the loop, `some none` is leaving the loop
at its end, `none` is a panic inside the body. -/
def forReturn {α β : Type} (body : α → Option (Option β)) : List α → Option (Option β)
  | [] => some none
  | a :: rest =>
    match body a with
    | none => none
    | some (some r) => some (some r)
    | some none => forReturn body rest

/-- The body of the innermost loop of `findNearestWalkableTile`: for the offset
`(dx, dy)`, `continue` at the centre, `return` the tile when it is walkable. -/
def checkOffset (shrineMap : ShrineMap) (tilePos : Point) (dx dy : Int) :
    Option (Option Point) :=
  if dx = 0 ∧ dy = 0 then some none
  else
    let checkX := tilePos.X + dx
    let checkY := tilePos.Y + dy
    match isWalkable shrineMap checkX checkY with
    | none => none
    | some true => some (some (Point.mk checkX checkY))
    | some false => some none

/-- The loops over `dx` and `dy` of `findNearestWalkableTile` for one `radius`. -/
def scanSquare (shrineMap : ShrineMap) (tilePos : Point) (radius : Int) :
    Option (Option Point) :=
  forReturn (fun dx =>
      forReturn (fun dy => checkOffset shrineMap tilePos dx dy) (intRange (-radius) radius))
    (intRange (-radius) radius)

/-- The three nested loops of `findNearestWalkableTile` ("search in expanding circles"):
`radius` runs from 1 to `maxSearchRadius`. -/
def searchRings (shrineMap : ShrineMap) (tilePos : Point) : Option (Option Point) :=
  forReturn (scanSquare shrineMap tilePos) (intRange 1 maxSearchRadius)

/-- findNearestWalkableTile finds the nearest walkable tile to the given position.
The Go result `(Point, error)` is the pair; a nil error is `none`. -/
def findNearestWalkableTile (shrineMap : ShrineMap) (x y : ℚ) :
    Option (Point × Option NearestError) :=
  let tilePos := pixelToTile x y
  match isWalkable shrineMap tilePos.X tilePos.Y with
  | none => none
  | some true => some (tilePos, none)
  | some false =>
    match searchRings shrineMap tilePos with
    | none => none
    | some (some p) => some (p, none)
    | some none =>
      let fallbackPoint : Point := ⟨mikoMapWidth / 2, mikoMapHeight - 1⟩
      match isWalkable shrineMap fallbackPoint.X fallbackPoint.Y with
      | none => none
      | some true => some (fallbackPoint, none)
      | some false => some (⟨0, 0⟩, some NearestError.noWalkableTileFound)

/-! ## The priority queue: `NodeList` and `container/heap` -/

/-- Method `Less` of `NodeList`: `nl[i].F < nl[j].F` (checked indices). -/
def NodeList.Less (nl : NodeList) (i j : Nat) : Option Bool :=
  match nl[i]?, nl[j]? with
  | some a, some b => some (decide (a.F < b.F))
  | _, _ => none

/-- Method `Swap` of `NodeList`: `nl[i], nl[j] = nl[j], nl[i]` (checked indices). -/
def NodeList.Swap (nl : NodeList) (i j : Nat) : Option NodeList :=
  match nl[i]?, nl[j]? with
  | some a, some b => some ((nl.set i b).set j a)
  | _, _ => none

/-- Method `Push` of `NodeList`: `append(*nl, x)`. -/
def NodeList.Push (nl : NodeList) (x : Node) : NodeList :=
  nl ++ [x]

/-- Method `Pop` of `NodeList`: removes and returns the last element. -/
def NodeList.Pop (nl : NodeList) : Option (Node × NodeList) :=
  match nl.getLast? with
  | none => none
  | some item => some (item, nl.dropLast)

/-- The loop of `heap.up`: `i := (j - 1) / 2` is the parent (Go's division truncates, so
the parent of `0` is `0`, as with natural-number subtraction). The first argument bounds
the number of iterations. -/
def heap.up : Nat → NodeList → Nat → Option NodeList
  | 0, _, _ => none
  | fuel + 1, h, j =>
    let i := (j - 1) / 2
    if i = j then some h
    else
      match NodeList.Less h j i with
      | none => none
      | some false => some h
      | some true =>
        match NodeList.Swap h i j with
        | none => none
        | some h1 => heap.up fuel h1 i

/-- The loop of `heap.down` started at `i0`, currently at `i`; returns the slice and
`i > i0`. The first argument bounds the number of iterations. -/
def heap.down : Nat → NodeList → Nat → Nat → Nat → Option (NodeList × Bool)
  | 0, _, _, _, _ => none
  | fuel + 1, h, i0, i, n =>
    let j1 := 2 * i + 1
    if j1 ≥ n then some (h, decide (i > i0))
    else
      let j2 := j1 + 1
      match (if j2 < n then NodeList.Less h j2 j1 else some false) with
      | none => none
      | some right =>
        let j := if right then j2 else j1
        match NodeList.Less h j i with
        | none => none
        | some false => some (h, decide (i > i0))
        | some true =>
          match NodeList.Swap h i j with
          | none => none
          | some h1 => heap.down fuel h1 i0 j n

/-- `heap.Init`: `for i := n/2 - 1; i >= 0; i-- { down(h, i, n) }`. -/
def heap.Init (h : NodeList) : Option NodeList :=
  let n := h.length
  (List.range (n / 2)).reverse.foldlM
    (fun acc i => (heap.down (n + 1) acc i i n).map Prod.fst) h

/-- `heap.Push`: `h.Push(x); up(h, h.Len()-1)`. -/
def heap.Push (h : NodeList) (x : Node) : Option NodeList :=
  let h1 := NodeList.Push h x
  heap.up h1.length h1 (h1.length - 1)

/-- `heap.Pop`: `n := h.Len() - 1; h.Swap(0, n); down(h, 0, n); return h.Pop()`.
On an empty slice the swap is out of range. -/
def heap.Pop (h : NodeList) : Option (Node × NodeList) :=
  let n := h.length - 1
  match NodeList.Swap h 0 n with
  | none => none
  | some h1 =>
    match heap.down (n + 1) h1 0 0 n with
    | none => none
    | some (h2, _) => NodeList.Pop h2

/-- `heap.Fix`: `if !down(h, i, h.Len()) { up(h, i) }`. -/
def heap.Fix (h : NodeList) (i : Nat) : Option NodeList :=
  match heap.down (h.length + 1) h i i h.length with
  | none => none
  | some (h1, true) => some h1
  | some (h1, false) => heap.up (i + 1) h1 i

/-! ## A* search -/

/-- The search directions: Down, Right, Up, Left. -/
def directions : List Point := [⟨0, 1⟩, ⟨1, 0⟩, ⟨0, -1⟩, ⟨-1, 0⟩]

/-- The scan `for _, node := range *openList` for the first node at point `p`:
its index, or `none` when the loop ends with `found == false`. -/
def findOpen (p : Point) : NodeList → Option Nat
  | [] => none
  | node :: rest =>
    if node.Point.X = p.X ∧ node.Point.Y = p.Y then some 0
    else (findOpen p rest).map (· + 1)

/-- Membership test `_, exists := closedList[p]`. -/
def ClosedList.exists (closedList : ClosedList) (p : Point) : Bool :=
  closedList.any (fun kv => decide (kv.1 = p))

/-- One iteration of `for _, dir := range directions` in `findPath`: the open list
after handling the neighbour of `current` in direction `dir`. -/
def relaxNeighbor (shrineMap : ShrineMap) (goal : Point) (current : Node)
    (closedList : ClosedList) (openList : NodeList) (dir : Point) : Option NodeList :=
  let neighborPoint : Point := ⟨current.Point.X + dir.X, current.Point.Y + dir.Y⟩
  match isWalkable shrineMap neighborPoint.X neighborPoint.Y with
  | none => none
  | some false => some openList
  | some true =>
    if closedList.exists neighborPoint then some openList
    else
      let g := current.G + 1
      let h := manhattanDistance neighborPoint goal
      let f := g + h
      match findOpen neighborPoint openList with
      | some k =>
        match openList[k]? with
        | none => none
        | some node =>
          if g < node.G then
            heap.Fix (openList.set k (Node.mk node.Point (some current) g node.H f)) 0
          else some openList
      | none => heap.Push openList (Node.mk neighborPoint (some current) g h f)

/-- The points met by following `Parent` links from a node, the node first. -/
def Node.chain : Node → List EdomaeElf.Point
  | .mk p none _ _ _ => [p]
  | .mk p (some parent) _ _ _ => p :: parent.chain

/-- The in-place reversal loop of `findPath`:
`for i := len(path)/2 - 1; i >= 0; i-- { path[i], path[opp] = path[opp], path[i] }`,
where the argument `k` counts the iterations still to run (`i = k - 1`). -/
def reverseLoop : Nat → List Point → List Point
  | 0, path => path
  | i + 1, path =>
    let opp := path.length - 1 - i
    match path[i]?, path[opp]? with
    | some a, some b => reverseLoop i ((path.set i b).set opp a)
    | _, _ => path

/-- Path reconstruction: collect the points along the parent links, then reverse. -/
def reconstructPath (current : Node) : List Point :=
  let path := current.chain
  reverseLoop (path.length / 2) path

/-- The main loop `for openList.Len() > 0 { ... }` of `findPath`. The first argument
bounds the number of iterations; the result is what `findPath` returns. -/
def findPathLoop (shrineMap : ShrineMap) (goal : Point) :
    Nat → NodeList → ClosedList → Option (List Point × Option PathError)
  | 0, _, _ => none
  | fuel + 1, openList, closedList =>
    if openList.length > 0 then
      match heap.Pop openList with
      | none => none
      | some (current, openList1) =>
        let closedList1 : ClosedList := (current.Point, current) :: closedList
        if current.Point.X = goal.X ∧ current.Point.Y = goal.Y then
          some (reconstructPath current, none)
        else
          match directions.foldlM (relaxNeighbor shrineMap goal current closedList1)
              openList1 with
          | none => none
          | some openList2 => findPathLoop shrineMap goal fuel openList2 closedList1
    else some ([], some PathError.noPathFound)

/-- Iteration budget of the main loop: one more than the number of tiles of the grid. -/
def searchBudget : Nat := (mikoMapWidth * mikoMapHeight).toNat + 1

/-- findPath uses A* algorithm to find a path from start to goal.
The Go result `([]Point, error)` is the pair; a nil slice is `[]`, a nil error `none`. -/
def findPath (shrineMap : ShrineMap) (start goal : Point) :
    Option (List Point × Option PathError) :=
  if !isValidPosition start then some ([], some PathError.invalidStart)
  else if !isValidPosition goal then some ([], some PathError.invalidGoal)
  else
    match isWalkable shrineMap start.X start.Y with
    | none => none
    | some false => some ([], some PathError.startNotWalkable)
    | some true =>
      match isWalkable shrineMap goal.X goal.Y with
      | none => none
      | some false => some ([], some PathError.goalNotWalkable)
      | some true =>
        if start.X = goal.X ∧ start.Y = goal.Y then some ([start], none)
        else
          let startNode :=
            Node.mk start none 0 (manhattanDistance start goal) (manhattanDistance start goal)
          match heap.Init [] with
          | none => none
          | some openList0 =>
            match heap.Push openList0 startNode with
            | none => none
            | some openList => findPathLoop shrineMap goal searchBudget openList []

/-! ## The built-in map -/

/-- Assignment `shrineMap[y][x] = tile` (in range: unchanged otherwise). -/
def setTile (shrineMap : ShrineMap) (y x : Nat) (tile : TileID) : ShrineMap :=
  shrineMap.modify (fun row => row.set x tile) y

/-- The loop "add some gravel areas around the shrine" of `createMikoShrineMap`:
a grass tile `{0, 5}` at `(x, y)` becomes gravel `{2, 1}`. -/
def gravelAt (shrineMap : ShrineMap) (yx : Nat × Nat) : ShrineMap :=
  match shrineMap[yx.1]? with
  | none => shrineMap
  | some row =>
    match row[yx.2]? with
    | none => shrineMap
    | some tile =>
      if tile.X = 0 ∧ tile.Y = 5 then setTile shrineMap yx.1 yx.2 ⟨2, 1⟩ else shrineMap

/-- The initial map of `createMikoShrineMap`: grass `{0, 5}` on every tile. -/
def grassMap : ShrineMap := List.replicate 12 (List.replicate 16 ⟨0, 5⟩)

/-- The assignments `shrineMap[y][x] = tile` of `createMikoShrineMap`, as `(y, x, tile)`
in source order (the stone-path loop `y = 8..11` unrolled). -/
def shrineAssignments : List (Nat × Nat × TileID) :=
  [(8, 8, ⟨0, 1⟩), (9, 8, ⟨0, 1⟩), (10, 8, ⟨0, 1⟩), (11, 8, ⟨0, 1⟩),
   (10, 7, ⟨0, 2⟩), (10, 8, ⟨1, 2⟩),
   (8, 6, ⟨2, 2⟩), (9, 6, ⟨3, 2⟩), (8, 10, ⟨2, 2⟩), (9, 10, ⟨3, 2⟩),
   (5, 8, ⟨0, 3⟩), (6, 8, ⟨0, 6⟩), (7, 8, ⟨1, 6⟩),
   (1, 6, ⟨4, 0⟩), (1, 7, ⟨5, 0⟩), (1, 8, ⟨6, 0⟩), (1, 9, ⟨7, 0⟩),
   (2, 6, ⟨5, 1⟩), (2, 7, ⟨6, 1⟩), (2, 8, ⟨4, 1⟩), (2, 9, ⟨7, 1⟩),
   (3, 6, ⟨4, 2⟩), (3, 7, ⟨5, 2⟩), (3, 8, ⟨5, 2⟩), (3, 9, ⟨5, 2⟩),
   (4, 8, ⟨1, 4⟩),
   (6, 5, ⟨2, 4⟩),
   (3, 3, ⟨3, 1⟩),
   (2, 1, ⟨4, 4⟩), (2, 2, ⟨5, 4⟩), (3, 1, ⟨6, 5⟩), (3, 2, ⟨7, 5⟩),
   (4, 1, ⟨6, 6⟩), (4, 2, ⟨7, 6⟩), (5, 1, ⟨6, 7⟩), (5, 2, ⟨7, 7⟩),
   (2, 13, ⟨4, 4⟩), (2, 14, ⟨5, 4⟩), (3, 13, ⟨6, 5⟩), (3, 14, ⟨7, 5⟩),
   (4, 13, ⟨6, 6⟩), (4, 14, ⟨7, 6⟩), (5, 13, ⟨6, 7⟩), (5, 14, ⟨7, 7⟩)]

/-- The cells `(y, x)` the gravel loop visits: `y = 4..6`, `x = 6..10`. -/
def gravelCells : List (Nat × Nat) :=
  [4, 5, 6].flatMap (fun y => [6, 7, 8, 9, 10].map (fun x => (y, x)))

/-- The map built by `createMikoShrineMap`: grass everywhere, then the assignments,
then the gravel loop. -/
def createMikoShrineMap : ShrineMap :=
  gravelCells.foldl gravelAt
    (shrineAssignments.foldl (fun m a => setTile m a.1 a.2.1 a.2.2) grassMap)

/-! ## Grids -/

/-- A 12-row by 16-column map. -/
def IsGrid (shrineMap : ShrineMap) : Prop :=
  shrineMap.length = 12 ∧ ∀ row ∈ shrineMap, row.length = 16

instance (shrineMap : ShrineMap) : Decidable (IsGrid shrineMap) :=
  inferInstanceAs (Decidable (shrineMap.length = 12 ∧ ∀ row ∈ shrineMap, row.length = 16))

/-- Chebyshev distance between two tiles. -/
def chebyshev (a b : Point) : Nat :=
  max (a.X - b.X).natAbs (a.Y - b.Y).natAbs

/-- A map given by its walkable tiles: grass `{0, 5}` (walkable) on the listed tiles
and a torii gate `{0, 2}` (not walkable) on every other tile of the 12x16 grid. -/
def mapWithWalkable (cells : List Point) : ShrineMap :=
  (List.range 12).map (fun (y : Nat) =>
    (List.range 16).map (fun (x : Nat) =>
      if (Point.mk (x : Int) (y : Int)) ∈ cells then TileID.mk 0 5 else TileID.mk 0 2))

/-- A tile inside the grid: `0 <= X < 16` and `0 <= Y < 12`. -/
def InBounds (p : Point) : Prop := 0 ≤ p.X ∧ p.X < 16 ∧ 0 ≤ p.Y ∧ p.Y < 12

instance (p : Point) : Decidable (InBounds p) :=
  inferInstanceAs (Decidable (0 ≤ p.X ∧ p.X < 16 ∧ 0 ≤ p.Y ∧ p.Y < 12))

/-! ## Paths on the walkable graph -/

/-- Two tiles one step apart (up, down, left or right): Manhattan distance 1. -/
def Adjacent (a b : Point) : Prop := manhattanDistance a b = 1

instance (a b : Point) : Decidable (Adjacent a b) :=
  inferInstanceAs (Decidable (manhattanDistance a b = 1))

/-- A walkable tile of the map: `isWalkable` returns `true` there. -/
def Walkable (shrineMap : ShrineMap) (p : Point) : Prop :=
  isWalkable shrineMap p.X p.Y = some true

instance (shrineMap : ShrineMap) (p : Point) : Decidable (Walkable shrineMap p) :=
  inferInstanceAs (Decidable (isWalkable shrineMap p.X p.Y = some true))

/-- A path from `start` to `goal` on the map: it begins with `start`, ends with `goal`,
every two consecutive tiles are adjacent and every tile is walkable. -/
def IsPathOn (shrineMap : ShrineMap) (start goal : Point) (path : List Point) : Prop :=
  path.head? = some start ∧ path.getLast? = some goal ∧
    (∀ ab ∈ path.zip path.tail, Adjacent ab.1 ab.2) ∧ ∀ p ∈ path, Walkable shrineMap p

instance (shrineMap : ShrineMap) (start goal : Point) (path : List Point) :
    Decidable (IsPathOn shrineMap start goal path) :=
  inferInstanceAs (Decidable (path.head? = some start ∧ path.getLast? = some goal ∧
    (∀ ab ∈ path.zip path.tail, Adjacent ab.1 ab.2) ∧ ∀ p ∈ path, Walkable shrineMap p))

/-- `goal` can be reached from `start` by moving between adjacent walkable tiles. -/
def Reachable (shrineMap : ShrineMap) (start goal : Point) : Prop :=
  ∃ path, IsPathOn shrineMap start goal path

/-- The cost of a path: its number of tiles minus one. -/
def pathCost (path : List Point) : Nat := path.length - 1

/-- The points held by the nodes of an open list. -/
def pts (openList : NodeList) : List Point := openList.map Node.Point

/-- The keys of a closed list. -/
def keys (closedList : ClosedList) : List Point := closedList.map Prod.fst

/-- A node whose parent links lead back to `start` through adjacent walkable tiles. -/
def Node.Linked (shrineMap : ShrineMap) (start : EdomaeElf.Point) : Node → Prop
  | .mk p none _ _ _ => p = start ∧ Walkable shrineMap p
  | .mk p (some parent) _ _ _ =>
    Walkable shrineMap p ∧ Adjacent parent.Point p ∧ parent.Linked shrineMap start

/-- The state of the search loop is consistent: open nodes are linked to `start`, no tile
is held twice across the open and closed lists, closed tiles are walkable and are not the
goal, every walkable neighbour of a closed tile is closed or open, and `start` is closed
or open. -/
structure SearchInv (shrineMap : ShrineMap) (start goal : Point)
    (openList : NodeList) (closedList : ClosedList) : Prop where
  linked : ∀ n ∈ openList, Node.Linked shrineMap start n
  nodupOpen : (pts openList).Nodup
  disjoint : ∀ p ∈ pts openList, p ∉ keys closedList
  nodupClosed : (keys closedList).Nodup
  walkClosed : ∀ p ∈ keys closedList, Walkable shrineMap p
  goalOpen : goal ∉ keys closedList
  frontier : ∀ p ∈ keys closedList, ∀ q, Adjacent p q → Walkable shrineMap q →
    q ∈ keys closedList ∨ q ∈ pts openList
  startSeen : start ∈ keys closedList ∨ start ∈ pts openList

/-- All tiles of the 12x16 grid. -/
def allTiles : List Point :=
  (intRange 0 15).flatMap (fun x => (intRange 0 11).map (fun y => Point.mk x y))

/-- The map of the detour example: 21 walkable tiles. -/
def detourMap : ShrineMap :=
  mapWithWalkable
    [⟨4, 0⟩, ⟨3, 1⟩, ⟨4, 1⟩, ⟨5, 1⟩, ⟨3, 2⟩, ⟨4, 2⟩, ⟨5, 2⟩, ⟨6, 2⟩, ⟨4, 3⟩, ⟨6, 3⟩, ⟨7, 3⟩,
     ⟨4, 4⟩, ⟨5, 4⟩, ⟨6, 4⟩, ⟨4, 5⟩, ⟨5, 5⟩, ⟨4, 6⟩, ⟨4, 7⟩, ⟨4, 8⟩, ⟨5, 8⟩, ⟨6, 8⟩]

/-- The map of the corridor scenario: the walkable tiles are rows 4 to 11 of column 8. -/
def corridorMap : ShrineMap :=
  mapWithWalkable [⟨8, 4⟩, ⟨8, 5⟩, ⟨8, 6⟩, ⟨8, 7⟩, ⟨8, 8⟩, ⟨8, 9⟩, ⟨8, 10⟩, ⟨8, 11⟩]

/-! ## Worshippers

`float64` fields of a worshipper are rationals and `+`, `-`, `*`, `/` on them are exact;
`math.Sqrt` is a parameter `sqrt : ℚ → ℚ` of the functions that call it, so that what is
proved about them holds for every square-root function. Random draws (`rand.Intn`,
`rand.Float64`) are parameters as well. The `Image` field (a handle used only for
drawing) is left out. -/

def worshipperSpeed : ℚ := 1
def spawnInterval : Int := 300
def offeringDuration : Int := 120
def pathfindingProximityThreshold : ℚ := 10

/-- The `float64` constant `0.3` of the spawn test: the double nearest to three tenths. -/
def spawnChance : ℚ := 5404319552844595 / 18014398509481984

/-- WorshipperState represents the current state of a worshipper. -/
inductive WorshipperState where
  | StateApproaching
  | StateOffering
  | StateLeaving
deriving DecidableEq, Repr

/-- The tint `color.RGBA`. -/
structure RGBA where
  R : Nat
  G : Nat
  B : Nat
  A : Nat
deriving DecidableEq, Repr

/-- Worshipper represents a shrine visitor. -/
structure Worshipper where
  X : ℚ
  Y : ℚ
  Width : ℚ
  Height : ℚ
  State : WorshipperState
  Timer : Int
  StartX : ℚ
  TargetX : ℚ
  Speed : ℚ
  Color : RGBA
  Path : List Point
  PathIndex : Int
  NextTarget : Point
deriving DecidableEq

/-- The checked index `path[i]` with a Go `int` index: out of range (negative or too
large) is `none`. -/
def indexPath (path : List Point) (i : Int) : Option Point :=
  if i < 0 then none else path[i.toNat]?

/-- The movement step
`if distance > 0 { w.X += (dx / distance) * w.Speed; w.Y += (dy / distance) * w.Speed }`. -/
def Worshipper.moveBy (w : Worshipper) (dx dy distance : ℚ) : Worshipper :=
  if distance > 0 then
    { w with X := w.X + (dx / distance) * w.Speed, Y := w.Y + (dy / distance) * w.Speed }
  else w

/-- The test `len(w.Path) > 0 && w.PathIndex < len(w.Path)` that selects the
path-following branch of `Update`. -/
def Worshipper.followsPath (w : Worshipper) : Bool :=
  decide (w.Path.length > 0 ∧ w.PathIndex < (w.Path.length : Int))

/-- The value `distance` of the path-following branch: from the position to the centre
of the tile `NextTarget`. -/
def Worshipper.waypointDistance (sqrt : ℚ → ℚ) (w : Worshipper) : ℚ :=
  let dx := (tileToPixel w.NextTarget).1 - w.X
  let dy := (tileToPixel w.NextTarget).2 - w.Y
  sqrt (dx * dx + dy * dy)

/-- The value `distance` of the fallback branch of `StateApproaching`: from the position
to the donation-box pixel position. -/
def Worshipper.donationBoxDistance (sqrt : ℚ → ℚ) (w : Worshipper) : ℚ :=
  let dx := (donationBoxX : ℚ) * mikoTileSize * mikoScaleFactor - w.X
  let dy := (donationBoxY : ℚ) * mikoTileSize * mikoScaleFactor - w.Y
  sqrt (dx * dx + dy * dy)

/-- Update updates the worshipper's state and position (the receiver is mutated in Go;
here the updated worshipper is returned). -/
def Worshipper.Update (sqrt : ℚ → ℚ) (shrineMap : ShrineMap) (w : Worshipper) :
    Option Worshipper :=
  match w.State with
  | WorshipperState.StateApproaching =>
    if w.followsPath then
      let dx := (tileToPixel w.NextTarget).1 - w.X
      let dy := (tileToPixel w.NextTarget).2 - w.Y
      let distance := sqrt (dx * dx + dy * dy)
      if distance < pathfindingProximityThreshold then
        let pathIndex := w.PathIndex + 1
        if pathIndex < (w.Path.length : Int) then
          match indexPath w.Path pathIndex with
          | none => none
          | some p => some { w with PathIndex := pathIndex, NextTarget := p }
        else
          some { w with PathIndex := pathIndex, State := WorshipperState.StateOffering,
                        Timer := 0 }
      else some (w.moveBy dx dy distance)
    else
      let donationBoxPixelX := (donationBoxX : ℚ) * mikoTileSize * mikoScaleFactor
      let donationBoxPixelY := (donationBoxY : ℚ) * mikoTileSize * mikoScaleFactor
      let dx := donationBoxPixelX - w.X
      let dy := donationBoxPixelY - w.Y
      let distance := sqrt (dx * dx + dy * dy)
      if distance < 20 then
        some { w with State := WorshipperState.StateOffering, Timer := 0 }
      else some (w.moveBy dx dy distance)
  | WorshipperState.StateOffering =>
    let timer := w.Timer + 1
    if timer ≥ offeringDuration then
      let currentTile := pixelToTile w.X w.Y
      match findNearestWalkableTile shrineMap w.TargetX
          (((mikoMapHeight - 1 : Int) : ℚ) * mikoTileSize * mikoScaleFactor) with
      | none => none
      | some (tile, err) =>
        let exitTile : Point :=
          match err with
          | some _ => ⟨mikoMapWidth / 2, mikoMapHeight - 1⟩
          | none => tile
        match findPath shrineMap currentTile exitTile with
        | none => none
        | some (path, pathErr) =>
          let exitPath : List Point :=
            match pathErr with
            | some _ => []
            | none => path
          match exitPath with
          | first :: _ =>
            some { w with State := WorshipperState.StateLeaving, Timer := 0,
                          Path := exitPath, PathIndex := 0, NextTarget := first }
          | [] => some { w with State := WorshipperState.StateLeaving, Timer := 0 }
    else some { w with Timer := timer }
  | WorshipperState.StateLeaving =>
    if w.followsPath then
      let dx := (tileToPixel w.NextTarget).1 - w.X
      let dy := (tileToPixel w.NextTarget).2 - w.Y
      let distance := sqrt (dx * dx + dy * dy)
      if distance < pathfindingProximityThreshold then
        let pathIndex := w.PathIndex + 1
        if pathIndex < (w.Path.length : Int) then
          match indexPath w.Path pathIndex with
          | none => none
          | some p => some { w with PathIndex := pathIndex, NextTarget := p }
        else some { w with PathIndex := pathIndex, Path := [] }
      else some (w.moveBy dx dy distance)
    else
      let dx := w.TargetX - w.X
      let dy := ((mikoMapHeight : Int) : ℚ) * mikoTileSize * mikoScaleFactor - w.Y
      let distance := sqrt (dx * dx + dy * dy)
      some (w.moveBy dx dy distance)

/-- IsOffScreen checks if worshipper is off screen and should be removed. -/
def Worshipper.IsOffScreen (w : Worshipper) : Bool :=
  decide (w.State = WorshipperState.StateLeaving) &&
    (decide (w.X < -100) ||
      decide (w.X > ((mikoMapWidth : Int) : ℚ) * mikoTileSize * mikoScaleFactor + 100))

/-- The tints `colors` of `NewWorshipper`. -/
def colors : List RGBA :=
  [⟨255, 255, 255, 255⟩, ⟨255, 200, 200, 255⟩, ⟨200, 255, 200, 255⟩,
   ⟨200, 200, 255, 255⟩, ⟨255, 255, 200, 255⟩]

/-- NewWorshipper creates a new worshipper at a random spawn position. The random draws
are arguments: `side` is `rand.Intn(2)`, `speedDraw` the `rand.Float64()` of the speed,
`colorDraw` is `rand.Intn(len(colors))`. -/
def NewWorshipper (side : Int) (speedDraw : ℚ) (colorDraw : Fin 5) (shrineMap : ShrineMap) :
    Option Worshipper :=
  let startX : ℚ :=
    if side = 0 then -50
    else ((mikoMapWidth : Int) : ℚ) * mikoTileSize * mikoScaleFactor + 50
  let targetX : ℚ :=
    if side = 0 then ((mikoMapWidth : Int) : ℚ) * mikoTileSize * mikoScaleFactor + 50
    else -50
  let startY : ℚ := ((mikoMapHeight - 1 : Int) : ℚ) * mikoTileSize * mikoScaleFactor
  let worshipper : Worshipper :=
    { X := startX, Y := startY, Width := 32, Height := 32,
      State := WorshipperState.StateApproaching, Timer := 0,
      StartX := startX, TargetX := targetX,
      Speed := worshipperSpeed + speedDraw * (1 / 2),
      Color := colors.getD colorDraw.val ⟨0, 0, 0, 0⟩,
      Path := [], PathIndex := 0, NextTarget := ⟨0, 0⟩ }
  match findNearestWalkableTile shrineMap startX startY with
  | none => none
  | some (tile, err) =>
    let startTile : Point :=
      match err with
      | some _ => ⟨mikoMapWidth / 2, mikoMapHeight - 1⟩
      | none => tile
    let donationBoxTile : Point := ⟨donationBoxX, donationBoxY⟩
    match findPath shrineMap startTile donationBoxTile with
    | none => none
    | some (found, pathErr) =>
      let path : List Point :=
        match pathErr with
        | some _ => []
        | none => found
      match path with
      | first :: _ => some { worshipper with Path := path, PathIndex := 0, NextTarget := first }
      | [] => some worshipper

/-- The part of `MikoGameWithWorshippers` that `updateWorshippers` reads and writes. -/
structure MikoGameWithWorshippers where
  shrineMap : ShrineMap
  worshippers : List Worshipper
  spawnTimer : Int
  donationCount : Int
  totalDonations : Int
deriving DecidableEq

/-- The random draws one call of `updateWorshippers` may consume: `trial` is the
`rand.Float64()` of the spawn test, the others are the draws of `NewWorshipper`. -/
structure Draws where
  trial : ℚ
  side : Int
  speed : ℚ
  color : Fin 5

/-- The loop `for i := 0; i < len(g.worshippers); i++ { ... }` of `updateWorshippers`,
from index `i` on. The first argument bounds the number of iterations. -/
def updateLoop (sqrt : ℚ → ℚ) :
    Nat → MikoGameWithWorshippers → Int → Option MikoGameWithWorshippers
  | 0, _, _ => none
  | fuel + 1, g, i =>
    if i < (g.worshippers.length : Int) then
      match (if i < 0 then none else g.worshippers[i.toNat]?) with
      | none => none
      | some worshipper =>
        let oldState := worshipper.State
        match worshipper.Update sqrt g.shrineMap with
        | none => none
        | some updated =>
          let g1 := { g with worshippers := g.worshippers.set i.toNat updated }
          let g2 :=
            if oldState = WorshipperState.StateApproaching ∧
                updated.State = WorshipperState.StateOffering then
              { g1 with donationCount := g1.donationCount + 1,
                        totalDonations := g1.totalDonations + 1 }
            else g1
          if updated.IsOffScreen then
            updateLoop sqrt fuel
              { g2 with worshippers := g2.worshippers.take i.toNat ++
                  g2.worshippers.drop (i + 1).toNat }
              (i - 1 + 1)
          else updateLoop sqrt fuel g2 (i + 1)
    else some g

/-- The spawn part of `updateWorshippers`: `g.spawnTimer++`, then the spawn test
`g.spawnTimer >= spawnInterval && rand.Float64() < 0.3`, which reads the draw only when
the timer has reached the interval, and on success appends a new worshipper and resets
the timer. -/
def spawnStep (draws : Draws) (g : MikoGameWithWorshippers) :
    Option MikoGameWithWorshippers :=
  let g1 := { g with spawnTimer := g.spawnTimer + 1 }
  if g1.spawnTimer ≥ spawnInterval ∧ draws.trial < spawnChance then
    match NewWorshipper draws.side draws.speed draws.color g1.shrineMap with
    | none => none
    | some w => some { g1 with worshippers := g1.worshippers ++ [w], spawnTimer := 0 }
  else some g1

/-- The method `updateWorshippers`: the spawn part, then the update loop. -/
def updateWorshippers (sqrt : ℚ → ℚ) (draws : Draws) (g : MikoGameWithWorshippers) :
    Option MikoGameWithWorshippers :=
  match spawnStep draws g with
  | none => none
  | some g2 => updateLoop sqrt (g2.worshippers.length + 1) g2 0

/-- `Update` applied once to every worshipper of a list, in order. -/
def updateAll (sqrt : ℚ → ℚ) (shrineMap : ShrineMap) :
    List Worshipper → Option (List Worshipper)
  | [] => some []
  | w :: ws =>
    match w.Update sqrt shrineMap with
    | none => none
    | some u =>
      match updateAll sqrt shrineMap ws with
      | none => none
      | some us => some (u :: us)

/-- The number of positions at which a worshipper was in `StateApproaching` before and is
in `StateOffering` after. -/
def countArrivals : List Worshipper → List Worshipper → Int
  | a :: as, b :: bs =>
    (if a.State = WorshipperState.StateApproaching ∧
        b.State = WorshipperState.StateOffering then 1 else 0) + countArrivals as bs
  | _, _ => 0

/-- The worshipper after each of a sequence of `Update` calls, one call per map of the
list (the map may be edited between calls). -/
def runUpdates (sqrt : ℚ → ℚ) : List ShrineMap → Worshipper → Option (List Worshipper)
  | [], _ => some []
  | m :: ms, w =>
    match w.Update sqrt m with
    | none => none
    | some w1 =>
      match runUpdates sqrt ms w1 with
      | none => none
      | some rest => some (w1 :: rest)

/-- The number of steps of a trace at which the state goes from `StateApproaching` to
`StateOffering`: the transitions `updateWorshippers` counts in `donationCount`. -/
def arrivals : List Worshipper → Nat
  | a :: b :: rest =>
    (if a.State = WorshipperState.StateApproaching ∧
        b.State = WorshipperState.StateOffering then 1 else 0) + arrivals (b :: rest)
  | _ => 0

/-- The order of the lifecycle states. -/
def WorshipperState.rank : WorshipperState → Nat
  | WorshipperState.StateApproaching => 0
  | WorshipperState.StateOffering => 1
  | WorshipperState.StateLeaving => 2

/-- Integer square root by binary digits: the largest `r < 2 ^ bits` (added to `acc`) with
`r * r ≤ n`. -/
def isqrtBits : Nat → Nat → Nat → Nat
  | 0, _, acc => acc
  | b + 1, n, acc =>
    if (acc + 2 ^ b) * (acc + 2 ^ b) ≤ n then isqrtBits b n (acc + 2 ^ b)
    else isqrtBits b n acc

/-- A concrete square-root function for evaluating examples: the square root rounded
down to a multiple of `2 ^ (-52)`. It is exact on squares such as `225`. -/
def sqrtModel (q : ℚ) : ℚ :=
  (isqrtBits 80 (⌊q * 2 ^ 104⌋).toNat 0 : ℚ) / 2 ^ 52

/-- Worshippers that arise in the game: created by `NewWorshipper` and then updated any
number of times. -/
inductive Spawned (sqrt : ℚ → ℚ) : Worshipper → Prop where
  | create (side : Int) (speedDraw : ℚ) (colorDraw : Fin 5) (shrineMap : ShrineMap)
      (w : Worshipper) (h : NewWorshipper side speedDraw colorDraw shrineMap = some w) :
      Spawned sqrt w
  | update (shrineMap : ShrineMap) (w w1 : Worshipper) (hw : Spawned sqrt w)
      (h : w.Update sqrt shrineMap = some w1) : Spawned sqrt w1


/-! ## Example worshippers and game states -/

/-- A worshipper without a path, approaching from the left side, 15 pixels to the right
of the donation-box position `(512, 256)`. -/
def nearBoxWorshipper : Worshipper :=
  { X := 527, Y := 256, Width := 32, Height := 32,
    State := WorshipperState.StateApproaching, Timer := 0,
    StartX := -50, TargetX := 1074, Speed := 1, Color := ⟨255, 255, 255, 255⟩,
    Path := [], PathIndex := 0, NextTarget := ⟨0, 0⟩ }

/-- The worshipper `nearBoxWorshipper` after its arrival: in `StateOffering` with
`Timer = 0`. -/
def offeringWorshipper : Worshipper :=
  { nearBoxWorshipper with State := WorshipperState.StateOffering, Timer := 0 }

/-- An approaching worshipper at the centre `(544, 352)` of the tile `(8, 5)`, which is
the only and last waypoint of its path. -/
def lastWaypointWorshipper : Worshipper :=
  { nearBoxWorshipper with X := 544, Y := 352, Path := [⟨8, 5⟩], PathIndex := 0,
                           NextTarget := ⟨8, 5⟩ }

/-- A leaving worshipper without a path that spawned on the right side (`TargetX = -50`)
and stands on its exit position `(TargetX, 768)`. -/
def parkedWorshipper : Worshipper :=
  { X := -50, Y := 768, Width := 32, Height := 32,
    State := WorshipperState.StateLeaving, Timer := 0,
    StartX := 1074, TargetX := -50, Speed := 1, Color := ⟨255, 255, 255, 255⟩,
    Path := [], PathIndex := 0, NextTarget := ⟨0, 0⟩ }

/-- A game on the built-in map with no worshippers, one tick before the spawn counter
reaches `spawnInterval`. -/
def spawnGame : MikoGameWithWorshippers :=
  { shrineMap := createMikoShrineMap, worshippers := [], spawnTimer := 299,
    donationCount := 0, totalDonations := 0 }

/-- Draws with a failed spawn trial: `0.5 < 0.3` is false. -/
def failedTrial : Draws := { trial := 1 / 2, side := 0, speed := 1 / 4, color := 2 }

/-- Draws with a successful spawn trial: `0.1 < 0.3`. -/
def passedTrial : Draws := { trial := 1 / 10, side := 0, speed := 1 / 4, color := 2 }

/-- A square-root function that always returns `0`; with it every distance test of
`Update` succeeds at once, which gives short traces from `NewWorshipper`. -/
def sqrtZero (_ : ℚ) : ℚ := 0

/-- The worshipper that `NewWorshipper` creates on the built-in map for the left side
with speed draw `0` and the first tint: it has no path, because the donation-box tile
of that map is not walkable. -/
def spawnedWorshipper : Worshipper :=
  { X := -50, Y := 704, Width := 32, Height := 32,
    State := WorshipperState.StateApproaching, Timer := 0,
    StartX := -50, TargetX := 1074, Speed := 1, Color := ⟨255, 255, 255, 255⟩,
    Path := [], PathIndex := 0, NextTarget := ⟨0, 0⟩ }

/-- The worshipper `spawnedWorshipper` in `StateOffering` with the given timer. -/
def waitingWorshipper (timer : Int) : Worshipper :=
  { spawnedWorshipper with State := WorshipperState.StateOffering, Timer := timer }

/-! ## Invariants of worshippers in play -/

/-- The property of the square root that bounds a movement step: the square root of
`a * a + b * b` is at least `|a|`, so that `dx / distance` lies between `-1` and `1`. -/
def SqrtDominates (sqrt : ℚ → ℚ) : Prop :=
  ∀ a b : ℚ, |a| ≤ sqrt (a * a + b * b)

/-- A function with the property `SqrtDominates` that can be evaluated: the arithmetic
mean of `q` and `1`, which is at least the square root of `q`. -/
def sqrtUpper (q : ℚ) : ℚ := (q + 1) / 2

/-- The invariant of a worshipper in play on 12x16 maps: the speed and exit column are
those that `NewWorshipper` sets, `X` is within 1.5 pixels of the interval between the two
exit columns, the path stays on the grid, and the cursor is not negative and points at
`NextTarget` while it is inside the path. -/
structure Worshipper.InPlay (w : Worshipper) : Prop where
  speed : 1 ≤ w.Speed ∧ w.Speed < 3 / 2
  target : w.TargetX = -50 ∨ w.TargetX = 1074
  xBound : -103 / 2 ≤ w.X ∧ w.X ≤ 2151 / 2
  pathInBounds : ∀ p ∈ w.Path, InBounds p
  cursor : 0 ≤ w.PathIndex
  next : w.PathIndex < (w.Path.length : Int) →
    w.Path[w.PathIndex.toNat]? = some w.NextTarget

/-- The worshipper that `NewWorshipper` creates on `corridorMap` for the left side with
speed draw `0` and the first tint: it starts on the fallback tile `(8, 11)` and its path
runs up column 8 to the donation-box tile. -/
def corridorWorshipper : Worshipper :=
  { spawnedWorshipper with
    Path := [⟨8, 11⟩, ⟨8, 10⟩, ⟨8, 9⟩, ⟨8, 8⟩, ⟨8, 7⟩, ⟨8, 6⟩, ⟨8, 5⟩, ⟨8, 4⟩],
    PathIndex := 0, NextTarget := ⟨8, 11⟩ }

/-- The worshipper `corridorWorshipper` moved to 15 pixels left of the centre
`(544, 736)` of its waypoint `(8, 11)`. -/
def stepWorshipper : Worshipper :=
  { corridorWorshipper with X := 529, Y := 736 }

/-! ## The states of the search loop -/

/-- The open and closed lists at the start of every iteration of the main loop of
`findPath` that pops a node: the loop of `findPathLoop`, recording its states instead of
its result. -/
def searchStates (shrineMap : ShrineMap) (goal : Point) :
    Nat → NodeList → ClosedList → List (NodeList × ClosedList)
  | 0, _, _ => []
  | fuel + 1, openList, closedList =>
    if openList.length > 0 then
      (openList, closedList) ::
        match heap.Pop openList with
        | none => []
        | some (current, openList1) =>
          let closedList1 : ClosedList := (current.Point, current) :: closedList
          if current.Point.X = goal.X ∧ current.Point.Y = goal.Y then []
          else
            match directions.foldlM (relaxNeighbor shrineMap goal current closedList1)
                openList1 with
            | none => []
            | some openList2 => searchStates shrineMap goal fuel openList2 closedList1
    else []

/-- The open list with which `findPath` enters its main loop: the start node alone. -/
def startOpenList (start goal : Point) : NodeList :=
  [Node.mk start none 0 (manhattanDistance start goal) (manhattanDistance start goal)]

/-- The min-heap ordering on `F` that `container/heap` maintains: no node has a smaller
`F` than its parent in the implicit binary tree (the parent of index `j` is
`(j - 1) / 2`). -/
def heapOrdered (h : NodeList) : Bool :=
  (List.range h.length).all (fun j =>
    match h[(j - 1) / 2]?, h[j]? with
    | some a, some b => decide (a.F ≤ b.F)
    | _, _ => true)

/-- The node that `heap.Pop` returns has the least `F` of the open list. -/
def popsMinimum (h : NodeList) : Bool :=
  match heap.Pop h with
  | none => true
  | some (current, _) => h.all (fun n => decide (current.F ≤ n.F))

/-- The cost `G` of a node counts its parent links: it is `0` at a node without parent
and one more than the parent's `G` at every other node of the chain. -/
def Node.Counted : Node → Prop
  | .mk _ none g _ _ => g = 0
  | .mk _ (some parent) g _ _ => g = parent.G + 1 ∧ parent.Counted

/-- The parent chains of the open nodes: `G` counts the links, no tile occurs twice in a
chain, and every tile of a chain after the node itself is closed. -/
structure ChainInv (openList : NodeList) (closedList : ClosedList) : Prop where
  counted : ∀ n ∈ openList, n.Counted
  simple : ∀ n ∈ openList, n.chain.Nodup
  closedChain : ∀ n ∈ openList, ∀ p ∈ n.chain.tail, p ∈ keys closedList

/-! # Theorems -/

/-! ## Walkability -/

theorem lookup_all_true (tile : TileID) (l : List (TileID × Bool))
    (h : ∀ kv ∈ l, kv.2 = true) :
    (match l.lookup tile with | some b => b | none => false)
      = decide (tile ∈ l.map Prod.fst) := by
  induction l with
  | nil => simp
  | cons kv rest ih =>
    obtain ⟨k, v⟩ := kv
    have hv : v = true := h (k, v) (List.mem_cons_self _ _)
    have ih1 := ih (fun kv hkv => h kv (List.mem_cons_of_mem _ hkv))
    by_cases hk : tile = k
    · subst hk; simp [List.lookup, hv]
    · have : (tile == k) = false := by simpa using hk
      simp only [List.lookup, this, ih1, List.map, List.mem_cons, hk, false_or]

theorem walkableTilesMapLookup_eq (tile : TileID) :
    walkableTilesMapLookup tile = decide (tile ∈ walkableTilesMap.map Prod.fst) := by
  unfold walkableTilesMapLookup
  exact lookup_all_true tile walkableTilesMap (by decide)

theorem isWalkable_of_grid (m : ShrineMap) (hm : IsGrid m) (x y : Int)
    (hx : 0 ≤ x ∧ x < 16) (hy : 0 ≤ y ∧ y < 12) :
    ∃ row tile, m[y.toNat]? = some row ∧ row[x.toNat]? = some tile ∧
      isWalkable m x y = some (walkableTilesMapLookup tile) := by
  obtain ⟨hlen, hrows⟩ := hm
  have hy1 : y.toNat < m.length := by omega
  have hrow : (m[y.toNat]).length = 16 := hrows _ (List.getElem_mem _)
  have hx1 : x.toNat < (m[y.toNat]).length := by omega
  refine ⟨m[y.toNat], (m[y.toNat])[x.toNat], List.getElem?_eq_getElem hy1,
    List.getElem?_eq_getElem hx1, ?_⟩
  unfold isWalkable
  have hc : ¬ (x < 0 ∨ x ≥ mikoMapWidth ∨ y < 0 ∨ y ≥ mikoMapHeight) := by
    simp only [mikoMapWidth, mikoMapHeight]; omega
  rw [if_neg hc, List.getElem?_eq_getElem hy1]
  simp only [List.getElem?_eq_getElem hx1]

theorem isWalkable_out (m : ShrineMap) (x y : Int)
    (h : ¬ (0 ≤ x ∧ x < 16 ∧ 0 ≤ y ∧ y < 12)) : isWalkable m x y = some false := by
  unfold isWalkable
  have hc : (x < 0 ∨ x ≥ mikoMapWidth ∨ y < 0 ∨ y ≥ mikoMapHeight) := by
    simp only [mikoMapWidth, mikoMapHeight]; omega
  rw [if_pos hc]

theorem isWalkable_true_inBounds (m : ShrineMap) (x y : Int)
    (h : isWalkable m x y = some true) : 0 ≤ x ∧ x < 16 ∧ 0 ≤ y ∧ y < 12 := by
  by_contra hc
  rw [isWalkable_out m x y hc] at h
  simp at h

/-- Claim C7: on a 12-row by 16-column map `isWalkable` never indexes out of range
(it returns normally for all integers `x`, `y`), returns `false` outside
`0 <= x < 16`, `0 <= y < 12`, and inside returns `true` exactly when the tile
identifier `map[y][x]` is one of the eight identifiers of `walkableTilesMap`. -/
theorem isWalkable_total_exact (m : ShrineMap) (hm : IsGrid m) (x y : Int) :
    isWalkable m x y ≠ none ∧
    (¬ (0 ≤ x ∧ x < 16 ∧ 0 ≤ y ∧ y < 12) → isWalkable m x y = some false) ∧
    (0 ≤ x ∧ x < 16 ∧ 0 ≤ y ∧ y < 12 →
      ∃ row tile, m[y.toNat]? = some row ∧ row[x.toNat]? = some tile ∧
        isWalkable m x y = some (decide (tile ∈
          [(⟨0, 1⟩ : TileID), ⟨0, 5⟩, ⟨2, 1⟩, ⟨0, 3⟩, ⟨0, 6⟩, ⟨1, 6⟩, ⟨4, 2⟩, ⟨5, 2⟩]))) := by
  have hin : 0 ≤ x ∧ x < 16 ∧ 0 ≤ y ∧ y < 12 →
      ∃ row tile, m[y.toNat]? = some row ∧ row[x.toNat]? = some tile ∧
        isWalkable m x y = some (decide (tile ∈
          [(⟨0, 1⟩ : TileID), ⟨0, 5⟩, ⟨2, 1⟩, ⟨0, 3⟩, ⟨0, 6⟩, ⟨1, 6⟩, ⟨4, 2⟩, ⟨5, 2⟩])) := by
    intro h
    obtain ⟨row, tile, h1, h2, h3⟩ :=
      isWalkable_of_grid m hm x y ⟨h.1, h.2.1⟩ ⟨h.2.2.1, h.2.2.2⟩
    refine ⟨row, tile, h1, h2, ?_⟩
    rw [h3, walkableTilesMapLookup_eq]; rfl
  refine ⟨?_, isWalkable_out m x y, hin⟩
  by_cases h : 0 ≤ x ∧ x < 16 ∧ 0 ≤ y ∧ y < 12
  · obtain ⟨_, _, _, _, h3⟩ := hin h
    rw [h3]; simp
  · rw [isWalkable_out m x y h]; simp

set_option maxRecDepth 100000 in
/-- Claim C7 at the built-in map and the tile `(8, 5)`. -/
theorem isWalkable_total_exact_witness :
    IsGrid createMikoShrineMap ∧
    (isWalkable createMikoShrineMap 8 5 ≠ none ∧
    (¬ (0 ≤ (8 : Int) ∧ (8 : Int) < 16 ∧ 0 ≤ (5 : Int) ∧ (5 : Int) < 12) →
      isWalkable createMikoShrineMap 8 5 = some false) ∧
    (0 ≤ (8 : Int) ∧ (8 : Int) < 16 ∧ 0 ≤ (5 : Int) ∧ (5 : Int) < 12 →
      ∃ row tile, createMikoShrineMap[(5 : Int).toNat]? = some row ∧
        row[(8 : Int).toNat]? = some tile ∧
        isWalkable createMikoShrineMap 8 5 = some (decide (tile ∈
          [(⟨0, 1⟩ : TileID), ⟨0, 5⟩, ⟨2, 1⟩, ⟨0, 3⟩, ⟨0, 6⟩, ⟨1, 6⟩, ⟨4, 2⟩, ⟨5, 2⟩])))) :=
  ⟨by decide, isWalkable_total_exact createMikoShrineMap (by decide) 8 5⟩

/-! ## Pixel to tile -/

theorem floatToInt_nonneg (q : ℚ) (h : 0 ≤ q) :
    (floatToInt q : ℚ) ≤ q ∧ q < floatToInt q + 1 := by
  unfold floatToInt
  rw [if_pos h]
  exact ⟨Int.floor_le q, Int.lt_floor_add_one q⟩

theorem floatToInt_neg (q : ℚ) (h : q < 0) :
    (floatToInt q : ℚ) - 1 < q ∧ q ≤ floatToInt q := by
  unfold floatToInt
  rw [if_neg (not_le.mpr h)]
  refine ⟨?_, Int.le_ceil q⟩
  have := Int.ceil_lt_add_one q
  linarith

theorem tile_side : mikoTileSize * mikoScaleFactor = 64 := by
  norm_num [mikoTileSize, mikoScaleFactor]

theorem trunc_div_nonneg (x : ℚ) (h : 0 ≤ x) :
    64 * (floatToInt (x / 64) : ℚ) ≤ x ∧ x < 64 * ((floatToInt (x / 64) : ℚ) + 1) := by
  have hq : (0 : ℚ) ≤ x / 64 := by positivity
  obtain ⟨h1, h2⟩ := floatToInt_nonneg (x / 64) hq
  constructor
  · linarith [(le_div_iff₀ (by norm_num : (0 : ℚ) < 64)).mp h1]
  · have := (div_lt_iff₀ (by norm_num : (0 : ℚ) < 64)).mp h2
    linarith

theorem trunc_div_neg (x : ℚ) (h : x < 0) :
    64 * ((floatToInt (x / 64) : ℚ) - 1) < x ∧ x ≤ 64 * (floatToInt (x / 64) : ℚ) := by
  have hq : x / 64 < 0 := by
    apply div_neg_of_neg_of_pos h; norm_num
  obtain ⟨h1, h2⟩ := floatToInt_neg (x / 64) hq
  constructor
  · have := (lt_div_iff₀ (by norm_num : (0 : ℚ) < 64)).mp h1
    linarith
  · have := (div_le_iff₀ (by norm_num : (0 : ℚ) < 64)).mp h2
    linarith

theorem pixelToTile_left_spawn : pixelToTile (-50) 704 = ⟨0, 11⟩ := by decide!

/-- Claim C10 fails at the left spawn position: `pixelToTile(-50, 704)` is the tile
`(0, 11)`, and `64 * 0 <= -50` is false, so the returned tile does not contain the
pixel. -/
theorem pixelToTile_left_spawn_not_containing :
    ¬ (64 * ((pixelToTile (-50) 704).X : ℚ) ≤ -50 ∧
       (-50 : ℚ) < 64 * (((pixelToTile (-50) 704).X : ℚ) + 1) ∧
       64 * ((pixelToTile (-50) 704).Y : ℚ) ≤ 704 ∧
       (704 : ℚ) < 64 * (((pixelToTile (-50) 704).Y : ℚ) + 1)) := by
  rw [pixelToTile_left_spawn]
  norm_num

/-- Claim C10, amended: `pixelToTile` divides by the tile side 64 and truncates toward
zero. For a non-negative coordinate the result is the containing tile,
`64*p.X <= x < 64*(p.X+1)`; for a negative coordinate it is rounded up instead,
`64*(p.X-1) < x <= 64*p.X`; likewise for `y`. -/
theorem pixelToTile_truncates (x y : ℚ) :
    (0 ≤ x → 64 * ((pixelToTile x y).X : ℚ) ≤ x ∧ x < 64 * (((pixelToTile x y).X : ℚ) + 1)) ∧
    (x < 0 → 64 * (((pixelToTile x y).X : ℚ) - 1) < x ∧ x ≤ 64 * ((pixelToTile x y).X : ℚ)) ∧
    (0 ≤ y → 64 * ((pixelToTile x y).Y : ℚ) ≤ y ∧ y < 64 * (((pixelToTile x y).Y : ℚ) + 1)) ∧
    (y < 0 → 64 * (((pixelToTile x y).Y : ℚ) - 1) < y ∧ y ≤ 64 * ((pixelToTile x y).Y : ℚ)) := by
  simp only [pixelToTile, tile_side]
  exact ⟨trunc_div_nonneg x, trunc_div_neg x, trunc_div_nonneg y, trunc_div_neg y⟩

/-! ## Preconditions of `findPath` -/

theorem isValidPosition_iff (p : Point) : isValidPosition p = true ↔ InBounds p := by
  simp only [isValidPosition, InBounds, mikoMapWidth, mikoMapHeight, decide_eq_true_eq,
    ge_iff_le]

theorem isValidPosition_false_iff (p : Point) : isValidPosition p = false ↔ ¬ InBounds p := by
  rw [← isValidPosition_iff]; simp

theorem findPathLoop_error (m : ShrineMap) (goal : Point) (fuel : Nat) :
    ∀ (openList : NodeList) (closedList : ClosedList) (path : List Point) (e : PathError),
      findPathLoop m goal fuel openList closedList = some (path, some e) →
      path = [] ∧ e = PathError.noPathFound := by
  induction fuel with
  | zero => intro o c p e h; simp [findPathLoop] at h
  | succ n ih =>
    intro o c p e h
    unfold findPathLoop at h
    split at h
    · split at h
      · simp at h
      · split at h
        · simp at h
        · dsimp only at h
          split at h
          · simp at h
          · exact ih _ _ _ _ h
    · simp only [Option.some.injEq, Prod.mk.injEq] at h
      exact ⟨h.1.symm, h.2.symm⟩

theorem findPath_search (m : ShrineMap) (start goal : Point)
    (hs : isValidPosition start = true) (hg : isValidPosition goal = true)
    (ws : isWalkable m start.X start.Y = some true)
    (wg : isWalkable m goal.X goal.Y = some true)
    (hne : ¬ (start.X = goal.X ∧ start.Y = goal.Y)) :
    findPath m start goal =
      findPathLoop m goal searchBudget
        [Node.mk start none 0 (manhattanDistance start goal) (manhattanDistance start goal)]
        [] := by
  unfold findPath
  simp only [hs, hg, ws, wg, if_neg hne]
  simp [heap.Init, heap.Push, NodeList.Push, heap.up]

/-- Claim C4: for every map, start and goal, `findPath` returns the invalid-position
error exactly when start (checked first) or goal is out of bounds; otherwise the
start-not-walkable error exactly when `isWalkable` is false at start; otherwise the
goal-not-walkable error exactly when `isWalkable` is false at goal. Every error is
returned with a nil path, and none of these errors is returned when both tiles are in
bounds and walkable. -/
theorem findPath_precondition_errors (m : ShrineMap) (start goal : Point) :
    (findPath m start goal = some ([], some PathError.invalidStart) ↔ ¬ InBounds start) ∧
    (findPath m start goal = some ([], some PathError.invalidGoal) ↔
        InBounds start ∧ ¬ InBounds goal) ∧
    (findPath m start goal = some ([], some PathError.startNotWalkable) ↔
        InBounds start ∧ InBounds goal ∧ isWalkable m start.X start.Y = some false) ∧
    (findPath m start goal = some ([], some PathError.goalNotWalkable) ↔
        InBounds start ∧ InBounds goal ∧ isWalkable m start.X start.Y = some true ∧
        isWalkable m goal.X goal.Y = some false) ∧
    (∀ path e, findPath m start goal = some (path, some e) → path = []) := by
  by_cases hs : InBounds start
  swap
  · have hs1 := (isValidPosition_false_iff start).mpr hs
    simp [findPath, hs1, hs]
  have hs1 := (isValidPosition_iff start).mpr hs
  by_cases hg : InBounds goal
  swap
  · have hg1 := (isValidPosition_false_iff goal).mpr hg
    simp [findPath, hs1, hg1, hs, hg]
  have hg1 := (isValidPosition_iff goal).mpr hg
  rcases hws : isWalkable m start.X start.Y with _ | _ | _
  · simp [findPath, hs1, hg1, hs, hg, hws]
  · simp [findPath, hs1, hg1, hs, hg, hws]
  rcases hwg : isWalkable m goal.X goal.Y with _ | _ | _
  · simp [findPath, hs1, hg1, hs, hg, hws, hwg]
  · simp [findPath, hs1, hg1, hs, hg, hws, hwg]
  by_cases hne : start.X = goal.X ∧ start.Y = goal.Y
  · simp [findPath, hs1, hg1, hs, hg, hws, hwg, hne]
  · rw [findPath_search m start goal hs1 hg1 hws hwg hne]
    simp only [hs, hg, hws, hwg, not_true_eq_false, false_and, and_false, true_and, iff_false,
      Option.some.injEq, Bool.true_eq_false, Bool.false_eq_true]
    refine ⟨?_, ?_, ?_, ?_, ?_⟩
    · intro h; have := (findPathLoop_error _ _ _ _ _ _ _ h).2; cases this
    · intro h; have := (findPathLoop_error _ _ _ _ _ _ _ h).2; cases this
    · intro h; have := (findPathLoop_error _ _ _ _ _ _ _ h).2; cases this
    · intro h; have := (findPathLoop_error _ _ _ _ _ _ _ h).2; cases this
    · intro path e h; exact (findPathLoop_error _ _ _ _ _ _ _ h).1

/-- Claim C5: for every map and every in-bounds tile `t` at which `isWalkable` is true,
`findPath(map, t, t)` returns exactly the one-tile path `[t]` with no error. -/
theorem findPath_trivial (m : ShrineMap) (t : Point) (hb : InBounds t)
    (hw : isWalkable m t.X t.Y = some true) : findPath m t t = some ([t], none) := by
  have hv := (isValidPosition_iff t).mpr hb
  simp [findPath, hv, hw]

set_option maxRecDepth 100000 in
/-- Claim C5 at the built-in map and the tile `(8, 11)`. -/
theorem findPath_trivial_witness :
    InBounds ⟨8, 11⟩ ∧ isWalkable createMikoShrineMap 8 11 = some true ∧
      findPath createMikoShrineMap ⟨8, 11⟩ ⟨8, 11⟩ = some ([⟨8, 11⟩], none) :=
  ⟨by decide, by decide, findPath_trivial createMikoShrineMap ⟨8, 11⟩ (by decide) (by decide)⟩

/-! ## Nearest walkable tile -/

theorem mem_intRange (lo hi v : Int) : v ∈ intRange lo hi ↔ lo ≤ v ∧ v ≤ hi := by
  unfold intRange
  simp only [List.mem_map, List.mem_range]
  constructor
  · rintro ⟨k, hk, rfl⟩
    omega
  · intro h
    exact ⟨(v - lo).toNat, by omega, by omega⟩

theorem intRange_pairwise (lo hi : Int) : (intRange lo hi).Pairwise (· < ·) := by
  unfold intRange
  rw [List.pairwise_map]
  exact (List.pairwise_lt_range _).imp (by intro a b h; omega)

theorem forReturn_total {α β : Type} (body : α → Option (Option β)) (l : List α)
    (h : ∀ a ∈ l, body a ≠ none) : forReturn body l ≠ none := by
  induction l with
  | nil => simp [forReturn]
  | cons a rest ih =>
    have ha := h a (List.mem_cons_self _ _)
    have ih1 := ih (fun b hb => h b (List.mem_cons_of_mem _ hb))
    unfold forReturn
    split
    · contradiction
    · simp
    · exact ih1

theorem forReturn_none {α β : Type} (body : α → Option (Option β)) (l : List α)
    (h : forReturn body l = some none) : ∀ a ∈ l, body a = some none := by
  induction l with
  | nil => simp
  | cons a rest ih =>
    unfold forReturn at h
    split at h
    · simp at h
    · simp at h
    · rename_i hb
      intro b hb1
      rcases List.mem_cons.mp hb1 with rfl | hb2
      · exact hb
      · exact ih h b hb2

theorem forReturn_first {α β : Type} (body : α → Option (Option β)) (l : List α) (r : β)
    (h : forReturn body l = some (some r)) :
    ∃ l1 a l2, l = l1 ++ a :: l2 ∧ (∀ b ∈ l1, body b = some none) ∧
      body a = some (some r) := by
  induction l with
  | nil => simp [forReturn] at h
  | cons a rest ih =>
    unfold forReturn at h
    split at h
    · simp at h
    · rename_i r1 hb
      simp only [Option.some.injEq] at h
      subst h
      exact ⟨[], a, rest, rfl, by simp, hb⟩
    · rename_i hb
      obtain ⟨l1, a1, l2, h1, h2, h3⟩ := ih h
      refine ⟨a :: l1, a1, l2, by simp [h1], ?_, h3⟩
      intro b hb1
      rcases List.mem_cons.mp hb1 with rfl | hb2
      · exact hb
      · exact h2 b hb2

theorem isWalkable_grid_total (m : ShrineMap) (hm : IsGrid m) (x y : Int) :
    isWalkable m x y = some true ∨ isWalkable m x y = some false := by
  by_cases h : 0 ≤ x ∧ x < 16 ∧ 0 ≤ y ∧ y < 12
  · obtain ⟨_, tile, _, _, h3⟩ := isWalkable_of_grid m hm x y ⟨h.1, h.2.1⟩ ⟨h.2.2.1, h.2.2.2⟩
    rw [h3]
    cases walkableTilesMapLookup tile <;> simp
  · exact Or.inr (isWalkable_out m x y h)

theorem checkOffset_total (m : ShrineMap) (hm : IsGrid m) (t : Point) (dx dy : Int) :
    checkOffset m t dx dy ≠ none := by
  unfold checkOffset
  split
  · simp
  · rcases isWalkable_grid_total m hm (t.X + dx) (t.Y + dy) with h | h <;> simp [h]

theorem scanSquare_total (m : ShrineMap) (hm : IsGrid m) (t : Point) (r : Int) :
    scanSquare m t r ≠ none := by
  unfold scanSquare
  apply forReturn_total
  intro dx _
  apply forReturn_total
  intro dy _
  exact checkOffset_total m hm t dx dy

theorem searchRings_total (m : ShrineMap) (hm : IsGrid m) (t : Point) :
    searchRings m t ≠ none := by
  unfold searchRings
  apply forReturn_total
  intro r _
  exact scanSquare_total m hm t r

theorem scanSquare_none (m : ShrineMap) (t : Point) (r : Int)
    (h : scanSquare m t r = some none) (q : Point) (hq : q ≠ t)
    (hd : chebyshev q t ≤ r.toNat) : isWalkable m q.X q.Y ≠ some true := by
  unfold scanSquare at h
  have hz : ¬ (q.X - t.X = 0 ∧ q.Y - t.Y = 0) := by
    intro hz
    apply hq
    cases q; cases t
    simp only [Point.mk.injEq] at *
    omega
  have hdx : q.X - t.X ∈ intRange (-r) r := by
    rw [mem_intRange]; unfold chebyshev at hd; omega
  have hdy : q.Y - t.Y ∈ intRange (-r) r := by
    rw [mem_intRange]; unfold chebyshev at hd; omega
  have h1 := forReturn_none _ _ (forReturn_none _ _ h _ hdx) _ hdy
  unfold checkOffset at h1
  rw [if_neg hz] at h1
  have e1 : t.X + (q.X - t.X) = q.X := by omega
  have e2 : t.Y + (q.Y - t.Y) = q.Y := by omega
  simp only [e1, e2] at h1
  intro hw
  rw [hw] at h1
  simp at h1

theorem scanSquare_some (m : ShrineMap) (t : Point) (r : Int) (p : Point)
    (h : scanSquare m t r = some (some p)) :
    isWalkable m p.X p.Y = some true ∧ chebyshev p t ≤ r.toNat := by
  unfold scanSquare at h
  obtain ⟨_, dx, _, hl, _, h1⟩ := forReturn_first _ _ _ h
  obtain ⟨_, dy, _, hl2, _, h2⟩ := forReturn_first _ _ _ h1
  have hdx : dx ∈ intRange (-r) r := by rw [hl]; simp
  have hdy : dy ∈ intRange (-r) r := by rw [hl2]; simp
  rw [mem_intRange] at hdx hdy
  unfold checkOffset at h2
  split at h2
  · simp at h2
  · dsimp only at h2
    split at h2
    · simp at h2
    · rename_i hw
      simp only [Option.some.injEq] at h2
      subst h2
      refine ⟨hw, ?_⟩
      unfold chebyshev
      simp only
      omega
    · simp at h2

theorem searchRings_some (m : ShrineMap) (t : Point) (p : Point)
    (h : searchRings m t = some (some p)) :
    isWalkable m p.X p.Y = some true ∧ chebyshev p t ≤ 5 ∧
      ∀ q, q ≠ t → isWalkable m q.X q.Y = some true → chebyshev p t ≤ chebyshev q t := by
  unfold searchRings at h
  obtain ⟨l1, r, l2, hl, hbefore, hr⟩ := forReturn_first _ _ _ h
  have hmem : r ∈ intRange 1 maxSearchRadius := by rw [hl]; simp
  rw [mem_intRange] at hmem
  simp only [maxSearchRadius] at hmem
  obtain ⟨hw, hd⟩ := scanSquare_some m t r p hr
  refine ⟨hw, by omega, ?_⟩
  intro q hq hwq
  by_contra hlt
  push_neg at hlt
  -- q lies in the square of radius chebyshev q t, which is at least 1 and below r
  have hpos : 1 ≤ chebyshev q t := by
    by_contra h0
    apply hq
    unfold chebyshev at h0
    cases q; cases t
    simp only [Point.mk.injEq] at *
    omega
  have hmem2 : (chebyshev q t : Int) ∈ intRange 1 maxSearchRadius := by
    rw [mem_intRange]; simp only [maxSearchRadius]; omega
  have hpw := intRange_pairwise 1 maxSearchRadius
  rw [hl] at hmem2 hpw
  have hin : (chebyshev q t : Int) ∈ l1 := by
    rcases List.mem_append.mp hmem2 with h1 | h1
    · exact h1
    · exfalso
      rcases List.mem_cons.mp h1 with h2 | h2
      · omega
      · have := (List.pairwise_cons.mp (List.pairwise_append.mp hpw).2.1).1 _ h2
        omega
  have := scanSquare_none m t _ (hbefore _ hin) q hq (by simp)
  exact this hwq

theorem searchRings_none (m : ShrineMap) (t : Point) (h : searchRings m t = some none)
    (q : Point) (hq : q ≠ t) (hd : chebyshev q t ≤ 5) :
    isWalkable m q.X q.Y ≠ some true := by
  unfold searchRings at h
  have h5 : (5 : Int) ∈ intRange 1 maxSearchRadius := by
    rw [mem_intRange]; simp [maxSearchRadius]
  exact scanSquare_none m t 5 (forReturn_none _ _ h 5 h5) q hq (by simpa using hd)

theorem chebyshev_self (t : Point) : chebyshev t t = 0 := by
  simp [chebyshev]

theorem fallbackPoint_X : mikoMapWidth / 2 = 8 := by decide

theorem fallbackPoint_Y : mikoMapHeight - 1 = 11 := by decide

/-- Claim C8: on a 12x16 map, with `t = pixelToTile(x, y)`, if some walkable tile lies
within Chebyshev distance 5 of `t` then `findNearestWalkableTile` returns without error a
walkable tile whose Chebyshev distance to `t` is least among all walkable tiles; it is
`t` itself when `t` is walkable. -/
theorem findNearestWalkableTile_minimal_ring (m : ShrineMap) (hm : IsGrid m) (x y : ℚ)
    (q : Point) (hq : isWalkable m q.X q.Y = some true)
    (hd : chebyshev q (pixelToTile x y) ≤ 5) :
    ∃ p, findNearestWalkableTile m x y = some (p, none) ∧
      isWalkable m p.X p.Y = some true ∧
      (∀ q1, isWalkable m q1.X q1.Y = some true →
        chebyshev p (pixelToTile x y) ≤ chebyshev q1 (pixelToTile x y)) ∧
      (isWalkable m (pixelToTile x y).X (pixelToTile x y).Y = some true →
        p = pixelToTile x y) := by
  unfold findNearestWalkableTile
  generalize pixelToTile x y = t at *
  dsimp only
  rcases isWalkable_grid_total m hm t.X t.Y with ht | ht
  · refine ⟨t, by simp [ht], ht, ?_, fun _ => rfl⟩
    intro q1 _
    rw [chebyshev_self]; omega
  · have hqt : q ≠ t := by
      rintro rfl
      rw [hq] at ht; simp at ht
    rcases hsr : searchRings m t with _ | _ | p
    · exact absurd hsr (searchRings_total m hm t)
    · exact absurd hq (searchRings_none m t hsr q hqt hd)
    · obtain ⟨hw, _, hmin⟩ := searchRings_some m t p hsr
      refine ⟨p, by simp [ht], hw, ?_, ?_⟩
      · intro q1 hq1
        apply hmin q1 _ hq1
        rintro rfl
        rw [hq1] at ht; simp at ht
      · intro h; rw [h] at ht; simp at ht

set_option maxRecDepth 100000 in
/-- Claim C8 at the built-in map and the right spawn position `(1074, 704)`, whose tile
`(16, 11)` is outside the grid; the walkable tile `(15, 11)` is at distance 1. -/
theorem findNearestWalkableTile_minimal_ring_witness :
    IsGrid createMikoShrineMap ∧ isWalkable createMikoShrineMap 15 11 = some true ∧
    chebyshev ⟨15, 11⟩ (pixelToTile 1074 704) ≤ 5 ∧
    ∃ p, findNearestWalkableTile createMikoShrineMap 1074 704 = some (p, none) ∧
      isWalkable createMikoShrineMap p.X p.Y = some true ∧
      (∀ q1, isWalkable createMikoShrineMap q1.X q1.Y = some true →
        chebyshev p (pixelToTile 1074 704) ≤ chebyshev q1 (pixelToTile 1074 704)) ∧
      (isWalkable createMikoShrineMap (pixelToTile 1074 704).X (pixelToTile 1074 704).Y
          = some true → p = pixelToTile 1074 704) :=
  ⟨by decide, by decide, by decide!,
   findNearestWalkableTile_minimal_ring createMikoShrineMap (by decide) 1074 704 ⟨15, 11⟩
     (by decide) (by decide!)⟩

/-- Claim C9: on a 12x16 map, with `t = pixelToTile(x, y)`: when no walkable tile lies
within Chebyshev distance 5 of `t`, `findNearestWalkableTile` returns the default tile
`(8, 11)` if that tile is walkable and otherwise fails with the no-walkable-tile error;
it fails in no other case; and every tile it returns without error is walkable. -/
theorem findNearestWalkableTile_fallback (m : ShrineMap) (hm : IsGrid m) (x y : ℚ) :
    ((∀ q, isWalkable m q.X q.Y = some true → 5 < chebyshev q (pixelToTile x y)) →
      (isWalkable m 8 11 = some true →
        findNearestWalkableTile m x y = some (⟨8, 11⟩, none)) ∧
      (isWalkable m 8 11 ≠ some true →
        findNearestWalkableTile m x y
          = some (⟨0, 0⟩, some NearestError.noWalkableTileFound))) ∧
    (∀ p e, findNearestWalkableTile m x y = some (p, some e) →
      (∀ q, isWalkable m q.X q.Y = some true → 5 < chebyshev q (pixelToTile x y)) ∧
      isWalkable m 8 11 = some false) ∧
    (∀ p, findNearestWalkableTile m x y = some (p, none) →
      isWalkable m p.X p.Y = some true) := by
  unfold findNearestWalkableTile
  generalize pixelToTile x y = t at *
  simp only [fallbackPoint_X, fallbackPoint_Y]
  rcases isWalkable_grid_total m hm t.X t.Y with ht | ht
  · simp only [ht]
    refine ⟨?_, ?_, ?_⟩
    · intro hfar
      have := hfar t ht
      rw [chebyshev_self] at this; omega
    · intro p e h; simp at h
    · intro p h
      simp only [Option.some.injEq, Prod.mk.injEq, and_true] at h
      subst h; exact ht
  · simp only [ht]
    rcases hsr : searchRings m t with _ | _ | p
    · exact absurd hsr (searchRings_total m hm t)
    · have hfar : ∀ q, isWalkable m q.X q.Y = some true → 5 < chebyshev q t := by
        intro q hq
        by_contra hle
        have hqt : q ≠ t := by
          rintro rfl
          rw [hq] at ht; simp at ht
        exact searchRings_none m t hsr q hqt (by omega) hq
      rcases isWalkable_grid_total m hm 8 11 with hf | hf
      · simp [hf]
      · simp only [hf]
        refine ⟨fun _ => by simp, fun p e _ => ⟨hfar, trivial⟩, ?_⟩
        intro p h; simp at h
    · obtain ⟨hw, hd5, _⟩ := searchRings_some m t p hsr
      simp only
      refine ⟨?_, ?_, ?_⟩
      · intro hfar
        have := hfar p hw
        omega
      · intro p1 e h; simp at h
      · intro p1 h
        simp only [Option.some.injEq, Prod.mk.injEq, and_true] at h
        subst h; exact hw

set_option maxRecDepth 100000 in
/-- Claim C9 read at the built-in map and the left spawn position `(-50, 704)`: the
tile returned there without error is walkable. -/
theorem findNearestWalkableTile_fallback_witness :
    IsGrid createMikoShrineMap ∧
    findNearestWalkableTile createMikoShrineMap (-50) 704 = some (⟨0, 11⟩, none) ∧
    isWalkable createMikoShrineMap 0 11 = some true :=
  ⟨by decide, by decide!,
   (findNearestWalkableTile_fallback createMikoShrineMap (by decide) (-50) 704).2.2
     ⟨0, 11⟩ (by decide!)⟩

/-! ## The heap operations rearrange the slice -/

theorem cons_set_perm {α : Type} (xs : List α) (j : Nat) (b x : α) (h : xs[j]? = some b) :
    (b :: xs.set j x).Perm (x :: xs) := by
  induction xs generalizing j with
  | nil => simp at h
  | cons y ys ih =>
    cases j with
    | zero =>
      simp only [List.getElem?_cons_zero, Option.some.injEq] at h
      subst h
      exact List.Perm.swap _ _ _
    | succ j =>
      simp only [List.getElem?_cons_succ] at h
      simp only [List.set_cons_succ]
      exact ((List.Perm.swap y b _).trans ((ih j h).cons y)).trans (List.Perm.swap x y _)

theorem swap_perm (l : NodeList) (i j : Nat) (r : NodeList)
    (h : NodeList.Swap l i j = some r) : r.Perm l := by
  unfold NodeList.Swap at h
  split at h
  · rename_i a b ha hb
    simp only [Option.some.injEq] at h
    subst h
    induction l generalizing i j with
    | nil => simp at ha
    | cons x xs ih =>
      cases i with
      | zero =>
        cases j with
        | zero =>
          simp only [List.getElem?_cons_zero, Option.some.injEq] at ha hb
          subst ha; subst hb
          simp
        | succ j =>
          simp only [List.getElem?_cons_zero, Option.some.injEq, List.getElem?_cons_succ] at ha hb
          subst ha
          simp only [List.set_cons_zero, List.set_cons_succ]
          exact cons_set_perm xs j _ _ hb
      | succ i =>
        cases j with
        | zero =>
          simp only [List.getElem?_cons_zero, Option.some.injEq, List.getElem?_cons_succ] at ha hb
          subst hb
          simp only [List.set_cons_zero, List.set_cons_succ]
          exact cons_set_perm xs i _ _ ha
        | succ j =>
          simp only [List.getElem?_cons_succ] at ha hb
          simp only [List.set_cons_succ]
          exact (ih i j ha hb).cons x
  · simp at h

theorem swap_total (l : NodeList) (i j : Nat) (hi : i < l.length) (hj : j < l.length) :
    ∃ r, NodeList.Swap l i j = some r := by
  unfold NodeList.Swap
  rw [List.getElem?_eq_getElem hi, List.getElem?_eq_getElem hj]
  exact ⟨_, rfl⟩

theorem less_total (l : NodeList) (i j : Nat) (hi : i < l.length) (hj : j < l.length) :
    ∃ b, NodeList.Less l i j = some b := by
  unfold NodeList.Less
  rw [List.getElem?_eq_getElem hi, List.getElem?_eq_getElem hj]
  exact ⟨_, rfl⟩

theorem up_perm (fuel : Nat) : ∀ (h : NodeList) (j : Nat) (r : NodeList),
    heap.up fuel h j = some r → r.Perm h := by
  induction fuel with
  | zero => intro h j r hr; simp [heap.up] at hr
  | succ n ih =>
    intro h j r hr
    unfold heap.up at hr
    dsimp only at hr
    split at hr
    · simp only [Option.some.injEq] at hr; subst hr; exact List.Perm.refl _
    · split at hr
      · simp at hr
      · simp only [Option.some.injEq] at hr; subst hr; exact List.Perm.refl _
      · split at hr
        · simp at hr
        · rename_i h1 hs
          exact (ih _ _ _ hr).trans (swap_perm _ _ _ _ hs)

theorem up_total (fuel : Nat) : ∀ (h : NodeList) (j : Nat), j < fuel → j < h.length →
    ∃ r, heap.up fuel h j = some r := by
  induction fuel with
  | zero => intro h j hj; omega
  | succ n ih =>
    intro h j hj hlen
    unfold heap.up
    dsimp only
    split
    · exact ⟨_, rfl⟩
    · rename_i hne
      have hi : (j - 1) / 2 < h.length := by omega
      obtain ⟨b, hb⟩ := less_total h j ((j - 1) / 2) hlen hi
      rw [hb]
      cases b with
      | false => exact ⟨_, rfl⟩
      | true =>
        obtain ⟨h1, hs⟩ := swap_total h ((j - 1) / 2) j hi hlen
        rw [hs]
        have hl1 : h1.length = h.length := (swap_perm _ _ _ _ hs).length_eq
        exact ih h1 _ (by omega) (by omega)

theorem down_perm (fuel : Nat) : ∀ (h : NodeList) (i0 i n : Nat) (r : NodeList × Bool),
    heap.down fuel h i0 i n = some r → r.1.Perm h := by
  induction fuel with
  | zero => intro h i0 i n r hr; simp [heap.down] at hr
  | succ k ih =>
    intro h i0 i n r hr
    unfold heap.down at hr
    dsimp only at hr
    split at hr
    · simp only [Option.some.injEq] at hr; subst hr; exact List.Perm.refl _
    · split at hr
      · simp at hr
      · split at hr
        · simp at hr
        · simp only [Option.some.injEq] at hr; subst hr; exact List.Perm.refl _
        · split at hr
          · simp at hr
          · rename_i h1 hs
            exact (ih _ _ _ _ _ hr).trans (swap_perm _ _ _ _ hs)

theorem down_total (fuel : Nat) : ∀ (h : NodeList) (i0 i n : Nat), n - i < fuel →
    n ≤ h.length → ∃ r, heap.down fuel h i0 i n = some r := by
  induction fuel with
  | zero => intro h i0 i n hf hn; omega
  | succ k ih =>
    intro h i0 i n hf hn
    unfold heap.down
    dsimp only
    split
    · exact ⟨_, rfl⟩
    · rename_i hlt
      have hj1 : 2 * i + 1 < h.length := by omega
      have hi : i < h.length := by omega
      have hr : ∃ right, (if 2 * i + 1 + 1 < n then NodeList.Less h (2 * i + 1 + 1) (2 * i + 1)
          else some false) = some right := by
        split
        · exact less_total h _ _ (by omega) hj1
        · exact ⟨_, rfl⟩
      obtain ⟨right, hright⟩ := hr
      rw [hright]
      dsimp only
      have hj : (if right = true then 2 * i + 1 + 1 else 2 * i + 1) < n := by
        cases right with
        | false => simp; omega
        | true =>
          simp only [if_true]
          by_contra hc
          rw [if_neg hc] at hright
          simp at hright
      obtain ⟨b, hb⟩ := less_total h (if right = true then 2 * i + 1 + 1 else 2 * i + 1) i
        (by omega) hi
      rw [hb]
      cases b with
      | false => exact ⟨_, rfl⟩
      | true =>
        obtain ⟨h1, hs⟩ := swap_total h i (if right = true then 2 * i + 1 + 1 else 2 * i + 1)
          hi (by omega)
        rw [hs]
        have hl1 : h1.length = h.length := (swap_perm _ _ _ _ hs).length_eq
        apply ih
        · split <;> omega
        · omega

theorem push_perm (h : NodeList) (x : Node) (r : NodeList) (hr : heap.Push h x = some r) :
    r.Perm (x :: h) := by
  unfold heap.Push NodeList.Push at hr
  exact (up_perm _ _ _ _ hr).trans (List.perm_append_singleton x h)

theorem push_total (h : NodeList) (x : Node) : ∃ r, heap.Push h x = some r := by
  unfold heap.Push NodeList.Push
  apply up_total
  · simp
  · simp

theorem nodeListPop_perm (h : NodeList) (x : Node) (r : NodeList)
    (hr : NodeList.Pop h = some (x, r)) : h.Perm (x :: r) := by
  unfold NodeList.Pop at hr
  split at hr
  · simp at hr
  · rename_i item hl
    simp only [Option.some.injEq, Prod.mk.injEq] at hr
    obtain ⟨rfl, rfl⟩ := hr
    have hne : h ≠ [] := by
      rintro rfl; simp at hl
    have heq : h = h.dropLast ++ [item] := by
      have h1 := List.dropLast_append_getLast hne
      rw [List.getLast?_eq_getLast _ hne] at hl
      simp only [Option.some.injEq] at hl
      rw [hl] at h1
      exact h1.symm
    have hp := List.perm_append_singleton item h.dropLast
    rw [← heq] at hp
    exact hp

theorem pop_perm (h : NodeList) (x : Node) (r : NodeList)
    (hr : heap.Pop h = some (x, r)) : h.Perm (x :: r) := by
  unfold heap.Pop at hr
  dsimp only at hr
  split at hr
  · simp at hr
  · rename_i h1 hs
    split at hr
    · simp at hr
    · rename_i h2 b hd
      have p1 := swap_perm _ _ _ _ hs
      have p2 := down_perm _ _ _ _ _ _ hd
      exact (p1.symm.trans p2.symm).trans (nodeListPop_perm _ _ _ hr)

theorem pop_total (h : NodeList) (hne : 0 < h.length) :
    ∃ x r, heap.Pop h = some (x, r) := by
  unfold heap.Pop
  dsimp only
  obtain ⟨h1, hs⟩ := swap_total h 0 (h.length - 1) hne (by omega)
  rw [hs]
  dsimp only
  have hl1 : h1.length = h.length := (swap_perm _ _ _ _ hs).length_eq
  obtain ⟨⟨h2, b⟩, hd⟩ := down_total (h.length - 1 + 1) h1 0 0 (h.length - 1) (by omega)
    (by omega)
  rw [hd]
  dsimp only
  have hl2 : h2.length = h1.length := (down_perm _ _ _ _ _ _ hd).length_eq
  have hne2 : h2 ≠ [] := by
    intro hc; rw [hc] at hl2; simp at hl2; omega
  unfold NodeList.Pop
  rw [List.getLast?_eq_getLast _ hne2]
  exact ⟨_, _, rfl⟩

theorem fix_perm (h : NodeList) (i : Nat) (r : NodeList) (hr : heap.Fix h i = some r) :
    r.Perm h := by
  unfold heap.Fix at hr
  split at hr
  · simp at hr
  · rename_i h1 hd
    simp only [Option.some.injEq] at hr
    subst hr
    exact down_perm _ _ _ _ _ _ hd
  · rename_i h1 hd
    exact (up_perm _ _ _ _ hr).trans (down_perm _ _ _ _ _ _ hd)

theorem fix_total (h : NodeList) (i : Nat) (hi : i < h.length) :
    ∃ r, heap.Fix h i = some r := by
  unfold heap.Fix
  obtain ⟨⟨h1, b⟩, hd⟩ := down_total (h.length + 1) h i i h.length (by omega) (by omega)
  rw [hd]
  have hl1 : h1.length = h.length := (down_perm _ _ _ _ _ _ hd).length_eq
  cases b with
  | true => exact ⟨_, rfl⟩
  | false => exact up_total _ _ _ (by omega) (by omega)

/-! ## Relaxation of one neighbour -/

theorem findOpen_none (p : Point) (o : NodeList) (h : findOpen p o = none) :
    p ∉ pts o := by
  induction o with
  | nil => simp [pts]
  | cons n rest ih =>
    unfold findOpen at h
    split at h
    · simp at h
    · rename_i hne
      simp only [Option.map_eq_none'] at h
      have := ih h
      simp only [pts, List.map_cons, List.mem_cons, not_or] at this ⊢
      refine ⟨?_, this⟩
      intro hp
      apply hne
      rw [hp]
      exact ⟨rfl, rfl⟩

theorem findOpen_some (p : Point) (o : NodeList) (k : Nat) (h : findOpen p o = some k) :
    ∃ node, o[k]? = some node ∧ node.Point = p := by
  induction o generalizing k with
  | nil => simp [findOpen] at h
  | cons n rest ih =>
    unfold findOpen at h
    split at h
    · rename_i heq
      simp only [Option.some.injEq] at h
      subst h
      refine ⟨n, by simp, ?_⟩
      cases hp : n.Point
      cases p
      rw [hp] at heq
      simp only [Point.mk.injEq]
      exact heq
    · simp only [Option.map_eq_some'] at h
      obtain ⟨k1, hk1, rfl⟩ := h
      obtain ⟨node, h1, h2⟩ := ih k1 hk1
      exact ⟨node, by simpa using h1, h2⟩

theorem exists_iff_mem_keys (c : ClosedList) (p : Point) :
    ClosedList.exists c p = true ↔ p ∈ keys c := by
  unfold ClosedList.exists keys
  simp only [List.any_eq_true, decide_eq_true_eq, List.mem_map]

theorem set_same_point (o : NodeList) (k : Nat) (node new : Node)
    (hk : o[k]? = some node) (hp : new.Point = node.Point) :
    pts (o.set k new) = pts o := by
  unfold pts
  rw [List.map_set]
  apply List.ext_getElem?
  intro i
  by_cases hik : k = i
  · subst hik
    have hlt : k < o.length := by
      by_contra hc
      rw [List.getElem?_eq_none (by omega)] at hk
      simp at hk
    rw [List.getElem?_set_self (by simpa using hlt), List.getElem?_map, hk, hp]
    rfl
  · rw [List.getElem?_set_ne hik]

theorem relaxNeighbor_spec (m : ShrineMap) (hm : IsGrid m) (goal : Point) (cur : Node)
    (c : ClosedList) (o : NodeList) (dir : Point) :
    ∃ o1, relaxNeighbor m goal cur c o dir = some o1 ∧
      (∀ n ∈ o1, n ∈ o ∨
        (n.Point = ⟨cur.Point.X + dir.X, cur.Point.Y + dir.Y⟩ ∧ n.Parent = some cur ∧
          Walkable m ⟨cur.Point.X + dir.X, cur.Point.Y + dir.Y⟩ ∧
          (⟨cur.Point.X + dir.X, cur.Point.Y + dir.Y⟩ : Point) ∉ keys c)) ∧
      (pts o1).Perm
        (if Walkable m ⟨cur.Point.X + dir.X, cur.Point.Y + dir.Y⟩ ∧
            (⟨cur.Point.X + dir.X, cur.Point.Y + dir.Y⟩ : Point) ∉ keys c ∧
            (⟨cur.Point.X + dir.X, cur.Point.Y + dir.Y⟩ : Point) ∉ pts o
          then (⟨cur.Point.X + dir.X, cur.Point.Y + dir.Y⟩ : Point) :: pts o else pts o) := by
  unfold relaxNeighbor
  generalize hq : (⟨cur.Point.X + dir.X, cur.Point.Y + dir.Y⟩ : Point) = q
  dsimp only
  rcases isWalkable_grid_total m hm q.X q.Y with hw | hw
  swap
  · have hnw : ¬ Walkable m q := by unfold Walkable; rw [hw]; simp
    rw [hw]
    refine ⟨o, rfl, fun n hn => Or.inl hn, ?_⟩
    rw [if_neg (fun h => hnw h.1)]
  have hW : Walkable m q := hw
  rw [hw]
  dsimp only
  by_cases hc : ClosedList.exists c q = true
  · rw [if_pos hc]
    have hk := (exists_iff_mem_keys c q).mp hc
    refine ⟨o, rfl, fun n hn => Or.inl hn, ?_⟩
    rw [if_neg (fun h => h.2.1 hk)]
  rw [if_neg hc]
  have hnk : q ∉ keys c := fun h => hc ((exists_iff_mem_keys c q).mpr h)
  rcases hf : findOpen q o with _ | k
  · have hno := findOpen_none q o hf
    dsimp only
    obtain ⟨o1, ho1⟩ := push_total o
      (Node.mk q (some cur) (cur.G + 1) (manhattanDistance q goal)
        (cur.G + 1 + manhattanDistance q goal))
    have hp := push_perm _ _ _ ho1
    refine ⟨o1, ho1, ?_, ?_⟩
    · intro n hn
      rcases List.mem_cons.mp (hp.mem_iff.mp hn) with h1 | h1
      · right; subst h1; exact ⟨rfl, rfl, hW, hnk⟩
      · exact Or.inl h1
    · rw [if_pos ⟨hW, hnk, hno⟩]
      have := hp.map Node.Point
      simpa [pts, Node.Point] using this
  · obtain ⟨node, hnode, hpt⟩ := findOpen_some q o k hf
    have hmem : q ∈ pts o := by
      unfold pts
      rw [← hpt]
      exact List.mem_map_of_mem _ (List.getElem?_mem hnode)
    dsimp only
    rw [hnode]
    dsimp only
    split
    · have hlen : 0 < (o.set k (Node.mk node.Point (some cur) (cur.G + 1) node.H
          (cur.G + 1 + manhattanDistance q goal))).length := by
        have : k < o.length := by
          by_contra hcc
          rw [List.getElem?_eq_none (by omega)] at hnode
          simp at hnode
        simp only [List.length_set]; omega
      obtain ⟨o1, ho1⟩ := fix_total _ 0 hlen
      have hp := fix_perm _ _ _ ho1
      refine ⟨o1, ho1, ?_, ?_⟩
      · intro n hn
        rcases List.mem_or_eq_of_mem_set (hp.mem_iff.mp hn) with h1 | h1
        · exact Or.inl h1
        · right; subst h1; exact ⟨hpt, rfl, hW, hnk⟩
      · rw [if_neg (fun h => h.2.2 hmem)]
        have h2 := hp.map Node.Point
        have h3 := set_same_point o k node (Node.mk node.Point (some cur) (cur.G + 1) node.H
          (cur.G + 1 + manhattanDistance q goal)) hnode rfl
        unfold pts at h3 ⊢
        rw [h3] at h2
        exact h2
    · refine ⟨o, rfl, fun n hn => Or.inl hn, ?_⟩
      rw [if_neg (fun h => h.2.2 hmem)]

/-! ## Expansion of a node -/

theorem foldlM_inv {α β : Type} (f : β → α → Option β) (Q : List α → β → Prop)
    (l : List α) : ∀ (done : List α) (b : β), Q done b →
      (∀ d a b, a ∈ l → Q d b → ∃ b1, f b a = some b1 ∧ Q (d ++ [a]) b1) →
      ∃ b1, l.foldlM f b = some b1 ∧ Q (done ++ l) b1 := by
  induction l with
  | nil =>
    intro done b hq _
    exact ⟨b, rfl, by simpa using hq⟩
  | cons a rest ih =>
    intro done b hq hstep
    obtain ⟨b1, hb1, hq1⟩ := hstep done a b (List.mem_cons_self _ _) hq
    obtain ⟨b2, hb2, hq2⟩ := ih (done ++ [a]) b1 hq1
      (fun d x y hx hy => hstep d x y (List.mem_cons_of_mem _ hx) hy)
    refine ⟨b2, ?_, by simpa using hq2⟩
    rw [List.foldlM_cons, hb1]
    exact hb2

theorem adjacent_of_direction (p dir : Point) (h : dir ∈ directions) :
    Adjacent p ⟨p.X + dir.X, p.Y + dir.Y⟩ := by
  unfold Adjacent manhattanDistance
  simp only [directions, List.mem_cons, List.mem_singleton, List.not_mem_nil, or_false] at h
  rcases h with rfl | rfl | rfl | rfl <;> simp

theorem direction_of_adjacent (p q : Point) (h : Adjacent p q) :
    ∃ dir ∈ directions, q = ⟨p.X + dir.X, p.Y + dir.Y⟩ := by
  unfold Adjacent manhattanDistance at h
  refine ⟨⟨q.X - p.X, q.Y - p.Y⟩, ?_, ?_⟩
  · simp only [directions, List.mem_cons, List.mem_singleton, Point.mk.injEq,
      List.not_mem_nil, or_false]
    omega
  · cases q
    simp only [Point.mk.injEq]
    omega

theorem expand_spec (m : ShrineMap) (hm : IsGrid m) (goal : Point) (cur : Node)
    (c : ClosedList) (o : NodeList) :
    ∃ o2, directions.foldlM (relaxNeighbor m goal cur c) o = some o2 ∧
      (∀ n ∈ o2, n ∈ o ∨
        (n.Parent = some cur ∧ Adjacent cur.Point n.Point ∧ Walkable m n.Point ∧
          n.Point ∉ keys c)) ∧
      (∀ p ∈ pts o, p ∈ pts o2) ∧
      ((pts o).Nodup → (pts o2).Nodup) ∧
      (∀ q, Adjacent cur.Point q → Walkable m q → q ∈ keys c ∨ q ∈ pts o2) := by
  have key := foldlM_inv (relaxNeighbor m goal cur c)
    (fun done o1 =>
      (∀ n ∈ o1, n ∈ o ∨
        (n.Parent = some cur ∧ Adjacent cur.Point n.Point ∧ Walkable m n.Point ∧
          n.Point ∉ keys c)) ∧
      (∀ p ∈ pts o, p ∈ pts o1) ∧
      ((pts o).Nodup → (pts o1).Nodup) ∧
      (∀ dir ∈ done, Walkable m ⟨cur.Point.X + dir.X, cur.Point.Y + dir.Y⟩ →
        (⟨cur.Point.X + dir.X, cur.Point.Y + dir.Y⟩ : Point) ∈ keys c ∨
        (⟨cur.Point.X + dir.X, cur.Point.Y + dir.Y⟩ : Point) ∈ pts o1))
    directions [] o
    ⟨fun n hn => Or.inl hn, fun p hp => hp, fun h => h, by simp⟩
    (by
      intro d a b ha ⟨q1, q2, q3, q4⟩
      obtain ⟨b1, hb1, hmem, hperm⟩ := relaxNeighbor_spec m hm goal cur c b a
      have hsub : ∀ p ∈ pts b, p ∈ pts b1 := by
        intro p hp
        apply hperm.mem_iff.mpr
        split
        · exact List.mem_cons_of_mem _ hp
        · exact hp
      refine ⟨b1, hb1, ?_, ?_, ?_, ?_⟩
      · intro n hn
        rcases hmem n hn with h1 | ⟨h1, h2, h3, h4⟩
        · exact q1 n h1
        · right
          refine ⟨h2, ?_, ?_, ?_⟩
          · rw [h1]; exact adjacent_of_direction cur.Point a ha
          · rw [h1]; exact h3
          · rw [h1]; exact h4
      · intro p hp; exact hsub p (q2 p hp)
      · intro hnd
        apply hperm.nodup_iff.mpr
        split
        · rename_i hcond
          exact List.nodup_cons.mpr ⟨hcond.2.2, q3 hnd⟩
        · exact q3 hnd
      · intro dir hdir hw
        rcases List.mem_append.mp hdir with h1 | h1
        · rcases q4 dir h1 hw with h2 | h2
          · exact Or.inl h2
          · exact Or.inr (hsub _ h2)
        · simp only [List.mem_singleton] at h1
          subst h1
          by_cases hcond : Walkable m ⟨cur.Point.X + dir.X, cur.Point.Y + dir.Y⟩ ∧
              (⟨cur.Point.X + dir.X, cur.Point.Y + dir.Y⟩ : Point) ∉ keys c ∧
              (⟨cur.Point.X + dir.X, cur.Point.Y + dir.Y⟩ : Point) ∉ pts b
          · right
            apply hperm.mem_iff.mpr
            rw [if_pos hcond]
            exact List.mem_cons_self _ _
          · by_cases hk : (⟨cur.Point.X + dir.X, cur.Point.Y + dir.Y⟩ : Point) ∈ keys c
            · exact Or.inl hk
            · right
              apply hsub
              by_contra hnb
              exact hcond ⟨hw, hk, hnb⟩)
  obtain ⟨o2, ho2, q1, q2, q3, q4⟩ := key
  refine ⟨o2, ho2, q1, q2, q3, ?_⟩
  intro q hadj hw
  obtain ⟨dir, hdir, rfl⟩ := direction_of_adjacent cur.Point q hadj
  exact q4 dir (by simpa using hdir) hw

/-! ## Path reconstruction -/

theorem swapped_getElem? (l : List Point) (i k : Nat) (hi : i < l.length) (hk : k < l.length)
    (j : Nat) :
    ((l.set i l[k]).set k l[i])[j]? =
      if j = k then l[i]? else if j = i then l[k]? else l[j]? := by
  by_cases h1 : j = k
  · subst h1
    rw [if_pos rfl, List.getElem?_set_self (by simpa using hk), List.getElem?_eq_getElem hi]
  · rw [if_neg h1, List.getElem?_set_ne (fun h => h1 h.symm)]
    by_cases h2 : j = i
    · subst h2
      rw [if_pos rfl, List.getElem?_set_self hi, List.getElem?_eq_getElem hk]
    · rw [if_neg h2, List.getElem?_set_ne (fun h => h2 h.symm)]

theorem reverseLoop_getElem? (k : Nat) : ∀ (l : List Point), 2 * k ≤ l.length → ∀ j,
    (reverseLoop k l)[j]? =
      if j < k ∨ (l.length - k ≤ j ∧ j < l.length) then l[l.length - 1 - j]? else l[j]? := by
  induction k with
  | zero =>
    intro l _ j
    have : ¬ (j < 0 ∨ (l.length - 0 ≤ j ∧ j < l.length)) := by omega
    rw [if_neg this]
    rfl
  | succ i ih =>
    intro l hl j
    have hi : i < l.length := by omega
    have hopp : l.length - 1 - i < l.length := by omega
    unfold reverseLoop
    dsimp only
    rw [List.getElem?_eq_getElem hi, List.getElem?_eq_getElem hopp]
    dsimp only
    rw [ih _ (by simp only [List.length_set]; omega) j]
    rw [List.length_set, List.length_set, swapped_getElem? l i _ hi hopp,
      swapped_getElem? l i _ hi hopp]
    split_ifs <;> first | rfl | (exfalso; omega) | (congr 1; omega)

theorem reverseLoop_half (l : List Point) : reverseLoop (l.length / 2) l = l.reverse := by
  apply List.ext_getElem?
  intro j
  rw [reverseLoop_getElem? _ l (by omega) j]
  by_cases hj : j < l.length
  · rw [List.getElem?_reverse hj]
    split
    · rfl
    · have : l.length - 1 - j = j := by omega
      rw [this]
  · have h1 : ¬ (j < l.length / 2 ∨ (l.length - l.length / 2 ≤ j ∧ j < l.length)) := by omega
    rw [if_neg h1, List.getElem?_eq_none (by omega), List.getElem?_eq_none (by simp; omega)]

theorem reconstructPath_eq (n : Node) : reconstructPath n = n.chain.reverse := by
  unfold reconstructPath
  exact reverseLoop_half _

theorem zip_tail_iff_chain' (R : Point → Point → Prop) (l : List Point) :
    (∀ ab ∈ l.zip l.tail, R ab.1 ab.2) ↔ l.Chain' R := by
  induction l with
  | nil => simp
  | cons a t ih =>
    cases t with
    | nil => simp
    | cons b r =>
      rw [List.chain'_cons, ← ih]
      simp only [List.tail_cons, List.zip_cons_cons, List.mem_cons, forall_eq_or_imp]

theorem chain_head : (n : Node) → n.chain.head? = some n.Point
  | .mk _ none _ _ _ => rfl
  | .mk _ (some _) _ _ _ => rfl

theorem linked_walkable (m : ShrineMap) (start : Point) :
    (n : Node) → Node.Linked m start n → Walkable m n.Point
  | .mk _ none _ _ _, h => h.2
  | .mk _ (some _) _ _ _, h => h.1

theorem linked_chain (m : ShrineMap) (start : Point) :
    (n : Node) → Node.Linked m start n →
      n.chain.getLast? = some start ∧ n.chain.Chain' (fun a b => Adjacent b a) ∧
        ∀ p ∈ n.chain, Walkable m p
  | .mk p none _ _ _, h => by
    obtain ⟨h1, h2⟩ := h
    subst h1
    refine ⟨rfl, by simp [Node.chain], ?_⟩
    intro q hq
    simp only [Node.chain, List.mem_singleton] at hq
    rw [hq]; exact h2
  | .mk p (some parent) _ _ _, h => by
    obtain ⟨h1, h2, h3⟩ := h
    obtain ⟨i1, i2, i3⟩ := linked_chain m start parent h3
    have hh := chain_head parent
    have hne : parent.chain ≠ [] := by
      intro hc; rw [hc] at hh; simp at hh
    refine ⟨?_, ?_, ?_⟩
    · simp only [Node.chain]
      rw [List.getLast?_cons, i1]
      rfl
    · simp only [Node.chain]
      rw [List.chain'_cons']
      refine ⟨?_, i2⟩
      intro y hy
      rw [hh] at hy
      simp only [Option.mem_def, Option.some.injEq] at hy
      rw [← hy]; exact h2
    · intro q hq
      simp only [Node.chain, List.mem_cons] at hq
      rcases hq with rfl | hq
      · exact h1
      · exact i3 q hq

theorem isPathOn_reconstruct (m : ShrineMap) (start : Point) (n : Node)
    (h : Node.Linked m start n) : IsPathOn m start n.Point (reconstructPath n) := by
  obtain ⟨i1, i2, i3⟩ := linked_chain m start n h
  rw [reconstructPath_eq]
  refine ⟨?_, ?_, ?_, ?_⟩
  · rw [List.head?_reverse]; exact i1
  · rw [List.getLast?_reverse]; exact chain_head n
  · rw [zip_tail_iff_chain', List.chain'_reverse]
    exact i2
  · intro p hp
    exact i3 p (List.mem_reverse.mp hp)

/-! ## The search loop -/

theorem mem_allTiles (p : Point) : p ∈ allTiles ↔ InBounds p := by
  unfold allTiles InBounds
  simp only [List.mem_flatMap, List.mem_map, mem_intRange]
  constructor
  · rintro ⟨x, hx, y, hy, rfl⟩
    simp only
    omega
  · intro h
    exact ⟨p.X, by omega, p.Y, by omega, rfl⟩

set_option maxRecDepth 100000 in
theorem allTiles_length : allTiles.length = 192 := by decide

theorem length_le_of_inBounds (l : List Point) (hnd : l.Nodup)
    (hb : ∀ p ∈ l, InBounds p) : l.length ≤ 192 := by
  have hsub : l ⊆ allTiles := fun p hp => (mem_allTiles p).mpr (hb p hp)
  have := (List.subperm_of_subset hnd hsub).length_le
  rw [allTiles_length] at this
  exact this

theorem walkable_inBounds (m : ShrineMap) (p : Point) (h : Walkable m p) : InBounds p :=
  isWalkable_true_inBounds m p.X p.Y h

theorem chain_stays_closed (m : ShrineMap) (S : List Point)
    (hclosed : ∀ p ∈ S, ∀ q, Adjacent p q → Walkable m q → q ∈ S) :
    ∀ (l : List Point) (a : Point), (a :: l).Chain' Adjacent → a ∈ S →
      (∀ p ∈ a :: l, Walkable m p) → ∀ p ∈ a :: l, p ∈ S := by
  intro l
  induction l with
  | nil =>
    intro a _ ha _ p hp
    simp only [List.mem_singleton] at hp
    rw [hp]; exact ha
  | cons b r ih =>
    intro a hch ha hw p hp
    rw [List.chain'_cons] at hch
    rcases List.mem_cons.mp hp with rfl | hp1
    · exact ha
    · have hb : b ∈ S := hclosed a ha b hch.1 (hw b (by simp))
      exact ih b hch.2 hb (fun q hq => hw q (List.mem_cons_of_mem _ hq)) p hp1

theorem not_reachable_of_closed (m : ShrineMap) (start goal : Point) (S : List Point)
    (hstart : start ∈ S)
    (hclosed : ∀ p ∈ S, ∀ q, Adjacent p q → Walkable m q → q ∈ S)
    (hgoal : goal ∉ S) : ¬ Reachable m start goal := by
  rintro ⟨path, h1, h2, h3, h4⟩
  cases path with
  | nil => simp at h1
  | cons a l =>
    simp only [List.head?_cons, Option.some.injEq] at h1
    subst h1
    have hch := (zip_tail_iff_chain' Adjacent (a :: l)).mp h3
    have hall := chain_stays_closed m S hclosed l a hch hstart h4
    exact hgoal (hall goal (List.mem_of_getLast?_eq_some h2))

theorem point_eq_of_coords (p q : Point) (h : p.X = q.X ∧ p.Y = q.Y) : p = q := by
  cases p; cases q
  simp only [Point.mk.injEq]
  exact h

theorem linked_child (m : ShrineMap) (start : Point) (cur : Node) (hcur : Node.Linked m start cur) :
    (n : Node) → n.Parent = some cur → Adjacent cur.Point n.Point → Walkable m n.Point →
      Node.Linked m start n
  | .mk _ none _ _ _, h, _, _ => by simp [Node.Parent] at h
  | .mk _ (some parent) _ _ _, h, ha, hw => by
    simp only [Node.Parent, Option.some.injEq] at h
    subst h
    exact ⟨hw, ha, hcur⟩

theorem findPathLoop_spec (m : ShrineMap) (hm : IsGrid m) (start goal : Point) (fuel : Nat) :
    ∀ (o : NodeList) (c : ClosedList), SearchInv m start goal o c →
      192 < fuel + (keys c).length →
      (∃ path, findPathLoop m goal fuel o c = some (path, none) ∧
        IsPathOn m start goal path) ∨
      (findPathLoop m goal fuel o c = some ([], some PathError.noPathFound) ∧
        ¬ Reachable m start goal) := by
  induction fuel with
  | zero =>
    intro o c inv hf
    have := length_le_of_inBounds (keys c) inv.nodupClosed
      (fun p hp => walkable_inBounds m p (inv.walkClosed p hp))
    omega
  | succ k ih =>
    intro o c inv hf
    unfold findPathLoop
    by_cases hlen : o.length > 0
    swap
    · rw [if_neg hlen]
      right
      refine ⟨rfl, ?_⟩
      have ho : o = [] := List.eq_nil_of_length_eq_zero (by omega)
      subst ho
      apply not_reachable_of_closed m start goal (keys c)
      · rcases inv.startSeen with h | h
        · exact h
        · simp [pts] at h
      · intro p hp q hadj hw
        rcases inv.frontier p hp q hadj hw with h | h
        · exact h
        · simp [pts] at h
      · exact inv.goalOpen
    rw [if_pos hlen]
    obtain ⟨cur, o1, hpop⟩ := pop_total o hlen
    have hperm := pop_perm o cur o1 hpop
    rw [hpop]
    dsimp only
    have hcur_mem : cur ∈ o := hperm.mem_iff.mpr (List.mem_cons_self _ _)
    have hcur := inv.linked cur hcur_mem
    have hpts : (pts o).Perm (cur.Point :: pts o1) := by
      have := hperm.map Node.Point
      simpa [pts] using this
    have hnd := hpts.nodup_iff.mp inv.nodupOpen
    have hcur_notin : cur.Point ∉ pts o1 := (List.nodup_cons.mp hnd).1
    have hnd1 : (pts o1).Nodup := (List.nodup_cons.mp hnd).2
    have hcur_open : cur.Point ∈ pts o := hpts.mem_iff.mpr (List.mem_cons_self _ _)
    have hcur_closed : cur.Point ∉ keys c := inv.disjoint _ hcur_open
    by_cases hg : cur.Point.X = goal.X ∧ cur.Point.Y = goal.Y
    · rw [if_pos hg]
      left
      refine ⟨_, rfl, ?_⟩
      have := isPathOn_reconstruct m start cur hcur
      rw [point_eq_of_coords _ _ hg] at this
      exact this
    rw [if_neg hg]
    obtain ⟨o2, ho2, e1, e2, e3, e4⟩ := expand_spec m hm goal cur ((cur.Point, cur) :: c) o1
    rw [ho2]
    dsimp only
    have hkeys : keys ((cur.Point, cur) :: c) = cur.Point :: keys c := rfl
    have hsub1 : ∀ p ∈ pts o1, p ∈ pts o := fun p hp =>
      hpts.mem_iff.mpr (List.mem_cons_of_mem _ hp)
    have hmem1 : ∀ n ∈ o1, n ∈ o := fun n hn => hperm.mem_iff.mpr (List.mem_cons_of_mem _ hn)
    apply ih o2 ((cur.Point, cur) :: c)
    · constructor
      · intro n hn
        rcases e1 n hn with h | ⟨h1, h2, h3, _⟩
        · exact inv.linked n (hmem1 n h)
        · exact linked_child m start cur hcur n h1 h2 h3
      · exact e3 hnd1
      · intro p hp
        rw [hkeys]
        obtain ⟨n, hn, rfl⟩ := List.mem_map.mp hp
        rcases e1 n hn with h | ⟨_, _, _, h4⟩
        · have hp1 : n.Point ∈ pts o1 := List.mem_map_of_mem _ h
          intro hc
          rcases List.mem_cons.mp hc with h5 | h5
          · rw [h5] at hp1; exact hcur_notin hp1
          · exact inv.disjoint _ (hsub1 _ hp1) h5
        · rw [hkeys] at h4; exact h4
      · rw [hkeys]
        exact List.nodup_cons.mpr ⟨hcur_closed, inv.nodupClosed⟩
      · intro p hp
        rw [hkeys] at hp
        rcases List.mem_cons.mp hp with rfl | h
        · exact linked_walkable m start cur hcur
        · exact inv.walkClosed p h
      · rw [hkeys]
        intro hc
        rcases List.mem_cons.mp hc with h | h
        · apply hg
          rw [← h]
          exact ⟨rfl, rfl⟩
        · exact inv.goalOpen h
      · intro p hp q hadj hw
        rw [hkeys] at hp
        rcases List.mem_cons.mp hp with rfl | h
        · exact e4 q hadj hw
        · rcases inv.frontier p h q hadj hw with h1 | h1
          · left; rw [hkeys]; exact List.mem_cons_of_mem _ h1
          · rcases List.mem_cons.mp (hpts.mem_iff.mp h1) with h2 | h2
            · left; rw [hkeys, h2]; exact List.mem_cons_self _ _
            · right; exact e2 q h2
      · rcases inv.startSeen with h1 | h1
        · left; rw [hkeys]; exact List.mem_cons_of_mem _ h1
        · rcases List.mem_cons.mp (hpts.mem_iff.mp h1) with h2 | h2
          · left; rw [hkeys, h2]; exact List.mem_cons_self _ _
          · right; exact e2 start h2
    · rw [hkeys]
      simp only [List.length_cons]
      omega

theorem searchInv_initial (m : ShrineMap) (start goal : Point) (hw : Walkable m start)
    (g h f : Nat) : SearchInv m start goal [Node.mk start none g h f] [] := by
  constructor
  · intro n hn
    simp only [List.mem_singleton] at hn
    subst hn
    exact ⟨rfl, hw⟩
  · simp [pts]
  · intro p _; simp [keys]
  · simp [keys]
  · intro p hp; simp [keys] at hp
  · simp [keys]
  · intro p hp; simp [keys] at hp
  · right; simp [pts, Node.Point]

theorem findPath_search_spec (m : ShrineMap) (hm : IsGrid m) (start goal : Point)
    (hs : InBounds start) (hg : InBounds goal) (ws : Walkable m start) (wg : Walkable m goal)
    (hne : start ≠ goal) :
    (∃ path, findPath m start goal = some (path, none) ∧ IsPathOn m start goal path) ∨
    (findPath m start goal = some ([], some PathError.noPathFound) ∧
      ¬ Reachable m start goal) := by
  have hne1 : ¬ (start.X = goal.X ∧ start.Y = goal.Y) :=
    fun h => hne (point_eq_of_coords _ _ h)
  rw [findPath_search m start goal ((isValidPosition_iff start).mpr hs)
    ((isValidPosition_iff goal).mpr hg) ws wg hne1]
  exact findPathLoop_spec m hm start goal searchBudget _ _
    (searchInv_initial m start goal ws _ _ _) (by simp [keys, searchBudget]; decide)

theorem findPath_ok_preconditions (m : ShrineMap) (start goal : Point) (path : List Point)
    (h : findPath m start goal = some (path, none)) :
    InBounds start ∧ InBounds goal ∧ isWalkable m start.X start.Y = some true ∧
      isWalkable m goal.X goal.Y = some true := by
  by_cases hs : isValidPosition start = true
  swap
  · simp [findPath, hs] at h
  by_cases hg : isValidPosition goal = true
  swap
  · simp [findPath, hs, hg] at h
  rcases hws : isWalkable m start.X start.Y with _ | _ | _
  · simp [findPath, hs, hg, hws] at h
  · simp [findPath, hs, hg, hws] at h
  rcases hwg : isWalkable m goal.X goal.Y with _ | _ | _
  · simp [findPath, hs, hg, hws, hwg] at h
  · simp [findPath, hs, hg, hws, hwg] at h
  exact ⟨(isValidPosition_iff start).mp hs, (isValidPosition_iff goal).mp hg, rfl, rfl⟩

theorem findPath_same_tile (m : ShrineMap) (t : Point) (hv : isValidPosition t = true)
    (hw : isWalkable m t.X t.Y = some true) : findPath m t t = some ([t], none) := by
  simp [findPath, hv, hw]

/-- Claim C1: on a 12x16 map, whenever `findPath(map, start, goal)` returns a path with
no error, the path begins with `start`, ends with `goal`, every two consecutive tiles
are at Manhattan distance 1, and `isWalkable` is true at every tile of the path. -/
theorem findPath_path_valid (m : ShrineMap) (hm : IsGrid m) (start goal : Point)
    (path : List Point) (h : findPath m start goal = some (path, none)) :
    path.head? = some start ∧ path.getLast? = some goal ∧
      (∀ ab ∈ path.zip path.tail, manhattanDistance ab.1 ab.2 = 1) ∧
      ∀ p ∈ path, isWalkable m p.X p.Y = some true := by
  obtain ⟨hs, hg, ws, wg⟩ := findPath_ok_preconditions m start goal path h
  by_cases hne : start = goal
  · subst hne
    rw [findPath_same_tile m start ((isValidPosition_iff start).mpr hs) ws] at h
    simp only [Option.some.injEq, Prod.mk.injEq, and_true] at h
    subst h
    refine ⟨rfl, rfl, by simp, ?_⟩
    intro p hp
    simp only [List.mem_singleton] at hp
    rw [hp]; exact ws
  · rcases findPath_search_spec m hm start goal hs hg ws wg hne with ⟨p1, h1, h2⟩ | ⟨h1, _⟩
    · rw [h1] at h
      simp only [Option.some.injEq, Prod.mk.injEq, and_true] at h
      subst h
      exact h2
    · rw [h1] at h
      simp at h

set_option maxRecDepth 100000 in
/-- Claim C1 at the built-in map, from the left spawn tile `(0, 11)` to the tile
`(8, 5)` below the donation box. -/
theorem findPath_path_valid_witness :
    IsGrid createMikoShrineMap ∧
    findPath createMikoShrineMap ⟨0, 11⟩ ⟨8, 5⟩ =
      some ([⟨0, 11⟩, ⟨1, 11⟩, ⟨2, 11⟩, ⟨3, 11⟩, ⟨3, 10⟩, ⟨3, 9⟩, ⟨3, 8⟩, ⟨4, 8⟩, ⟨4, 7⟩,
        ⟨5, 7⟩, ⟨6, 7⟩, ⟨7, 7⟩, ⟨8, 7⟩, ⟨8, 6⟩, ⟨8, 5⟩], none) ∧
    IsPathOn createMikoShrineMap ⟨0, 11⟩ ⟨8, 5⟩
      [⟨0, 11⟩, ⟨1, 11⟩, ⟨2, 11⟩, ⟨3, 11⟩, ⟨3, 10⟩, ⟨3, 9⟩, ⟨3, 8⟩, ⟨4, 8⟩, ⟨4, 7⟩,
        ⟨5, 7⟩, ⟨6, 7⟩, ⟨7, 7⟩, ⟨8, 7⟩, ⟨8, 6⟩, ⟨8, 5⟩] :=
  ⟨by decide, by decide,
   findPath_path_valid createMikoShrineMap (by decide) ⟨0, 11⟩ ⟨8, 5⟩ _ (by decide)⟩

/-- Claim C3: on a 12x16 map, for distinct in-bounds walkable tiles `start` and `goal`,
`findPath` returns the no-path-found error (with a nil path) exactly when `goal` is not
reachable from `start` through adjacent walkable tiles, and when `goal` is reachable it
returns a path with no error. -/
theorem findPath_complete (m : ShrineMap) (hm : IsGrid m) (start goal : Point)
    (hs : InBounds start) (hg : InBounds goal)
    (ws : isWalkable m start.X start.Y = some true)
    (wg : isWalkable m goal.X goal.Y = some true) (hne : start ≠ goal) :
    (∀ path, findPath m start goal = some (path, some PathError.noPathFound) ↔
      (path = [] ∧ ¬ Reachable m start goal)) ∧
    (Reachable m start goal → ∃ path, findPath m start goal = some (path, none)) := by
  rcases findPath_search_spec m hm start goal hs hg ws wg hne with ⟨p1, h1, h2⟩ | ⟨h1, h2⟩
  · refine ⟨?_, fun _ => ⟨p1, h1⟩⟩
    intro path
    rw [h1]
    constructor
    · intro h; simp at h
    · intro h; exact absurd ⟨p1, h2⟩ h.2
  · refine ⟨?_, fun h => absurd h h2⟩
    intro path
    rw [h1]
    constructor
    · intro h
      simp only [Option.some.injEq, Prod.mk.injEq, and_true] at h
      exact ⟨h.symm, h2⟩
    · intro h
      rw [h.1]

set_option maxRecDepth 100000 in
/-- Claim C3 at the built-in map, from the left spawn tile `(0, 11)` to the tile
`(8, 5)`. -/
theorem findPath_complete_witness :
    IsGrid createMikoShrineMap ∧ InBounds ⟨0, 11⟩ ∧ InBounds ⟨8, 5⟩ ∧
    isWalkable createMikoShrineMap 0 11 = some true ∧
    isWalkable createMikoShrineMap 8 5 = some true ∧ (⟨0, 11⟩ : Point) ≠ ⟨8, 5⟩ ∧
    ((∀ path, findPath createMikoShrineMap ⟨0, 11⟩ ⟨8, 5⟩
        = some (path, some PathError.noPathFound) ↔
      (path = [] ∧ ¬ Reachable createMikoShrineMap ⟨0, 11⟩ ⟨8, 5⟩)) ∧
    (Reachable createMikoShrineMap ⟨0, 11⟩ ⟨8, 5⟩ →
      ∃ path, findPath createMikoShrineMap ⟨0, 11⟩ ⟨8, 5⟩ = some (path, none))) :=
  ⟨by decide, by decide, by decide, by decide, by decide, by decide,
   findPath_complete createMikoShrineMap (by decide) ⟨0, 11⟩ ⟨8, 5⟩ (by decide) (by decide)
     (by decide) (by decide) (by decide)⟩

set_option maxRecDepth 100000 in
theorem findPath_no_path_example :
    findPath (mapWithWalkable [⟨0, 0⟩, ⟨5, 5⟩]) ⟨0, 0⟩ ⟨5, 5⟩
      = some ([], some PathError.noPathFound) := by
  decide

/-! ## Scenarios -/

theorem corridor_blocked (m : ShrineMap) (hm : IsGrid m)
    (hcol : ∀ x y, isWalkable m x y = some true → x = 8) (x y : Int) (hx : x ≠ 8) :
    isWalkable m x y = some false := by
  rcases isWalkable_grid_total m hm x y with h | h
  · exact absurd (hcol x y h) hx
  · exact h

set_option maxRecDepth 100000 in
set_option maxHeartbeats 4000000 in
/-- Claim C6: on a 12x16 map whose walkable tiles all lie in column 8 and include rows 4
to 11 of that column (a vertical corridor containing start and goal),
`findPath(map, (8,11), (8,4))` returns exactly the 8-tile path
`[(8,11),(8,10),(8,9),(8,8),(8,7),(8,6),(8,5),(8,4)]` with no error. -/
theorem findPath_corridor (m : ShrineMap) (hm : IsGrid m)
    (hcol : ∀ x y, isWalkable m x y = some true → x = 8)
    (hcor : ∀ y, 4 ≤ y → y ≤ 11 → isWalkable m 8 y = some true) :
    findPath m ⟨8, 11⟩ ⟨8, 4⟩ =
      some ([⟨8, 11⟩, ⟨8, 10⟩, ⟨8, 9⟩, ⟨8, 8⟩, ⟨8, 7⟩, ⟨8, 6⟩, ⟨8, 5⟩, ⟨8, 4⟩], none) := by
  have w4 := hcor 4 (by norm_num) (by norm_num)
  have w5 := hcor 5 (by norm_num) (by norm_num)
  have w6 := hcor 6 (by norm_num) (by norm_num)
  have w7 := hcor 7 (by norm_num) (by norm_num)
  have w8 := hcor 8 (by norm_num) (by norm_num)
  have w9 := hcor 9 (by norm_num) (by norm_num)
  have w10 := hcor 10 (by norm_num) (by norm_num)
  have w11 := hcor 11 (by norm_num) (by norm_num)
  have b7 : ∀ y, isWalkable m 7 y = some false := fun y =>
    corridor_blocked m hm hcol 7 y (by norm_num)
  have b9 : ∀ y, isWalkable m 9 y = some false := fun y =>
    corridor_blocked m hm hcol 9 y (by norm_num)
  have b12 : isWalkable m 8 12 = some false := isWalkable_out m 8 12 (by norm_num)
  rw [findPath_search m _ _ (by decide) (by decide) w11 w4 (by decide)]
  simp [searchBudget, mikoMapWidth, mikoMapHeight, findPathLoop, heap.Pop, heap.down,
    heap.up, heap.Push, NodeList.Swap, NodeList.Pop, NodeList.Push, NodeList.Less,
    directions, relaxNeighbor, Node.Point, Node.G, Node.F, Node.H, ClosedList.exists,
    findOpen, manhattanDistance, w4, w5, w6, w7, w8, w9, w10, w11, b7, b9, b12,
    reconstructPath, Node.chain, reverseLoop]

set_option maxRecDepth 1000000 in
theorem corridorMap_column (x y : Int) (h : isWalkable corridorMap x y = some true) :
    x = 8 := by
  obtain ⟨h1, h2, h3, h4⟩ := isWalkable_true_inBounds _ _ _ h
  have key : ∀ i : Fin 16, ∀ j : Fin 12,
      isWalkable corridorMap (i.val : Int) (j.val : Int) = some true → (i.val : Int) = 8 := by
    decide
  have hk := key ⟨x.toNat, by omega⟩ ⟨y.toNat, by omega⟩
  simp only [Int.toNat_of_nonneg h1, Int.toNat_of_nonneg h3] at hk
  exact hk h

set_option maxRecDepth 1000000 in
theorem corridorMap_corridor (y : Int) (h1 : 4 ≤ y) (h2 : y ≤ 11) :
    isWalkable corridorMap 8 y = some true := by
  have key : ∀ j : Fin 12, 4 ≤ j.val →
      isWalkable corridorMap 8 (j.val : Int) = some true := by
    decide
  have hk := key ⟨y.toNat, by omega⟩ (by simp; omega)
  simp only [Int.toNat_of_nonneg (by omega : 0 ≤ y)] at hk
  exact hk

set_option maxRecDepth 100000 in
/-- Claim C6 at the corridor map whose walkable tiles are exactly rows 4 to 11 of
column 8. -/
theorem findPath_corridor_witness :
    IsGrid corridorMap ∧
    (∀ x y, isWalkable corridorMap x y = some true → x = 8) ∧
    (∀ y, 4 ≤ y → y ≤ 11 → isWalkable corridorMap 8 y = some true) ∧
    findPath corridorMap ⟨8, 11⟩ ⟨8, 4⟩ =
      some ([⟨8, 11⟩, ⟨8, 10⟩, ⟨8, 9⟩, ⟨8, 8⟩, ⟨8, 7⟩, ⟨8, 6⟩, ⟨8, 5⟩, ⟨8, 4⟩], none) :=
  ⟨by decide, corridorMap_column, corridorMap_corridor,
   findPath_corridor corridorMap (by decide) corridorMap_column corridorMap_corridor⟩

set_option maxRecDepth 100000 in
/-- Claim C2 fails on the code: on the 12x16 map `detourMap`, with walkable start `(5,1)`
and goal `(6,8)`, `findPath` returns a 13-tile path (cost 12) although a 11-tile path
(cost 10) between the same tiles exists on the same map. -/
theorem findPath_detour_not_shortest :
    IsGrid detourMap ∧
    findPath detourMap ⟨5, 1⟩ ⟨6, 8⟩ =
      some ([⟨5, 1⟩, ⟨5, 2⟩, ⟨6, 2⟩, ⟨6, 3⟩, ⟨6, 4⟩, ⟨5, 4⟩, ⟨5, 5⟩, ⟨4, 5⟩, ⟨4, 6⟩, ⟨4, 7⟩,
        ⟨4, 8⟩, ⟨5, 8⟩, ⟨6, 8⟩], none) ∧
    pathCost [⟨5, 1⟩, ⟨5, 2⟩, ⟨6, 2⟩, ⟨6, 3⟩, ⟨6, 4⟩, ⟨5, 4⟩, ⟨5, 5⟩, ⟨4, 5⟩, ⟨4, 6⟩, ⟨4, 7⟩,
        ⟨4, 8⟩, ⟨5, 8⟩, ⟨6, 8⟩] = 12 ∧
    IsPathOn detourMap ⟨5, 1⟩ ⟨6, 8⟩
      [⟨5, 1⟩, ⟨5, 2⟩, ⟨4, 2⟩, ⟨4, 3⟩, ⟨4, 4⟩, ⟨4, 5⟩, ⟨4, 6⟩, ⟨4, 7⟩, ⟨4, 8⟩, ⟨5, 8⟩,
        ⟨6, 8⟩] ∧
    pathCost [⟨5, 1⟩, ⟨5, 2⟩, ⟨4, 2⟩, ⟨4, 3⟩, ⟨4, 4⟩, ⟨4, 5⟩, ⟨4, 6⟩, ⟨4, 7⟩, ⟨4, 8⟩, ⟨5, 8⟩,
        ⟨6, 8⟩] = 10 := by
  decide

/-! # Worshippers: theorems -/

open WorshipperState

/-! ## Worshipper updates -/

theorem moveBy_State (w : Worshipper) (dx dy d : ℚ) : (w.moveBy dx dy d).State = w.State := by
  unfold Worshipper.moveBy; split <;> rfl

theorem moveBy_Timer (w : Worshipper) (dx dy d : ℚ) : (w.moveBy dx dy d).Timer = w.Timer := by
  unfold Worshipper.moveBy; split <;> rfl

theorem moveBy_Path (w : Worshipper) (dx dy d : ℚ) : (w.moveBy dx dy d).Path = w.Path := by
  unfold Worshipper.moveBy; split <;> rfl

theorem moveBy_PathIndex (w : Worshipper) (dx dy d : ℚ) :
    (w.moveBy dx dy d).PathIndex = w.PathIndex := by
  unfold Worshipper.moveBy; split <;> rfl

theorem moveBy_followsPath (w : Worshipper) (dx dy d : ℚ) :
    (w.moveBy dx dy d).followsPath = w.followsPath := by
  unfold Worshipper.followsPath
  rw [moveBy_Path, moveBy_PathIndex]

theorem indexPath_some (path : List Point) (i : Int) (h0 : 0 ≤ i) (h1 : i < path.length) :
    ∃ p, indexPath path i = some p ∧ path[i.toNat]? = some p := by
  unfold indexPath
  rw [if_neg (by omega)]
  have : i.toNat < path.length := by omega
  exact ⟨path[i.toNat], List.getElem?_eq_getElem this, List.getElem?_eq_getElem this⟩

/-- One call of `Update` keeps the state or moves it one step forward. -/
theorem update_state_step (sqrt : ℚ → ℚ) (m : ShrineMap) (w w1 : Worshipper)
    (h : w.Update sqrt m = some w1) :
    (w.State = StateApproaching → w1.State = StateApproaching ∨ w1.State = StateOffering) ∧
    (w.State = StateOffering → w1.State = StateOffering ∨ w1.State = StateLeaving) ∧
    (w.State = StateLeaving → w1.State = StateLeaving) := by
  unfold Worshipper.Update at h
  split at h
  · rename_i hs
    simp only [hs, true_implies, false_implies, and_true, reduceCtorEq]
    split at h
    · try dsimp only at h
      split at h
      · split at h
        · split at h
          · simp at h
          · simp only [Option.some.injEq] at h; subst h; exact Or.inl hs
        · simp only [Option.some.injEq] at h; subst h; exact Or.inr rfl
      · simp only [Option.some.injEq] at h; subst h
        left; rw [moveBy_State]; exact hs
    · try dsimp only at h
      split at h
      · simp only [Option.some.injEq] at h; subst h; exact Or.inr rfl
      · simp only [Option.some.injEq] at h; subst h
        left; rw [moveBy_State]; exact hs
  · rename_i hs
    simp only [hs, true_implies, false_implies, and_true, true_and, reduceCtorEq]
    try dsimp only at h
    split at h
    · split at h
      · simp at h
      · try dsimp only at h
        split at h
        · simp at h
        · try dsimp only at h
          split at h
          · simp only [Option.some.injEq] at h; subst h; exact Or.inr rfl
          · simp only [Option.some.injEq] at h; subst h; exact Or.inr rfl
    · simp only [Option.some.injEq] at h; subst h; exact Or.inl hs
  · rename_i hs
    simp only [hs, true_implies, false_implies, true_and, reduceCtorEq]
    split at h
    · try dsimp only at h
      split at h
      · split at h
        · split at h
          · simp at h
          · simp only [Option.some.injEq] at h; subst h; exact hs
        · simp only [Option.some.injEq] at h; subst h; exact hs
      · simp only [Option.some.injEq] at h; subst h
        rw [moveBy_State]; exact hs
    · try dsimp only at h
      simp only [Option.some.injEq] at h; subst h
      rw [moveBy_State]; exact hs

theorem runUpdates_cons (sqrt : ℚ → ℚ) (m : ShrineMap) (ms : List ShrineMap)
    (w : Worshipper) (tr : List Worshipper) (h : runUpdates sqrt (m :: ms) w = some tr) :
    ∃ w1 rest, w.Update sqrt m = some w1 ∧ runUpdates sqrt ms w1 = some rest ∧
      tr = w1 :: rest := by
  unfold runUpdates at h
  split at h
  · simp at h
  · rename_i w1 hw1
    split at h
    · simp at h
    · rename_i rest hrest
      simp only [Option.some.injEq] at h
      exact ⟨w1, rest, hw1, hrest, h.symm⟩

theorem runUpdates_nil (sqrt : ℚ → ℚ) (w : Worshipper) : runUpdates sqrt [] w = some [] := rfl

theorem runUpdates_length (sqrt : ℚ → ℚ) (ms : List ShrineMap) :
    ∀ (w : Worshipper) (tr : List Worshipper), runUpdates sqrt ms w = some tr →
      tr.length = ms.length := by
  induction ms with
  | nil => intro w tr h; simp [runUpdates] at h; simp [← h]
  | cons m ms ih =>
    intro w tr h
    obtain ⟨w1, rest, _, h2, rfl⟩ := runUpdates_cons sqrt m ms w tr h
    simp [ih w1 rest h2]

theorem rank_step (sqrt : ℚ → ℚ) (m : ShrineMap) (w w1 : Worshipper)
    (h : w.Update sqrt m = some w1) :
    w.State.rank ≤ w1.State.rank ∧ w1.State.rank ≤ w.State.rank + 1 := by
  obtain ⟨h1, h2, h3⟩ := update_state_step sqrt m w w1 h
  cases hs : w.State
  · rcases h1 hs with h | h <;> simp [h, WorshipperState.rank]
  · rcases h2 hs with h | h <;> simp [h, WorshipperState.rank]
  · simp [h3 hs, WorshipperState.rank]

theorem rank_zero_iff (s : WorshipperState) : s.rank = 0 ↔ s = StateApproaching := by
  cases s <;> simp [WorshipperState.rank]

theorem run_trace_spec (sqrt : ℚ → ℚ) (ms : List ShrineMap) :
    ∀ (w : Worshipper) (tr : List Worshipper), runUpdates sqrt ms w = some tr →
      (w :: tr).Chain' (fun a b => a.State.rank ≤ b.State.rank ∧
        b.State.rank ≤ a.State.rank + 1) ∧
      (∀ v ∈ tr, w.State.rank ≤ v.State.rank) ∧
      (w.State ≠ StateApproaching → arrivals (w :: tr) = 0) ∧
      (w.State = StateApproaching → (∀ v ∈ tr, v.State = StateApproaching) →
        arrivals (w :: tr) = 0) ∧
      (w.State = StateApproaching → (∃ v ∈ tr, v.State ≠ StateApproaching) →
        arrivals (w :: tr) = 1) := by
  induction ms with
  | nil =>
    intro w tr h
    simp only [runUpdates, Option.some.injEq] at h
    subst h
    simp [arrivals]
  | cons m ms ih =>
    intro w tr h
    obtain ⟨w1, rest, hu, hr, rfl⟩ := runUpdates_cons sqrt m ms w tr h
    obtain ⟨c1, c2, c3, c4, c5⟩ := ih w1 rest hr
    have hrk := rank_step sqrt m w w1 hu
    have hst := update_state_step sqrt m w w1 hu
    refine ⟨List.Chain'.cons hrk c1, ?_, ?_, ?_, ?_⟩
    · intro v hv
      rcases List.mem_cons.mp hv with rfl | hv1
      · exact hrk.1
      · exact le_trans hrk.1 (c2 v hv1)
    · intro hne
      have hne1 : w1.State ≠ StateApproaching := by
        intro hc
        have := hrk.1
        rw [hc] at this
        simp only [WorshipperState.rank, Nat.le_zero] at this
        exact hne ((rank_zero_iff _).mp this)
      simp only [arrivals, hne, false_and, if_false, zero_add]
      exact c3 hne1
    · intro hs hall
      have h1 : w1.State = StateApproaching := hall w1 (List.mem_cons_self _ _)
      simp only [arrivals, hs, h1, true_and, reduceCtorEq, if_false, zero_add]
      exact c4 h1 (fun v hv => hall v (List.mem_cons_of_mem _ hv))
    · intro hs hex
      rcases hst.1 hs with h1 | h1
      · simp only [arrivals, hs, h1, true_and, reduceCtorEq, if_false, zero_add]
        apply c5 h1
        obtain ⟨v, hv, hvs⟩ := hex
        rcases List.mem_cons.mp hv with rfl | hv1
        · exact absurd h1 hvs
        · exact ⟨v, hv1, hvs⟩
      · have : w1.State ≠ StateApproaching := by rw [h1]; simp
        simp only [arrivals, hs, h1, and_self, if_true]
        rw [c3 this]

/-- Claim C13: along every sequence of `Update` calls the state of a worshipper only moves
forward (each call keeps it or advances it by one step of Approaching, Offering,
Leaving), it never returns to `StateApproaching`, and the Approaching-to-Offering
transition, which is what `updateWorshippers` counts, occurs at most once, and exactly
once for a worshipper that started in `StateApproaching` and has left it. -/
theorem arrival_counted_once (sqrt : ℚ → ℚ) (ms : List ShrineMap) (w : Worshipper)
    (tr : List Worshipper) (h : runUpdates sqrt ms w = some tr) :
    (w :: tr).Chain' (fun a b => a.State.rank ≤ b.State.rank ∧
      b.State.rank ≤ a.State.rank + 1) ∧
    (w.State ≠ StateApproaching → ∀ v ∈ tr, v.State ≠ StateApproaching) ∧
    arrivals (w :: tr) ≤ 1 ∧
    (w.State = StateApproaching → (∃ v ∈ tr, v.State ≠ StateApproaching) →
      arrivals (w :: tr) = 1) := by
  obtain ⟨c1, c2, c3, c4, c5⟩ := run_trace_spec sqrt ms w tr h
  refine ⟨c1, ?_, ?_, c5⟩
  · intro hne v hv hc
    have := c2 v hv
    rw [hc] at this
    simp only [WorshipperState.rank, Nat.le_zero] at this
    exact hne ((rank_zero_iff _).mp this)
  · by_cases hs : w.State = StateApproaching
    · by_cases hex : ∃ v ∈ tr, v.State ≠ StateApproaching
      · rw [c5 hs hex]
      · push_neg at hex
        rw [c4 hs hex]; omega
    · rw [c3 hs]; omega

/-! ## Outcomes of the searches on a 12x16 map -/

theorem findPath_grid_cases (m : ShrineMap) (hm : IsGrid m) (start goal : Point) :
    (∃ e, findPath m start goal = some ([], some e)) ∨
    (∃ path, findPath m start goal = some (path, none) ∧ IsPathOn m start goal path) := by
  by_cases hs : isValidPosition start = true
  swap
  · left; exact ⟨PathError.invalidStart, by simp [findPath, hs]⟩
  by_cases hg : isValidPosition goal = true
  swap
  · left; exact ⟨PathError.invalidGoal, by simp [findPath, hs, hg]⟩
  rcases isWalkable_grid_total m hm start.X start.Y with ws | ws
  swap
  · left; exact ⟨PathError.startNotWalkable, by simp [findPath, hs, hg, ws]⟩
  rcases isWalkable_grid_total m hm goal.X goal.Y with wg | wg
  swap
  · left; exact ⟨PathError.goalNotWalkable, by simp [findPath, hs, hg, ws, wg]⟩
  by_cases hne : start = goal
  · subst hne
    right
    refine ⟨[start], findPath_same_tile m start hs ws, rfl, rfl, by simp, ?_⟩
    intro p hp
    simp only [List.mem_singleton] at hp
    rw [hp]; exact ws
  · rcases findPath_search_spec m hm start goal ((isValidPosition_iff start).mp hs)
      ((isValidPosition_iff goal).mp hg) ws wg hne with ⟨p1, h1, h2⟩ | ⟨h1, _⟩
    · exact Or.inr ⟨p1, h1, h2⟩
    · exact Or.inl ⟨_, h1⟩

theorem findPath_blocked_goal (m : ShrineMap) (hm : IsGrid m) (start goal : Point)
    (hg : isWalkable m goal.X goal.Y = some false) :
    ∃ e, findPath m start goal = some ([], some e) := by
  rcases findPath_grid_cases m hm start goal with h | ⟨path, h, _⟩
  · exact h
  · have := (findPath_ok_preconditions m start goal path h).2.2.2
    rw [hg] at this
    simp at this

theorem findPath_blocked_start (m : ShrineMap) (hm : IsGrid m) (start goal : Point)
    (hg : isWalkable m start.X start.Y = some false) :
    ∃ e, findPath m start goal = some ([], some e) := by
  rcases findPath_grid_cases m hm start goal with h | ⟨path, h, _⟩
  · exact h
  · have := (findPath_ok_preconditions m start goal path h).2.2.1
    rw [hg] at this
    simp at this

theorem nearest_grid_cases (m : ShrineMap) (hm : IsGrid m) (x y : ℚ) :
    (∃ p, findNearestWalkableTile m x y = some (p, none) ∧
      isWalkable m p.X p.Y = some true) ∨
    (findNearestWalkableTile m x y = some (⟨0, 0⟩, some NearestError.noWalkableTileFound) ∧
      isWalkable m 8 11 = some false) := by
  unfold findNearestWalkableTile
  generalize pixelToTile x y = t
  simp only [fallbackPoint_X, fallbackPoint_Y]
  rcases isWalkable_grid_total m hm t.X t.Y with ht | ht
  · left; exact ⟨t, by simp [ht], ht⟩
  · simp only [ht]
    rcases hsr : searchRings m t with _ | _ | p
    · exact absurd hsr (searchRings_total m hm t)
    · rcases isWalkable_grid_total m hm 8 11 with hf | hf
      · left; exact ⟨⟨8, 11⟩, by simp [hf], hf⟩
      · right; exact ⟨by simp [hf], hf⟩
    · left
      exact ⟨p, rfl, (searchRings_some m t p hsr).1⟩

theorem spawnRow_eq : ((mikoMapHeight - 1 : Int) : ℚ) * mikoTileSize * mikoScaleFactor = 704 := by
  norm_num [mikoMapHeight, mikoTileSize, mikoScaleFactor]

theorem mapWidthPixels_eq : ((mikoMapWidth : Int) : ℚ) * mikoTileSize * mikoScaleFactor = 1024 := by
  norm_num [mikoMapWidth, mikoTileSize, mikoScaleFactor]

theorem mapHeightPixels_eq :
    ((mikoMapHeight : Int) : ℚ) * mikoTileSize * mikoScaleFactor = 768 := by
  norm_num [mikoMapHeight, mikoTileSize, mikoScaleFactor]

/-! ## The offering state -/

theorem update_offering_wait (sqrt : ℚ → ℚ) (m : ShrineMap) (w : Worshipper)
    (hs : w.State = StateOffering) (ht : w.Timer + 1 < offeringDuration) :
    w.Update sqrt m = some { w with Timer := w.Timer + 1 } := by
  unfold Worshipper.Update
  rw [hs]
  dsimp only
  rw [if_neg (by omega)]

/-- The transition out of `StateOffering` on a 12x16 map: the call returns, the state is
`StateLeaving`, and the path fields change only when the exit path was found. -/
theorem update_offering_leave (sqrt : ℚ → ℚ) (m : ShrineMap) (hm : IsGrid m)
    (w : Worshipper) (hs : w.State = StateOffering) (ht : offeringDuration ≤ w.Timer + 1) :
    ∃ w1, w.Update sqrt m = some w1 ∧ w1.State = StateLeaving ∧ w1.Timer = 0 ∧
      w1.X = w.X ∧ w1.Y = w.Y ∧ w1.TargetX = w.TargetX ∧ w1.Speed = w.Speed ∧
      ((∃ t path, findNearestWalkableTile m w.TargetX 704 = some (t, none) ∧
          findPath m (pixelToTile w.X w.Y) t = some (path, none) ∧
          w1.Path = path ∧ w1.PathIndex = 0 ∧ path.head? = some w1.NextTarget) ∨
       (((∃ p e, findNearestWalkableTile m w.TargetX 704 = some (p, some e)) ∨
          (∃ t e, findNearestWalkableTile m w.TargetX 704 = some (t, none) ∧
            findPath m (pixelToTile w.X w.Y) t = some ([], some e))) ∧
        w1.Path = w.Path ∧ w1.PathIndex = w.PathIndex ∧ w1.NextTarget = w.NextTarget)) := by
  unfold Worshipper.Update
  rw [hs]
  dsimp only
  rw [if_pos (by omega), spawnRow_eq]
  rcases nearest_grid_cases m hm w.TargetX 704 with ⟨t, hn, _⟩ | ⟨hn, hb⟩
  · rw [hn]
    dsimp only
    rcases findPath_grid_cases m hm (pixelToTile w.X w.Y) t with ⟨e, hp⟩ | ⟨path, hp, hpath⟩
    · rw [hp]
      dsimp only
      exact ⟨_, rfl, rfl, rfl, rfl, rfl, rfl, rfl,
        Or.inr ⟨Or.inr ⟨t, e, rfl, hp⟩, rfl, rfl, rfl⟩⟩
    · rw [hp]
      dsimp only
      cases path with
      | nil => simp [IsPathOn] at hpath
      | cons first rest =>
        dsimp only
        exact ⟨_, rfl, rfl, rfl, rfl, rfl, rfl, rfl,
          Or.inl ⟨t, first :: rest, rfl, hp, rfl, rfl, rfl⟩⟩
  · rw [hn]
    dsimp only
    simp only [fallbackPoint_X, fallbackPoint_Y]
    obtain ⟨e, hp⟩ := findPath_blocked_goal m hm (pixelToTile w.X w.Y) ⟨8, 11⟩ hb
    rw [hp]
    dsimp only
    exact ⟨_, rfl, rfl, rfl, rfl, rfl, rfl, rfl,
      Or.inr ⟨Or.inl ⟨_, _, rfl⟩, rfl, rfl, rfl⟩⟩

theorem run_offering_wait (sqrt : ℚ → ℚ) (ms : List ShrineMap) :
    ∀ (w : Worshipper), w.State = StateOffering →
      w.Timer + (ms.length : Int) < offeringDuration →
      ∃ tr, runUpdates sqrt ms w = some tr ∧ tr.length = ms.length ∧
        (∀ v ∈ tr, v.State = StateOffering) ∧
        (tr.getLast?.getD w).State = StateOffering ∧
        (tr.getLast?.getD w).Timer = w.Timer + (ms.length : Int) := by
  induction ms with
  | nil =>
    intro w hs _
    exact ⟨[], rfl, rfl, by simp, by simpa using hs, by simp⟩
  | cons m ms ih =>
    intro w hs ht
    simp only [List.length_cons, Nat.cast_add, Nat.cast_one] at ht
    have hstep := update_offering_wait sqrt m w hs (by omega)
    obtain ⟨tr, h1, h2, h3, h4, h5⟩ := ih { w with Timer := w.Timer + 1 } hs
      (by simp only; omega)
    refine ⟨{ w with Timer := w.Timer + 1 } :: tr, ?_, by simp [h2], ?_, ?_, ?_⟩
    · simp only [runUpdates, hstep, h1]
    · intro v hv
      rcases List.mem_cons.mp hv with rfl | hv1
      · exact hs
      · exact h3 v hv1
    · rw [List.getLast?_cons]
      simpa using h4
    · rw [List.getLast?_cons]
      simp only [Option.getD_some, List.length_cons, Nat.cast_add, Nat.cast_one]
      rw [h5]
      simp only
      omega

theorem runUpdates_append (sqrt : ℚ → ℚ) (ms1 : List ShrineMap) :
    ∀ (ms2 : List ShrineMap) (w : Worshipper) (tr1 tr2 : List Worshipper),
      runUpdates sqrt ms1 w = some tr1 →
      runUpdates sqrt ms2 (tr1.getLast?.getD w) = some tr2 →
      runUpdates sqrt (ms1 ++ ms2) w = some (tr1 ++ tr2) := by
  induction ms1 with
  | nil =>
    intro ms2 w tr1 tr2 h1 h2
    simp only [runUpdates, Option.some.injEq] at h1
    subst h1
    simpa using h2
  | cons m ms ih =>
    intro ms2 w tr1 tr2 h1 h2
    obtain ⟨w1, rest, hu, hr, rfl⟩ := runUpdates_cons sqrt m ms w tr1 h1
    have h3 : runUpdates sqrt ms2 (rest.getLast?.getD w1) = some tr2 := by
      rw [List.getLast?_cons] at h2
      simpa using h2
    have hrec : runUpdates sqrt (ms.append ms2) w1 = some (rest ++ tr2) :=
      ih ms2 w1 rest tr2 hr h3
    simp only [List.cons_append, runUpdates, hu, hrec]

/-- Claim C11: a worshipper that has just entered `StateOffering` (Timer = 0) is still in
`StateOffering` after each of the next 119 `Update` calls, whatever the maps, and is in
`StateLeaving` after the 120th call (on a 12x16 map). -/
theorem dwell_duration (sqrt : ℚ → ℚ) (w : Worshipper) (hs : w.State = StateOffering)
    (ht : w.Timer = 0) (ms : List ShrineMap) (hlen : ms.length = 119) (m : ShrineMap)
    (hm : IsGrid m) :
    ∃ tr w120, runUpdates sqrt ms w = some tr ∧ tr.length = 119 ∧
      (∀ v ∈ tr, v.State = StateOffering) ∧
      runUpdates sqrt (ms ++ [m]) w = some (tr ++ [w120]) ∧
      w120.State = StateLeaving := by
  obtain ⟨tr, h1, h2, h3, h4, h5⟩ := run_offering_wait sqrt ms w hs
    (by rw [ht, hlen]; decide)
  obtain ⟨w120, hu, hst, _⟩ := update_offering_leave sqrt m hm (tr.getLast?.getD w) h4
    (by rw [h5, ht, hlen]; decide)
  refine ⟨tr, w120, h1, by rw [h2, hlen], h3, ?_, hst⟩
  apply runUpdates_append sqrt ms [m] w tr [w120] h1
  simp only [runUpdates, hu]

/-- Claim C12: for a worshipper in `StateApproaching` whose cursor is inside its
non-empty path, `Update` returns; if the computed distance to the waypoint centre is
below `pathfindingProximityThreshold` and `PathIndex` is the last index, the worshipper
is in `StateOffering` with Timer = 0 after the call, and in every other case it is still
in `StateApproaching`. -/
theorem arrival_on_path_exhaustion (sqrt : ℚ → ℚ) (m : ShrineMap) (w : Worshipper)
    (hs : w.State = StateApproaching) (hne : w.Path ≠ []) (h0 : 0 ≤ w.PathIndex)
    (hi : w.PathIndex < (w.Path.length : Int)) :
    ∃ w1, w.Update sqrt m = some w1 ∧
      ((w.waypointDistance sqrt < pathfindingProximityThreshold ∧
          w.PathIndex = (w.Path.length : Int) - 1) →
        w1.State = StateOffering ∧ w1.Timer = 0) ∧
      (¬ (w.waypointDistance sqrt < pathfindingProximityThreshold ∧
          w.PathIndex = (w.Path.length : Int) - 1) →
        w1.State = StateApproaching) := by
  have hlen : 0 < w.Path.length := List.length_pos.mpr hne
  have hf : w.followsPath = true := by
    unfold Worshipper.followsPath
    exact decide_eq_true ⟨hlen, hi⟩
  unfold Worshipper.Update
  rw [hs]
  dsimp only
  rw [if_pos hf]
  unfold Worshipper.waypointDistance
  dsimp only
  by_cases hd : sqrt (((tileToPixel w.NextTarget).1 - w.X) * ((tileToPixel w.NextTarget).1 - w.X)
      + ((tileToPixel w.NextTarget).2 - w.Y) * ((tileToPixel w.NextTarget).2 - w.Y))
      < pathfindingProximityThreshold
  · rw [if_pos hd]
    by_cases hlast : w.PathIndex + 1 < (w.Path.length : Int)
    · rw [if_pos hlast]
      obtain ⟨p, hp, _⟩ := indexPath_some w.Path (w.PathIndex + 1) (by omega) hlast
      rw [hp]
      refine ⟨_, rfl, ?_, ?_⟩
      · intro hc; omega
      · intro _; rfl
    · rw [if_neg hlast]
      refine ⟨_, rfl, fun _ => ⟨rfl, rfl⟩, ?_⟩
      intro hc
      exact absurd ⟨hd, by omega⟩ hc
  · rw [if_neg hd]
    refine ⟨_, rfl, fun hc => absurd hc.1 hd, ?_⟩
    intro _
    rw [moveBy_State]; exact hs

/-! ## The update loop of `updateWorshippers` -/

theorem updateAll_cons (sqrt : ℚ → ℚ) (m : ShrineMap) (w : Worshipper)
    (ws : List Worshipper) :
    updateAll sqrt m (w :: ws) =
      match w.Update sqrt m with
      | none => none
      | some u =>
        match updateAll sqrt m ws with
        | none => none
        | some us => some (u :: us) := rfl

theorem updateLoop_spec (sqrt : ℚ → ℚ) (rest : List Worshipper) :
    ∀ (pre : List Worshipper) (fuel : Nat) (g : MikoGameWithWorshippers),
      g.worshippers = pre ++ rest → rest.length < fuel →
      updateLoop sqrt fuel g (pre.length : Int) =
        match updateAll sqrt g.shrineMap rest with
        | none => none
        | some us =>
          some { g with
            worshippers := pre ++ us.filter (fun u => !u.IsOffScreen),
            donationCount := g.donationCount + countArrivals rest us,
            totalDonations := g.totalDonations + countArrivals rest us } := by
  induction rest with
  | nil =>
    intro pre fuel g hg hf
    cases fuel with
    | zero => simp at hf
    | succ k =>
      unfold updateLoop
      have : ¬ ((pre.length : Int) < (g.worshippers.length : Int)) := by
        rw [hg]; simp
      rw [if_neg this]
      simp only [updateAll, List.filter_nil, List.append_nil, countArrivals, add_zero]
      rw [List.append_nil] at hg
      rw [← hg]
  | cons w rest ih =>
    intro pre fuel g hg hf
    cases fuel with
    | zero => simp at hf
    | succ k =>
      simp only [List.length_cons] at hf
      have hk : rest.length < k := by omega
      have e1 : (pre.length : Int).toNat = pre.length := by omega
      have e2 : ((pre.length : Int) + 1).toNat = pre.length + 1 := by omega
      have hlt : (pre.length : Int) < (g.worshippers.length : Int) := by
        rw [hg]; simp
      have hidx : (if (pre.length : Int) < 0 then none
          else g.worshippers[(pre.length : Int).toNat]?) = some w := by
        rw [if_neg (by omega), hg, e1]
        exact List.getElem?_append_right (le_refl _) |>.trans (by simp)
      rw [updateLoop, if_pos hlt, hidx, updateAll_cons]
      dsimp only
      rcases hu : w.Update sqrt g.shrineMap with _ | u
      · rfl
      · dsimp only
        have hset : g.worshippers.set (pre.length : Int).toNat u = pre ++ u :: rest := by
          rw [hg, e1]; simp
        rw [hset, e1, e2]
        have hidx2 : (pre.length : Int) - 1 + 1 = (pre.length : Int) := by omega
        have hlen1 : ((pre.length : Int) + 1) = ((pre ++ [u]).length : Int) := by simp
        have htake : List.take pre.length (pre ++ u :: rest) ++
            List.drop (pre.length + 1) (pre ++ u :: rest) = pre ++ rest := by
          simp
        by_cases hc : w.State = StateApproaching ∧ u.State = StateOffering
        · rw [if_pos hc]
          by_cases hoff : u.IsOffScreen = true
          · rw [if_pos hoff]
            dsimp only
            rw [htake, hidx2, ih pre k _ rfl hk]
            dsimp only
            rcases hua : updateAll sqrt g.shrineMap rest with _ | us
            · rfl
            · simp only [List.filter_cons, hoff, Bool.not_true, Bool.false_eq_true, if_false,
                countArrivals, hc, and_self, if_true, Option.some.injEq,
                MikoGameWithWorshippers.mk.injEq, true_and]
              constructor <;> ring
          · rw [if_neg hoff]
            have hoff1 : u.IsOffScreen = false := by simpa using hoff
            rw [hlen1, ih (pre ++ [u]) k _ (by simp) hk]
            dsimp only
            rcases hua : updateAll sqrt g.shrineMap rest with _ | us
            · rfl
            · simp only [List.filter_cons, hoff1, Bool.not_false, if_true,
                countArrivals, hc, and_self, List.append_assoc, List.singleton_append,
                Option.some.injEq, MikoGameWithWorshippers.mk.injEq, true_and]
              constructor <;> ring
        · rw [if_neg hc]
          by_cases hoff : u.IsOffScreen = true
          · rw [if_pos hoff]
            dsimp only
            rw [htake, hidx2, ih pre k _ rfl hk]
            dsimp only
            rcases hua : updateAll sqrt g.shrineMap rest with _ | us
            · rfl
            · simp only [List.filter_cons, hoff, Bool.not_true, Bool.false_eq_true, if_false,
                countArrivals, hc, zero_add]
          · rw [if_neg hoff]
            have hoff1 : u.IsOffScreen = false := by simpa using hoff
            rw [hlen1, ih (pre ++ [u]) k _ (by simp) hk]
            dsimp only
            rcases hua : updateAll sqrt g.shrineMap rest with _ | us
            · rfl
            · simp only [List.filter_cons, hoff1, Bool.not_false, if_true,
                countArrivals, hc, if_false, zero_add, List.append_assoc,
                List.singleton_append]

/-! ## Creation of a worshipper -/

/-- A worshipper returned by `NewWorshipper` is approaching, with timer and path index
zero, and heads for one of the two exit columns. -/
theorem newWorshipper_fields (side : Int) (speedDraw : ℚ) (colorDraw : Fin 5)
    (m : ShrineMap) (w : Worshipper) (h : NewWorshipper side speedDraw colorDraw m = some w) :
    w.State = StateApproaching ∧ w.Timer = 0 ∧ w.PathIndex = 0 ∧
      w.Speed = 1 + speedDraw * (1 / 2) ∧ (w.TargetX = -50 ∨ w.TargetX = 1074) := by
  unfold NewWorshipper at h
  simp only [mapWidthPixels_eq, worshipperSpeed] at h
  have ht : ((if side = 0 then (1024 : ℚ) + 50 else -50) = -50 ∨
      (if side = 0 then (1024 : ℚ) + 50 else -50) = 1074) := by
    split
    · right; norm_num
    · left; rfl
  split at h
  · simp at h
  · split at h
    · simp at h
    · split at h
      · simp only [Option.some.injEq] at h; subst h
        exact ⟨rfl, rfl, rfl, rfl, ht⟩
      · simp only [Option.some.injEq] at h; subst h
        exact ⟨rfl, rfl, rfl, rfl, ht⟩

/-- The outcome of `NewWorshipper` on a 12x16 map. -/
theorem newWorshipper_grid (side : Int) (speedDraw : ℚ) (colorDraw : Fin 5)
    (m : ShrineMap) (hm : IsGrid m) :
    ∃ w, NewWorshipper side speedDraw colorDraw m = some w ∧
      ((∃ t path, findNearestWalkableTile m (if side = 0 then -50 else 1074) 704
            = some (t, none) ∧
          findPath m t ⟨donationBoxX, donationBoxY⟩ = some (path, none) ∧
          w.Path = path ∧ path.head? = some w.NextTarget) ∨
       (((∃ p e, findNearestWalkableTile m (if side = 0 then -50 else 1074) 704
            = some (p, some e)) ∨
          (∃ t e, findNearestWalkableTile m (if side = 0 then -50 else 1074) 704
              = some (t, none) ∧
            findPath m t ⟨donationBoxX, donationBoxY⟩ = some ([], some e))) ∧
        w.Path = [])) := by
  unfold NewWorshipper
  simp only [mapWidthPixels_eq, spawnRow_eq]
  have hx : (if side = 0 then (-50 : ℚ) else 1024 + 50) = (if side = 0 then -50 else 1074) := by
    split
    · rfl
    · norm_num
  rw [hx]
  rcases nearest_grid_cases m hm (if side = 0 then -50 else 1074) 704 with
    ⟨t, hn, _⟩ | ⟨hn, hb⟩
  · rw [hn]
    dsimp only
    rcases findPath_grid_cases m hm t ⟨donationBoxX, donationBoxY⟩ with
      ⟨e, hp⟩ | ⟨path, hp, hpath⟩
    · rw [hp]
      dsimp only
      exact ⟨_, rfl, Or.inr ⟨Or.inr ⟨t, e, rfl, hp⟩, rfl⟩⟩
    · rw [hp]
      dsimp only
      cases path with
      | nil => simp [IsPathOn] at hpath
      | cons first rest =>
        dsimp only
        exact ⟨_, rfl, Or.inl ⟨t, first :: rest, rfl, hp, rfl, rfl⟩⟩
  · rw [hn]
    dsimp only
    simp only [fallbackPoint_X, fallbackPoint_Y]
    obtain ⟨e, hp⟩ := findPath_blocked_start m hm ⟨8, 11⟩ ⟨donationBoxX, donationBoxY⟩ hb
    rw [hp]
    dsimp only
    exact ⟨_, rfl, Or.inr ⟨Or.inl ⟨_, _, rfl⟩, rfl⟩⟩

/-- Claim C17: on every 12x16 map and for every draw of side, speed and tint,
`NewWorshipper` returns a worshipper in `StateApproaching` with `Timer = 0`; when
`findNearestWalkableTile` fails for the spawn position, or `findPath` from the start tile
to the donation-box tile fails, its `Path` is empty; otherwise `Path` is the path that
`findPath` returned, `PathIndex` is `0` and `NextTarget` is the first tile of the path. -/
theorem newWorshipper_spawn_fallback (side : Int) (speedDraw : ℚ) (colorDraw : Fin 5)
    (m : ShrineMap) (hm : IsGrid m) :
    ∃ w, NewWorshipper side speedDraw colorDraw m = some w ∧
      w.State = StateApproaching ∧ w.Timer = 0 ∧
      (∀ p e, findNearestWalkableTile m (if side = 0 then -50 else 1074) 704
          = some (p, some e) → w.Path = []) ∧
      (∀ t found e, findNearestWalkableTile m (if side = 0 then -50 else 1074) 704
          = some (t, none) →
        findPath m t ⟨donationBoxX, donationBoxY⟩ = some (found, some e) → w.Path = []) ∧
      (∀ t path, findNearestWalkableTile m (if side = 0 then -50 else 1074) 704
          = some (t, none) →
        findPath m t ⟨donationBoxX, donationBoxY⟩ = some (path, none) →
        w.Path = path ∧ w.PathIndex = 0 ∧ path.head? = some w.NextTarget) := by
  obtain ⟨w, hw, hcases⟩ := newWorshipper_grid side speedDraw colorDraw m hm
  obtain ⟨h1, h2, h3, _, _⟩ := newWorshipper_fields side speedDraw colorDraw m w hw
  refine ⟨w, hw, h1, h2, ?_, ?_, ?_⟩
  · intro p e hn
    rcases hcases with ⟨t, path, hn1, _⟩ | ⟨_, hpath⟩
    · rw [hn] at hn1; simp at hn1
    · exact hpath
  · intro t found e hn hp
    rcases hcases with ⟨t1, path, hn1, hp1, _⟩ | ⟨_, hpath⟩
    · rw [hn] at hn1
      simp only [Option.some.injEq, Prod.mk.injEq, and_true] at hn1
      subst hn1
      rw [hp] at hp1; simp at hp1
    · exact hpath
  · intro t path hn hp
    rcases hcases with ⟨t1, path1, hn1, hp1, h4, h5⟩ | ⟨hfail, _⟩
    · rw [hn] at hn1
      simp only [Option.some.injEq, Prod.mk.injEq, and_true] at hn1
      subst hn1
      rw [hp] at hp1
      simp only [Option.some.injEq, Prod.mk.injEq, and_true] at hp1
      subst hp1
      exact ⟨h4, h3, h5⟩
    · rcases hfail with ⟨p, e, hn1⟩ | ⟨t1, e, hn1, hp1⟩
      · rw [hn] at hn1; simp at hn1
      · rw [hn] at hn1
        simp only [Option.some.injEq, Prod.mk.injEq, and_true] at hn1
        subst hn1
        rw [hp] at hp1; simp at hp1

set_option maxRecDepth 100000 in
/-- Claim C17 at the built-in map, left side. -/
theorem newWorshipper_spawn_fallback_witness :
    IsGrid createMikoShrineMap ∧
    ∃ w, NewWorshipper 0 (1 / 4) 2 createMikoShrineMap = some w ∧
      w.State = StateApproaching ∧ w.Timer = 0 ∧
      (∀ p e, findNearestWalkableTile createMikoShrineMap (if (0 : Int) = 0 then -50 else 1074)
          704 = some (p, some e) → w.Path = []) ∧
      (∀ t found e, findNearestWalkableTile createMikoShrineMap
          (if (0 : Int) = 0 then -50 else 1074) 704 = some (t, none) →
        findPath createMikoShrineMap t ⟨donationBoxX, donationBoxY⟩ = some (found, some e) →
        w.Path = []) ∧
      (∀ t path, findNearestWalkableTile createMikoShrineMap
          (if (0 : Int) = 0 then -50 else 1074) 704 = some (t, none) →
        findPath createMikoShrineMap t ⟨donationBoxX, donationBoxY⟩ = some (path, none) →
        w.Path = path ∧ w.PathIndex = 0 ∧ path.head? = some w.NextTarget) :=
  ⟨by decide, newWorshipper_spawn_fallback 0 (1 / 4) 2 createMikoShrineMap (by decide)⟩

/-! ## One call of `updateWorshippers` -/

/-- On a 12x16 map `Update` returns for every worshipper whose path index is at least
`-1` (the next index read is then not negative). -/
theorem update_total (sqrt : ℚ → ℚ) (m : ShrineMap) (hm : IsGrid m) (w : Worshipper)
    (hi : -1 ≤ w.PathIndex) : ∃ w1, w.Update sqrt m = some w1 := by
  rcases hs : w.State with _ | _ | _
  · unfold Worshipper.Update
    rw [hs]
    dsimp only
    split
    · split
      · split
        · rename_i h
          obtain ⟨p, hp, _⟩ := indexPath_some w.Path (w.PathIndex + 1) (by omega) h
          rw [hp]
          exact ⟨_, rfl⟩
        · exact ⟨_, rfl⟩
      · exact ⟨_, rfl⟩
    · split <;> exact ⟨_, rfl⟩
  · by_cases ht : offeringDuration ≤ w.Timer + 1
    · obtain ⟨w1, h, _⟩ := update_offering_leave sqrt m hm w hs ht
      exact ⟨w1, h⟩
    · exact ⟨_, update_offering_wait sqrt m w hs (by omega)⟩
  · unfold Worshipper.Update
    rw [hs]
    dsimp only
    split
    · split
      · split
        · rename_i h
          obtain ⟨p, hp, _⟩ := indexPath_some w.Path (w.PathIndex + 1) (by omega) h
          rw [hp]
          exact ⟨_, rfl⟩
        · exact ⟨_, rfl⟩
      · exact ⟨_, rfl⟩
    · exact ⟨_, rfl⟩

theorem updateAll_total (sqrt : ℚ → ℚ) (m : ShrineMap) (hm : IsGrid m) :
    ∀ ws : List Worshipper, (∀ w ∈ ws, -1 ≤ w.PathIndex) →
      ∃ us, updateAll sqrt m ws = some us := by
  intro ws
  induction ws with
  | nil => intro _; exact ⟨[], rfl⟩
  | cons w ws ih =>
    intro h
    obtain ⟨u, hu⟩ := update_total sqrt m hm w (h w (List.mem_cons_self _ _))
    obtain ⟨us, hus⟩ := ih (fun v hv => h v (List.mem_cons_of_mem _ hv))
    exact ⟨u :: us, by rw [updateAll_cons, hu, hus]⟩

/-- What `updateAll` returns is the list of the updated worshippers, position by
position. -/
theorem updateAll_forall2 (sqrt : ℚ → ℚ) (m : ShrineMap) :
    ∀ (ws us : List Worshipper), updateAll sqrt m ws = some us →
      List.Forall₂ (fun w u => w.Update sqrt m = some u) ws us := by
  intro ws
  induction ws with
  | nil =>
    intro us h
    simp only [updateAll, Option.some.injEq] at h
    subst h
    exact List.Forall₂.nil
  | cons w ws ih =>
    intro us h
    rw [updateAll_cons] at h
    rcases hu : w.Update sqrt m with _ | u
    · rw [hu] at h; simp at h
    · rw [hu] at h
      dsimp only at h
      rcases hus : updateAll sqrt m ws with _ | us1
      · rw [hus] at h; simp at h
      · rw [hus] at h
        simp only [Option.some.injEq] at h
        subst h
        exact List.Forall₂.cons hu (ih us1 hus)

/-- The two outcomes of the spawn part. -/
theorem spawnStep_cases (draws : Draws) (g g2 : MikoGameWithWorshippers)
    (h : spawnStep draws g = some g2) :
    g2.shrineMap = g.shrineMap ∧ g2.donationCount = g.donationCount ∧
    g2.totalDonations = g.totalDonations ∧
    ((g.spawnTimer + 1 ≥ spawnInterval ∧ draws.trial < spawnChance ∧ g2.spawnTimer = 0 ∧
        ∃ w, NewWorshipper draws.side draws.speed draws.color g.shrineMap = some w ∧
          g2.worshippers = g.worshippers ++ [w]) ∨
     (¬ (g.spawnTimer + 1 ≥ spawnInterval ∧ draws.trial < spawnChance) ∧
        g2.spawnTimer = g.spawnTimer + 1 ∧ g2.worshippers = g.worshippers)) := by
  unfold spawnStep at h
  dsimp only at h
  split at h
  · rename_i hc
    split at h
    · simp at h
    · rename_i w hw
      simp only [Option.some.injEq] at h
      subst h
      exact ⟨rfl, rfl, rfl, Or.inl ⟨hc.1, hc.2, rfl, w, hw, rfl⟩⟩
  · rename_i hc
    simp only [Option.some.injEq] at h
    subst h
    exact ⟨rfl, rfl, rfl, Or.inr ⟨hc, rfl, rfl⟩⟩

/-- The spawn part returns on a 12x16 map. -/
theorem spawnStep_total (draws : Draws) (g : MikoGameWithWorshippers)
    (hm : IsGrid g.shrineMap) : ∃ g2, spawnStep draws g = some g2 := by
  unfold spawnStep
  dsimp only
  split
  · obtain ⟨w, hw, _⟩ := newWorshipper_grid draws.side draws.speed draws.color g.shrineMap hm
    rw [hw]
    exact ⟨_, rfl⟩
  · exact ⟨_, rfl⟩

/-- One call of `updateWorshippers` in closed form: the spawn part, `Update` on every
worshipper, the counters, and the filter that removes the off-screen worshippers. -/
theorem updateWorshippers_eq (sqrt : ℚ → ℚ) (draws : Draws) (g : MikoGameWithWorshippers) :
    updateWorshippers sqrt draws g =
      match spawnStep draws g with
      | none => none
      | some g2 =>
        match updateAll sqrt g2.shrineMap g2.worshippers with
        | none => none
        | some us =>
          some { g2 with
            worshippers := us.filter (fun u => !u.IsOffScreen),
            donationCount := g2.donationCount + countArrivals g2.worshippers us,
            totalDonations := g2.totalDonations + countArrivals g2.worshippers us } := by
  unfold updateWorshippers
  rcases spawnStep draws g with _ | g2
  · rfl
  · dsimp only
    have h := updateLoop_spec sqrt g2.worshippers [] (g2.worshippers.length + 1) g2
      (by simp) (by omega)
    simp only [List.length_nil, Nat.cast_zero, List.nil_append] at h
    exact h

theorem isOffScreen_iff (w : Worshipper) :
    w.IsOffScreen = true ↔ (w.State = StateLeaving ∧ (w.X < -100 ∨ w.X > 1124)) := by
  unfold Worshipper.IsOffScreen
  rw [mapWidthPixels_eq]
  simp only [Bool.and_eq_true, Bool.or_eq_true, decide_eq_true_eq]
  norm_num

/-- Claim C14: `IsOffScreen` returns true exactly for a worshipper in `StateLeaving`
whose `X` is below `-100` or above `16 * 64 + 100 = 1124`; and whenever the spawn part and
the updates of one call of `updateWorshippers` return, the call returns a population that
keeps, in order and with multiplicity, every worshipper that is in `StateApproaching` or
`StateOffering` after its update. -/
theorem isOffScreen_removal_predicate :
    (∀ w : Worshipper,
      w.IsOffScreen = true ↔ (w.State = StateLeaving ∧ (w.X < -100 ∨ w.X > 16 * 64 + 100))) ∧
    (∀ (sqrt : ℚ → ℚ) (draws : Draws) (g g2 : MikoGameWithWorshippers)
        (us : List Worshipper),
      spawnStep draws g = some g2 →
      updateAll sqrt g2.shrineMap g2.worshippers = some us →
      ∃ g3, updateWorshippers sqrt draws g = some g3 ∧
        (us.filter (fun u =>
            decide (u.State = StateApproaching ∨ u.State = StateOffering))).Sublist
          g3.worshippers) := by
  constructor
  · intro w
    rw [isOffScreen_iff]
    norm_num
  · intro sqrt draws g g2 us hsp hus
    refine ⟨_, by rw [updateWorshippers_eq, hsp]; dsimp only; rw [hus], ?_⟩
    dsimp only
    apply List.monotone_filter_right
    intro u hu
    simp only [decide_eq_true_eq] at hu
    have : u.IsOffScreen = false := by
      rcases hoff : u.IsOffScreen with _ | _
      · rfl
      · have := ((isOffScreen_iff u).mp hoff).1
        rw [this] at hu
        simp at hu
    simp [this]

/-- Claim C15: one call of `updateWorshippers` is the spawn part followed by one `Update`
of every worshipper of the population after the spawn part (the old population, with the
new worshipper appended when one was spawned), in order; the population it leaves is the
list of the updated worshippers filtered by `IsOffScreen` being false, which keeps the
relative order; and on a 12x16 map the call returns. -/
theorem updateWorshippers_update_and_filter (sqrt : ℚ → ℚ) (draws : Draws)
    (g : MikoGameWithWorshippers) :
    (updateWorshippers sqrt draws g =
      match spawnStep draws g with
      | none => none
      | some g2 =>
        match updateAll sqrt g2.shrineMap g2.worshippers with
        | none => none
        | some us =>
          some { g2 with
            worshippers := us.filter (fun u => !u.IsOffScreen),
            donationCount := g2.donationCount + countArrivals g2.worshippers us,
            totalDonations := g2.totalDonations + countArrivals g2.worshippers us }) ∧
    (∀ g2, spawnStep draws g = some g2 →
      g2.shrineMap = g.shrineMap ∧
      (g2.worshippers = g.worshippers ∨
        ∃ w, NewWorshipper draws.side draws.speed draws.color g.shrineMap = some w ∧
          g2.worshippers = g.worshippers ++ [w])) ∧
    (∀ (m : ShrineMap) (ws us : List Worshipper), updateAll sqrt m ws = some us →
      List.Forall₂ (fun w u => w.Update sqrt m = some u) ws us) ∧
    (IsGrid g.shrineMap → (∀ w ∈ g.worshippers, -1 ≤ w.PathIndex) →
      ∃ g3, updateWorshippers sqrt draws g = some g3) := by
  refine ⟨updateWorshippers_eq sqrt draws g, ?_, updateAll_forall2 sqrt, ?_⟩
  · intro g2 h
    obtain ⟨h1, _, _, h4⟩ := spawnStep_cases draws g g2 h
    refine ⟨h1, ?_⟩
    rcases h4 with ⟨_, _, _, w, hw, hws⟩ | ⟨_, _, hws⟩
    · exact Or.inr ⟨w, hw, hws⟩
    · exact Or.inl hws
  · intro hm hidx
    obtain ⟨g2, hg2⟩ := spawnStep_total draws g hm
    obtain ⟨h1, _, _, h4⟩ := spawnStep_cases draws g g2 hg2
    have hidx2 : ∀ w ∈ g2.worshippers, -1 ≤ w.PathIndex := by
      rcases h4 with ⟨_, _, _, w, hw, hws⟩ | ⟨_, _, hws⟩
      · rw [hws]
        intro v hv
        rcases List.mem_append.mp hv with hv1 | hv1
        · exact hidx v hv1
        · simp only [List.mem_singleton] at hv1
          subst hv1
          have := (newWorshipper_fields _ _ _ _ v hw).2.2.1
          omega
      · rw [hws]; exact hidx
    obtain ⟨us, hus⟩ := updateAll_total sqrt g2.shrineMap (h1 ▸ hm) g2.worshippers hidx2
    exact ⟨_, by rw [updateWorshippers_eq, hg2]; dsimp only; rw [hus]⟩

/-! ## Spawn timing -/

set_option maxRecDepth 100000 in
/-- Claim C16 (where the code departs from it): on the built-in map with an empty
population and the spawn counter at 299, a call with a failed spawn trial leaves the
counter at 300 instead of resetting it, and the very next call makes another trial, which
spawns a worshipper when it succeeds: the second trial comes one tick after the first,
not one spawn interval after it. -/
theorem spawn_trial_repeats_after_failure :
    (updateWorshippers sqrtModel failedTrial spawnGame).map
        (fun g => (g.spawnTimer, g.worshippers.length)) = some (300, 0) ∧
    ((updateWorshippers sqrtModel failedTrial spawnGame).bind
        (updateWorshippers sqrtModel passedTrial)).map
        (fun g => (g.spawnTimer, g.worshippers.length)) = some (0, 1) := by
  decide!

/-! ## The exit after a failed exit search -/

/-- An `Update` call keeps the property that a worshipper in `StateOffering` has no
remaining path. -/
theorem update_offering_inv (sqrt : ℚ → ℚ) (m : ShrineMap) (w w1 : Worshipper)
    (h : w.Update sqrt m = some w1)
    (hinv : w.State = StateOffering → w.followsPath = false)
    (hs1 : w1.State = StateOffering) : w1.followsPath = false := by
  have hstep := update_state_step sqrt m w w1 h
  unfold Worshipper.Update at h
  split at h
  · rename_i hs
    split at h
    · try dsimp only at h
      split at h
      · split at h
        · split at h
          · simp at h
          · simp only [Option.some.injEq] at h; subst h
            rw [hs] at hs1; simp at hs1
        · rename_i hlt
          simp only [Option.some.injEq] at h; subst h
          unfold Worshipper.followsPath
          simp only [decide_eq_false_iff_not, not_and]
          intro _
          exact hlt
      · simp only [Option.some.injEq] at h; subst h
        rw [moveBy_State, hs] at hs1; simp at hs1
    · rename_i hf
      try dsimp only at h
      split at h
      · simp only [Option.some.injEq] at h; subst h
        have : w.followsPath = false := by simpa using hf
        exact this
      · simp only [Option.some.injEq] at h; subst h
        rw [moveBy_State, hs] at hs1; simp at hs1
  · rename_i hs
    try dsimp only at h
    split at h
    · split at h
      · simp at h
      · try dsimp only at h
        split at h
        · simp at h
        · try dsimp only at h
          split at h
          · simp only [Option.some.injEq] at h; subst h; simp at hs1
          · simp only [Option.some.injEq] at h; subst h; simp at hs1
    · simp only [Option.some.injEq] at h; subst h
      exact hinv hs
  · rename_i hs
    rw [hstep.2.2 hs] at hs1; simp at hs1

/-- A worshipper created by `NewWorshipper` and updated any number of times has no
remaining path while it is in `StateOffering`. -/
theorem spawned_offering_inv (sqrt : ℚ → ℚ) (w : Worshipper) (hw : Spawned sqrt w) :
    w.State = StateOffering → w.followsPath = false := by
  induction hw with
  | create side speedDraw colorDraw shrineMap w h =>
    intro hs
    rw [(newWorshipper_fields side speedDraw colorDraw shrineMap w h).1] at hs
    simp at hs
  | update shrineMap w w1 _ h ih =>
    exact update_offering_inv sqrt shrineMap w w1 h ih

/-- A failed nearest-tile search means that the fallback tile `(8, 11)` is not
walkable. -/
theorem nearest_error_blocked (m : ShrineMap) (x y : ℚ) (p : Point) (e : NearestError)
    (h : findNearestWalkableTile m x y = some (p, some e)) :
    isWalkable m 8 11 = some false := by
  unfold findNearestWalkableTile at h
  simp only [fallbackPoint_X, fallbackPoint_Y] at h
  split at h
  · simp at h
  · simp at h
  · split at h
    · simp at h
    · simp at h
    · split at h
      · simp at h
      · simp at h
      · rename_i hw
        exact hw

/-- When the exit search of the Offering-to-Leaving transition fails, the path fields
are left as they were. -/
theorem update_exit_failed (sqrt : ℚ → ℚ) (m : ShrineMap) (w w1 : Worshipper)
    (hs : w.State = StateOffering) (h : w.Update sqrt m = some w1)
    (hl : w1.State = StateLeaving)
    (hfail : (∃ p e, findNearestWalkableTile m w.TargetX 704 = some (p, some e)) ∨
      (∃ t found e, findNearestWalkableTile m w.TargetX 704 = some (t, none) ∧
        findPath m (pixelToTile w.X w.Y) t = some (found, some e))) :
    w1.Path = w.Path ∧ w1.PathIndex = w.PathIndex := by
  unfold Worshipper.Update at h
  rw [hs] at h
  dsimp only at h
  rw [spawnRow_eq] at h
  split at h
  · rcases hfail with ⟨p, e, hn⟩ | ⟨t, found, e, hn, hp⟩
    · rw [hn] at h
      dsimp only at h
      split at h
      · simp at h
      · rename_i path pathErr hp
        simp only [fallbackPoint_X, fallbackPoint_Y] at hp
        rcases pathErr with _ | e2
        · have := (findPath_ok_preconditions m _ _ path hp).2.2.2
          rw [nearest_error_blocked m _ _ p e hn] at this
          simp at this
        · dsimp only at h
          simp only [Option.some.injEq] at h
          subst h
          exact ⟨rfl, rfl⟩
    · rw [hn] at h
      dsimp only at h
      rw [hp] at h
      dsimp only at h
      simp only [Option.some.injEq] at h
      subst h
      exact ⟨rfl, rfl⟩
  · simp only [Option.some.injEq] at h
    subst h
    simp at hl

/-- A leaving worshipper without a remaining path takes the straight-line branch. -/
theorem update_leaving_straight (sqrt : ℚ → ℚ) (m : ShrineMap) (w : Worshipper)
    (hs : w.State = StateLeaving) (hf : w.followsPath = false) :
    w.Update sqrt m = some (w.moveBy (w.TargetX - w.X) (768 - w.Y)
      (sqrt ((w.TargetX - w.X) * (w.TargetX - w.X) + (768 - w.Y) * (768 - w.Y)))) := by
  unfold Worshipper.Update
  rw [hs]
  dsimp only
  rw [hf, mapHeightPixels_eq]
  simp

theorem run_leaving_straight (sqrt : ℚ → ℚ) (ms : List ShrineMap) :
    ∀ (w : Worshipper), w.State = StateLeaving → w.followsPath = false →
      ∃ tr, runUpdates sqrt ms w = some tr ∧ tr.length = ms.length ∧
        ∀ v ∈ tr, v.State = StateLeaving ∧ v.followsPath = false := by
  induction ms with
  | nil =>
    intro w _ _
    exact ⟨[], rfl, rfl, by simp⟩
  | cons m ms ih =>
    intro w hs hf
    have hu := update_leaving_straight sqrt m w hs hf
    obtain ⟨tr, h1, h2, h3⟩ := ih (w.moveBy (w.TargetX - w.X) (768 - w.Y)
        (sqrt ((w.TargetX - w.X) * (w.TargetX - w.X) + (768 - w.Y) * (768 - w.Y))))
      ((moveBy_State w _ _ _).trans hs) ((moveBy_followsPath w _ _ _).trans hf)
    refine ⟨(w.moveBy (w.TargetX - w.X) (768 - w.Y)
        (sqrt ((w.TargetX - w.X) * (w.TargetX - w.X) + (768 - w.Y) * (768 - w.Y)))) :: tr,
      by simp only [runUpdates, hu, h1], by simp [h2], ?_⟩
    intro v hv
    rcases List.mem_cons.mp hv with rfl | hv1
    · exact ⟨(moveBy_State w _ _ _).trans hs, (moveBy_followsPath w _ _ _).trans hf⟩
    · exact h3 v hv1

/-- Claim C18: for a worshipper created by `NewWorshipper` and updated any number of
times, when an `Update` call makes the Offering-to-Leaving transition and the exit search
fails (`findNearestWalkableTile` or `findPath` returns an error), the worshipper enters
`StateLeaving` with no remaining path: every later sequence of `Update` calls returns,
stays in `StateLeaving` without a remaining path, and each call is the straight-line step
toward the exit position `(TargetX, 768)`. -/
theorem exit_failure_fallback (sqrt : ℚ → ℚ) (w : Worshipper) (hw : Spawned sqrt w)
    (hs : w.State = StateOffering) (m : ShrineMap) (w1 : Worshipper)
    (h : w.Update sqrt m = some w1) (hl : w1.State = StateLeaving)
    (hfail : (∃ p e, findNearestWalkableTile m w.TargetX 704 = some (p, some e)) ∨
      (∃ t found e, findNearestWalkableTile m w.TargetX 704 = some (t, none) ∧
        findPath m (pixelToTile w.X w.Y) t = some (found, some e))) :
    w1.followsPath = false ∧
    ∀ ms : List ShrineMap, ∃ tr, runUpdates sqrt ms w1 = some tr ∧
      tr.length = ms.length ∧
      ∀ v ∈ w1 :: tr, v.State = StateLeaving ∧ v.followsPath = false ∧
        ∀ m2 : ShrineMap, v.Update sqrt m2 = some (v.moveBy (v.TargetX - v.X) (768 - v.Y)
          (sqrt ((v.TargetX - v.X) * (v.TargetX - v.X) + (768 - v.Y) * (768 - v.Y)))) := by
  have hinv := spawned_offering_inv sqrt w hw hs
  obtain ⟨hp, hi⟩ := update_exit_failed sqrt m w w1 hs h hl hfail
  have hf1 : w1.followsPath = false := by
    unfold Worshipper.followsPath at hinv ⊢
    rw [hp, hi]
    exact hinv
  refine ⟨hf1, ?_⟩
  intro ms
  obtain ⟨tr, h1, h2, h3⟩ := run_leaving_straight sqrt ms w1 hl hf1
  refine ⟨tr, h1, h2, ?_⟩
  intro v hv
  have hv2 : v.State = StateLeaving ∧ v.followsPath = false := by
    rcases List.mem_cons.mp hv with rfl | hv1
    · exact ⟨hl, hf1⟩
    · exact h3 v hv1
  exact ⟨hv2.1, hv2.2, fun m2 => update_leaving_straight sqrt m2 v hv2.1 hv2.2⟩

set_option maxRecDepth 100000 in
theorem spawned_spawnedWorshipper : Spawned sqrtZero spawnedWorshipper :=
  Spawned.create 0 0 0 createMikoShrineMap spawnedWorshipper (by decide!)

theorem spawned_waitingWorshipper (n : Nat) (hn : n < 120) :
    Spawned sqrtZero (waitingWorshipper n) := by
  induction n with
  | zero =>
    exact Spawned.update createMikoShrineMap spawnedWorshipper _ spawned_spawnedWorshipper
      (by decide!)
  | succ k ih =>
    have hk := ih (by omega)
    refine Spawned.update createMikoShrineMap (waitingWorshipper k) _ hk ?_
    rw [update_offering_wait sqrtZero createMikoShrineMap (waitingWorshipper k) rfl
      (by simp only [waitingWorshipper, offeringDuration]; omega)]
    simp only [waitingWorshipper, Nat.cast_add, Nat.cast_one]

set_option maxRecDepth 100000 in
/-- Claim C18 for the worshipper spawned on the built-in map that has waited 119 ticks
at its place, when the map of the 120th call has no walkable tile. -/
theorem exit_failure_fallback_witness :
    Spawned sqrtZero (waitingWorshipper 119) ∧
    (waitingWorshipper 119).State = StateOffering ∧
    (waitingWorshipper 119).Update sqrtZero (mapWithWalkable []) =
      some { waitingWorshipper 0 with State := StateLeaving } ∧
    ((∃ p e, findNearestWalkableTile (mapWithWalkable []) (waitingWorshipper 119).TargetX 704
        = some (p, some e)) ∨
      (∃ t found e, findNearestWalkableTile (mapWithWalkable [])
          (waitingWorshipper 119).TargetX 704 = some (t, none) ∧
        findPath (mapWithWalkable [])
          (pixelToTile (waitingWorshipper 119).X (waitingWorshipper 119).Y) t
          = some (found, some e))) ∧
    (({ waitingWorshipper 0 with State := StateLeaving } : Worshipper).followsPath = false ∧
    ∀ ms : List ShrineMap, ∃ tr,
      runUpdates sqrtZero ms { waitingWorshipper 0 with State := StateLeaving } = some tr ∧
      tr.length = ms.length ∧
      ∀ v ∈ ({ waitingWorshipper 0 with State := StateLeaving } : Worshipper) :: tr,
        v.State = StateLeaving ∧ v.followsPath = false ∧
        ∀ m2 : ShrineMap, v.Update sqrtZero m2 = some (v.moveBy (v.TargetX - v.X) (768 - v.Y)
          (sqrtZero ((v.TargetX - v.X) * (v.TargetX - v.X) + (768 - v.Y) * (768 - v.Y))))) :=
  have hfail : (∃ p e, findNearestWalkableTile (mapWithWalkable [])
        (waitingWorshipper 119).TargetX 704 = some (p, some e)) :=
    ⟨⟨0, 0⟩, NearestError.noWalkableTileFound, by decide!⟩
  ⟨spawned_waitingWorshipper 119 (by decide), rfl, by decide!, Or.inl hfail,
   exit_failure_fallback sqrtZero (waitingWorshipper 119)
     (spawned_waitingWorshipper 119 (by decide)) rfl (mapWithWalkable [])
     { waitingWorshipper 0 with State := StateLeaving } (by decide!) rfl (Or.inl hfail)⟩

/-! ## The fallback arrival test -/

theorem donationBoxPixel_eq :
    (donationBoxX : ℚ) * mikoTileSize * mikoScaleFactor = 512 ∧
    (donationBoxY : ℚ) * mikoTileSize * mikoScaleFactor = 256 := by
  constructor <;> norm_num [donationBoxX, donationBoxY, mikoTileSize, mikoScaleFactor]

set_option maxRecDepth 100000 in
/-- Claim C19 as stated fails: the worshipper `nearBoxWorshipper` is approaching without
a path, 15 pixels from the goal position `(512, 256)`; this distance is not below
`pathfindingProximityThreshold = 10`, and yet one `Update` switches the worshipper to
`StateOffering`. -/
theorem fallback_arrival_beyond_threshold :
    nearBoxWorshipper.State = StateApproaching ∧ nearBoxWorshipper.Path = [] ∧
    nearBoxWorshipper.donationBoxDistance sqrtModel = 15 ∧
    ¬ (nearBoxWorshipper.donationBoxDistance sqrtModel < pathfindingProximityThreshold) ∧
    nearBoxWorshipper.Update sqrtModel createMikoShrineMap = some offeringWorshipper ∧
    offeringWorshipper.State = StateOffering := by
  decide!

/-- Claim C19 (amended): for every worshipper in `StateApproaching` that has no path,
`Update` returns and switches it to `StateOffering` exactly when the distance from its
position to the donation-box position `(512, 256)` is below the literal `20`; in that
case only `State` and `Timer` (set to `0`) change, and otherwise the worshipper takes the
movement step straight toward `(512, 256)`. -/
theorem fallback_arrival_test (sqrt : ℚ → ℚ) (m : ShrineMap) (w : Worshipper)
    (hs : w.State = StateApproaching) (hp : w.Path = []) :
    ∃ w1, w.Update sqrt m = some w1 ∧
      (w1.State = StateOffering ↔ w.donationBoxDistance sqrt < 20) ∧
      (w.donationBoxDistance sqrt < 20 →
        w1 = { w with State := StateOffering, Timer := 0 }) ∧
      (¬ w.donationBoxDistance sqrt < 20 →
        w1 = w.moveBy (512 - w.X) (256 - w.Y) (w.donationBoxDistance sqrt)) := by
  have hf : w.followsPath = false := by
    unfold Worshipper.followsPath
    rw [hp]
    simp
  unfold Worshipper.Update Worshipper.donationBoxDistance
  rw [hs]
  dsimp only
  rw [hf, donationBoxPixel_eq.1, donationBoxPixel_eq.2]
  simp only [Bool.false_eq_true, if_false]
  split
  · rename_i hd
    exact ⟨_, rfl, ⟨fun _ => hd, fun _ => rfl⟩, fun _ => rfl, fun hn => absurd hd hn⟩
  · rename_i hd
    refine ⟨_, rfl, ⟨fun h1 => ?_, fun h1 => absurd h1 hd⟩, fun h1 => absurd h1 hd,
      fun _ => rfl⟩
    rw [moveBy_State, hs] at h1
    simp at h1

set_option maxRecDepth 100000 in
/-- Claim C19 (amended) at `nearBoxWorshipper`, 15 pixels from the goal position. -/
theorem fallback_arrival_test_witness :
    nearBoxWorshipper.State = StateApproaching ∧ nearBoxWorshipper.Path = [] ∧
    ∃ w1, nearBoxWorshipper.Update sqrtModel createMikoShrineMap = some w1 ∧
      (w1.State = StateOffering ↔ nearBoxWorshipper.donationBoxDistance sqrtModel < 20) ∧
      (nearBoxWorshipper.donationBoxDistance sqrtModel < 20 →
        w1 = { nearBoxWorshipper with State := StateOffering, Timer := 0 }) ∧
      (¬ nearBoxWorshipper.donationBoxDistance sqrtModel < 20 →
        w1 = nearBoxWorshipper.moveBy (512 - nearBoxWorshipper.X) (256 - nearBoxWorshipper.Y)
          (nearBoxWorshipper.donationBoxDistance sqrtModel)) :=
  ⟨rfl, rfl, fallback_arrival_test sqrtModel createMikoShrineMap nearBoxWorshipper rfl rfl⟩

/-! ## The straight-line exit -/

theorem parkedWorshipper_update (sqrt : ℚ → ℚ) (m : ShrineMap) :
    parkedWorshipper.Update sqrt m = some parkedWorshipper := by
  rw [update_leaving_straight sqrt m parkedWorshipper rfl (by decide)]
  unfold Worshipper.moveBy
  split
  · simp [parkedWorshipper]
  · rfl

/-- Claim C20 (where the code departs from it): the worshipper `parkedWorshipper` is in
`StateLeaving` without a path, with `TargetX = -50` and `Speed = 1` as `NewWorshipper`
sets them, and stands on its exit position `(-50, 768)`; for every square-root function
and every sequence of maps, every `Update` call returns it unchanged, and `IsOffScreen`
is false for it: no number of `Update` calls makes `IsOffScreen` true. -/
theorem exit_never_removed (sqrt : ℚ → ℚ) (ms : List ShrineMap) :
    parkedWorshipper.State = StateLeaving ∧ parkedWorshipper.Path = [] ∧
    parkedWorshipper.TargetX = -50 ∧ 1 ≤ parkedWorshipper.Speed ∧
    parkedWorshipper.Speed < 3 / 2 ∧
    runUpdates sqrt ms parkedWorshipper = some (List.replicate ms.length parkedWorshipper) ∧
    parkedWorshipper.IsOffScreen = false := by
  refine ⟨rfl, rfl, rfl, by decide!, by decide!, ?_, by decide!⟩
  induction ms with
  | nil => rfl
  | cons m ms ih =>
    simp only [runUpdates, parkedWorshipper_update, ih, List.length_cons, List.replicate_succ]

/-! ## Examples for the lifecycle claims -/

set_option maxRecDepth 100000 in
/-- Claim C11 at `offeringWorshipper` and the built-in map. -/
theorem dwell_duration_witness :
    offeringWorshipper.State = StateOffering ∧ offeringWorshipper.Timer = 0 ∧
    (List.replicate 119 createMikoShrineMap).length = 119 ∧ IsGrid createMikoShrineMap ∧
    ∃ tr w120,
      runUpdates sqrtModel (List.replicate 119 createMikoShrineMap) offeringWorshipper
        = some tr ∧
      tr.length = 119 ∧ (∀ v ∈ tr, v.State = StateOffering) ∧
      runUpdates sqrtModel (List.replicate 119 createMikoShrineMap ++ [createMikoShrineMap])
        offeringWorshipper = some (tr ++ [w120]) ∧
      w120.State = StateLeaving :=
  ⟨rfl, rfl, by simp, by decide,
   dwell_duration sqrtModel offeringWorshipper rfl rfl (List.replicate 119 createMikoShrineMap)
     (by simp) createMikoShrineMap (by decide)⟩

/-- Claim C12 at `lastWaypointWorshipper`, which stands on its last waypoint. -/
theorem arrival_on_path_exhaustion_witness :
    lastWaypointWorshipper.State = StateApproaching ∧ lastWaypointWorshipper.Path ≠ [] ∧
    0 ≤ lastWaypointWorshipper.PathIndex ∧
    lastWaypointWorshipper.PathIndex < (lastWaypointWorshipper.Path.length : Int) ∧
    ∃ w1, lastWaypointWorshipper.Update sqrtModel createMikoShrineMap = some w1 ∧
      ((lastWaypointWorshipper.waypointDistance sqrtModel < pathfindingProximityThreshold ∧
          lastWaypointWorshipper.PathIndex = (lastWaypointWorshipper.Path.length : Int) - 1) →
        w1.State = StateOffering ∧ w1.Timer = 0) ∧
      (¬ (lastWaypointWorshipper.waypointDistance sqrtModel < pathfindingProximityThreshold ∧
          lastWaypointWorshipper.PathIndex = (lastWaypointWorshipper.Path.length : Int) - 1) →
        w1.State = StateApproaching) :=
  ⟨rfl, by decide, by decide, by decide,
   arrival_on_path_exhaustion sqrtModel createMikoShrineMap lastWaypointWorshipper rfl
     (by decide) (by decide) (by decide)⟩

set_option maxRecDepth 100000 in
/-- Claim C13 on the trace of `nearBoxWorshipper` over two calls: it arrives in the first
call and waits in the second. -/
theorem arrival_counted_once_witness :
    runUpdates sqrtModel [createMikoShrineMap, createMikoShrineMap] nearBoxWorshipper =
      some [offeringWorshipper, { offeringWorshipper with Timer := 1 }] ∧
    ((nearBoxWorshipper :: [offeringWorshipper, { offeringWorshipper with Timer := 1 }]).Chain'
      (fun a b => a.State.rank ≤ b.State.rank ∧ b.State.rank ≤ a.State.rank + 1) ∧
    (nearBoxWorshipper.State ≠ StateApproaching →
      ∀ v ∈ [offeringWorshipper, { offeringWorshipper with Timer := 1 }],
        v.State ≠ StateApproaching) ∧
    arrivals (nearBoxWorshipper ::
      [offeringWorshipper, { offeringWorshipper with Timer := 1 }]) ≤ 1 ∧
    (nearBoxWorshipper.State = StateApproaching →
      (∃ v ∈ [offeringWorshipper, { offeringWorshipper with Timer := 1 }],
        v.State ≠ StateApproaching) →
      arrivals (nearBoxWorshipper ::
        [offeringWorshipper, { offeringWorshipper with Timer := 1 }]) = 1)) :=
  ⟨by decide!,
   arrival_counted_once sqrtModel [createMikoShrineMap, createMikoShrineMap] nearBoxWorshipper
     [offeringWorshipper, { offeringWorshipper with Timer := 1 }] (by decide!)⟩

/-! ## The offering state is parked -/

/-- Claim C21: for every worshipper in `StateOffering` and every map, an `Update` call
that returns leaves `X`, `Y`, `Speed`, `StartX` and `TargetX` (and `Width`, `Height`,
`Color`) unchanged, and while the worshipper stays in `StateOffering` it leaves `Path`,
`PathIndex` and `NextTarget` unchanged as well; on a 12x16 map the call returns. -/
theorem offering_is_parked (sqrt : ℚ → ℚ) (m : ShrineMap) (w : Worshipper)
    (hs : w.State = StateOffering) :
    (∀ w1, w.Update sqrt m = some w1 →
      w1.X = w.X ∧ w1.Y = w.Y ∧ w1.Speed = w.Speed ∧ w1.StartX = w.StartX ∧
      w1.TargetX = w.TargetX ∧ w1.Width = w.Width ∧ w1.Height = w.Height ∧
      w1.Color = w.Color ∧
      (w1.State = StateOffering →
        w1.Path = w.Path ∧ w1.PathIndex = w.PathIndex ∧ w1.NextTarget = w.NextTarget)) ∧
    (IsGrid m → ∃ w1, w.Update sqrt m = some w1) := by
  constructor
  · intro w1 h
    unfold Worshipper.Update at h
    rw [hs] at h
    dsimp only at h
    split at h
    · split at h
      · simp at h
      · try dsimp only at h
        split at h
        · simp at h
        · try dsimp only at h
          split at h
          · simp only [Option.some.injEq] at h
            subst h
            simp
          · simp only [Option.some.injEq] at h
            subst h
            simp
    · simp only [Option.some.injEq] at h
      subst h
      simp
  · intro hm
    by_cases ht : offeringDuration ≤ w.Timer + 1
    · obtain ⟨w1, h, _⟩ := update_offering_leave sqrt m hm w hs ht
      exact ⟨w1, h⟩
    · exact ⟨_, update_offering_wait sqrt m w hs (by omega)⟩

set_option maxRecDepth 100000 in
/-- Claim C21 at `offeringWorshipper` and the built-in map. -/
theorem offering_is_parked_witness :
    offeringWorshipper.State = StateOffering ∧
    ((∀ w1, offeringWorshipper.Update sqrtModel createMikoShrineMap = some w1 →
      w1.X = offeringWorshipper.X ∧ w1.Y = offeringWorshipper.Y ∧
      w1.Speed = offeringWorshipper.Speed ∧ w1.StartX = offeringWorshipper.StartX ∧
      w1.TargetX = offeringWorshipper.TargetX ∧ w1.Width = offeringWorshipper.Width ∧
      w1.Height = offeringWorshipper.Height ∧ w1.Color = offeringWorshipper.Color ∧
      (w1.State = StateOffering →
        w1.Path = offeringWorshipper.Path ∧ w1.PathIndex = offeringWorshipper.PathIndex ∧
        w1.NextTarget = offeringWorshipper.NextTarget)) ∧
    (IsGrid createMikoShrineMap →
      ∃ w1, offeringWorshipper.Update sqrtModel createMikoShrineMap = some w1)) :=
  ⟨rfl, offering_is_parked sqrtModel createMikoShrineMap offeringWorshipper rfl⟩

/-! ## The heuristic -/

theorem manhattanDistance_step (a g dir : Point) (hd : dir ∈ directions) :
    manhattanDistance a g ≤ 1 + manhattanDistance ⟨a.X + dir.X, a.Y + dir.Y⟩ g := by
  unfold manhattanDistance
  simp only [directions, List.mem_cons, List.mem_singleton, List.not_mem_nil, or_false] at hd
  rcases hd with rfl | rfl | rfl | rfl <;> simp only <;> omega

theorem manhattanDistance_path (g : Point) :
    ∀ (path : List Point) (a : Point), path.head? = some a → path.getLast? = some g →
      path.Chain' (fun p q => ∃ dir ∈ directions, q = ⟨p.X + dir.X, p.Y + dir.Y⟩) →
      manhattanDistance a g ≤ path.length - 1 := by
  intro path
  induction path with
  | nil => intro a h; simp at h
  | cons p rest ih =>
    intro a hh hl hc
    simp only [List.head?_cons, Option.some.injEq] at hh
    subst hh
    cases rest with
    | nil =>
      simp only [List.getLast?_singleton, Option.some.injEq] at hl
      subst hl
      simp [manhattanDistance]
    | cons q rest2 =>
      rw [List.getLast?_cons_cons] at hl
      rw [List.chain'_cons] at hc
      obtain ⟨⟨dir, hd, hq⟩, hc2⟩ := hc
      have h1 := ih q rfl hl hc2
      have h2 := manhattanDistance_step p g dir hd
      rw [← hq] at h2
      simp only [List.length_cons] at h1 ⊢
      omega

/-- Claim C23: `manhattanDistance a g` is `|a.X - g.X| + |a.Y - g.Y|`; it is zero exactly
when `a = g`; it is at most `1 + manhattanDistance b g` when `b` is a 4-neighbour of `a`
(one of the four `directions` away); and it is at most the number of steps of every
4-connected path from `a` to `g`, in particular of every walkable path on any map. -/
theorem manhattanDistance_admissible_consistent (a b g : Point) :
    ((manhattanDistance a g : Int) = |a.X - g.X| + |a.Y - g.Y|) ∧
    (manhattanDistance a g = 0 ↔ a = g) ∧
    ((∃ dir ∈ directions, b = ⟨a.X + dir.X, a.Y + dir.Y⟩) →
      manhattanDistance a g ≤ 1 + manhattanDistance b g) ∧
    (∀ path : List Point, path.head? = some a → path.getLast? = some g →
      path.Chain' (fun p q => ∃ dir ∈ directions, q = ⟨p.X + dir.X, p.Y + dir.Y⟩) →
      manhattanDistance a g ≤ path.length - 1) ∧
    (∀ (m : ShrineMap) (path : List Point), IsPathOn m a g path →
      manhattanDistance a g ≤ pathCost path) := by
  refine ⟨?_, ?_, ?_, fun path => manhattanDistance_path g path a, ?_⟩
  · unfold manhattanDistance
    push_cast
    rfl
  · unfold manhattanDistance
    constructor
    · intro h
      cases a
      cases g
      simp only [Point.mk.injEq]
      simp only at h
      omega
    · intro h
      subst h
      simp
  · rintro ⟨dir, hd, rfl⟩
    exact manhattanDistance_step a g dir hd
  · intro m path ⟨h1, h2, h3, _⟩
    unfold pathCost
    apply manhattanDistance_path g path a h1 h2
    rw [zip_tail_iff_chain'] at h3
    exact List.Chain'.imp (fun p q hpq => direction_of_adjacent p q hpq) h3

/-! ## The built-in map and the donation box -/

set_option maxRecDepth 100000 in
theorem isGrid_createMikoShrineMap : IsGrid createMikoShrineMap := by decide

set_option maxRecDepth 100000 in
theorem donationBox_blocked :
    isWalkable createMikoShrineMap donationBoxX donationBoxY = some false := by decide

set_option maxRecDepth 100000 in
/-- Claim C26: on the map returned by `createMikoShrineMap` the donation-box tile
`(donationBoxX, donationBoxY) = (8, 4)` holds the tile identifier `{1, 4}`, which is not a
key of `walkableTilesMap`, so `isWalkable` is false there; `findPath` to that tile returns
an error (and a nil path) for every start, and every worshipper that `NewWorshipper`
creates on this map has an empty `Path`. -/
theorem builtin_map_blocks_goal :
    donationBoxX = 8 ∧ donationBoxY = 4 ∧
    (createMikoShrineMap[4]?.bind (fun row => row[8]?)) = some ⟨1, 4⟩ ∧
    walkableTilesMap.lookup ⟨1, 4⟩ = none ∧
    isWalkable createMikoShrineMap donationBoxX donationBoxY = some false ∧
    (∀ s : Point, ∃ e,
      findPath createMikoShrineMap s ⟨donationBoxX, donationBoxY⟩ = some ([], some e)) ∧
    (∀ (side : Int) (speedDraw : ℚ) (colorDraw : Fin 5), ∃ w,
      NewWorshipper side speedDraw colorDraw createMikoShrineMap = some w ∧ w.Path = []) := by
  refine ⟨rfl, rfl, by decide, by decide, donationBox_blocked, ?_, ?_⟩
  · intro s
    exact findPath_blocked_goal createMikoShrineMap isGrid_createMikoShrineMap s
      ⟨donationBoxX, donationBoxY⟩ donationBox_blocked
  · intro side speedDraw colorDraw
    obtain ⟨w, hw, hc⟩ := newWorshipper_grid side speedDraw colorDraw createMikoShrineMap
      isGrid_createMikoShrineMap
    refine ⟨w, hw, ?_⟩
    rcases hc with ⟨t, path, _, hp, _⟩ | ⟨_, h⟩
    · obtain ⟨e, he⟩ := findPath_blocked_goal createMikoShrineMap isGrid_createMikoShrineMap t
        ⟨donationBoxX, donationBoxY⟩ donationBox_blocked
      rw [he] at hp
      simp at hp
    · exact h

/-! ## Conversion round trip -/

theorem floatToInt_of_mem (q : ℚ) (k : Int) (h0 : 0 ≤ k) (h1 : (k : ℚ) ≤ q)
    (h2 : q < k + 1) : floatToInt q = k := by
  unfold floatToInt
  have hq : (0 : ℚ) ≤ q := le_trans (by exact_mod_cast h0) h1
  rw [if_pos hq]
  exact Int.floor_eq_iff.mpr ⟨h1, h2⟩

theorem pixelToTile_near_centre (p : Point) (h0 : 0 ≤ p.X) (h1 : 0 ≤ p.Y) (x y : ℚ)
    (hx1 : 64 * (p.X : ℚ) ≤ x) (hx2 : x < 64 * (p.X : ℚ) + 64)
    (hy1 : 64 * (p.Y : ℚ) ≤ y) (hy2 : y < 64 * (p.Y : ℚ) + 64) :
    pixelToTile x y = p := by
  unfold pixelToTile
  rw [tile_side]
  cases p with
  | mk px py =>
    simp only [Point.mk.injEq] at *
    constructor
    · apply floatToInt_of_mem _ _ h0
      · rw [le_div_iff₀ (by norm_num : (0 : ℚ) < 64)]; linarith
      · rw [div_lt_iff₀ (by norm_num : (0 : ℚ) < 64)]; linarith
    · apply floatToInt_of_mem _ _ h1
      · rw [le_div_iff₀ (by norm_num : (0 : ℚ) < 64)]; linarith
      · rw [div_lt_iff₀ (by norm_num : (0 : ℚ) < 64)]; linarith

theorem tileToPixel_eq (p : Point) :
    tileToPixel p = (64 * (p.X : ℚ) + 32, 64 * (p.Y : ℚ) + 32) := by
  unfold tileToPixel
  rw [tile_side]
  have e1 : (p.X : ℚ) * mikoTileSize * mikoScaleFactor = 64 * (p.X : ℚ) := by
    rw [mul_assoc, tile_side]; ring
  have e2 : (p.Y : ℚ) * mikoTileSize * mikoScaleFactor = 64 * (p.Y : ℚ) := by
    rw [mul_assoc, tile_side]; ring
  rw [e1, e2]
  norm_num

/-- Claim C29: for every tile `p` with `p.X >= 0` and `p.Y >= 0`, `tileToPixel p` is the
tile centre `(64 * p.X + 32, 64 * p.Y + 32)`, `pixelToTile` of it is `p`, and every pixel
position whose distance from that centre is at most `pathfindingProximityThreshold` (the
squared distance is at most the squared threshold) converts back to `p`. -/
theorem pixel_tile_round_trip (p : Point) (h0 : 0 ≤ p.X) (h1 : 0 ≤ p.Y) :
    tileToPixel p = (64 * (p.X : ℚ) + 32, 64 * (p.Y : ℚ) + 32) ∧
    pixelToTile (tileToPixel p).1 (tileToPixel p).2 = p ∧
    ∀ x y : ℚ,
      (x - (tileToPixel p).1) ^ 2 + (y - (tileToPixel p).2) ^ 2
        ≤ pathfindingProximityThreshold ^ 2 →
      pixelToTile x y = p := by
  have hnear : ∀ x y : ℚ,
      (x - (tileToPixel p).1) ^ 2 + (y - (tileToPixel p).2) ^ 2
        ≤ pathfindingProximityThreshold ^ 2 → pixelToTile x y = p := by
    intro x y h
    rw [tileToPixel_eq] at h
    simp only [pathfindingProximityThreshold] at h
    have hx : (x - (64 * (p.X : ℚ) + 32)) ^ 2 ≤ 10 ^ 2 := by
      nlinarith [sq_nonneg (y - (64 * (p.Y : ℚ) + 32))]
    have hy : (y - (64 * (p.Y : ℚ) + 32)) ^ 2 ≤ 10 ^ 2 := by
      nlinarith [sq_nonneg (x - (64 * (p.X : ℚ) + 32))]
    have hx2 := abs_le_of_sq_le_sq' hx (by norm_num)
    have hy2 := abs_le_of_sq_le_sq' hy (by norm_num)
    apply pixelToTile_near_centre p h0 h1 <;> linarith [hx2.1, hx2.2, hy2.1, hy2.2]
  refine ⟨tileToPixel_eq p, ?_, hnear⟩
  apply hnear
  simp only [sub_self, pathfindingProximityThreshold]
  norm_num

/-- Claim C29 at the tile `(8, 5)`. -/
theorem pixel_tile_round_trip_witness :
    (0 : Int) ≤ (⟨8, 5⟩ : Point).X ∧ (0 : Int) ≤ (⟨8, 5⟩ : Point).Y ∧
    (tileToPixel ⟨8, 5⟩ = (64 * (((⟨8, 5⟩ : Point).X : Int) : ℚ) + 32,
        64 * (((⟨8, 5⟩ : Point).Y : Int) : ℚ) + 32) ∧
    pixelToTile (tileToPixel ⟨8, 5⟩).1 (tileToPixel ⟨8, 5⟩).2 = ⟨8, 5⟩ ∧
    ∀ x y : ℚ,
      (x - (tileToPixel ⟨8, 5⟩).1) ^ 2 + (y - (tileToPixel ⟨8, 5⟩).2) ^ 2
        ≤ pathfindingProximityThreshold ^ 2 →
      pixelToTile x y = ⟨8, 5⟩) :=
  ⟨by decide, by decide, pixel_tile_round_trip ⟨8, 5⟩ (by decide) (by decide)⟩

/-! ## The waypoint cursor -/

theorem moveBy_NextTarget (w : Worshipper) (dx dy d : ℚ) :
    (w.moveBy dx dy d).NextTarget = w.NextTarget := by
  unfold Worshipper.moveBy; split <;> rfl

theorem indexPath_eq_getElem (path : List Point) (i : Int) (h0 : 0 ≤ i) :
    indexPath path i = path[i.toNat]? := by
  unfold indexPath
  rw [if_neg (by omega)]

/-- One `Update` keeps the cursor invariant: `PathIndex` is not negative, and while it is
inside the path `NextTarget` is the waypoint it points at. -/
theorem update_cursor (sqrt : ℚ → ℚ) (m : ShrineMap) (w w1 : Worshipper)
    (h : w.Update sqrt m = some w1) (h0 : 0 ≤ w.PathIndex)
    (hc : w.PathIndex < (w.Path.length : Int) →
      w.Path[w.PathIndex.toNat]? = some w.NextTarget) :
    0 ≤ w1.PathIndex ∧
    (w1.PathIndex < (w1.Path.length : Int) →
      w1.Path[w1.PathIndex.toNat]? = some w1.NextTarget) := by
  unfold Worshipper.Update at h
  split at h
  · split at h
    · try dsimp only at h
      split at h
      · split at h
        · split at h
          · simp at h
          · rename_i p hp
            simp only [Option.some.injEq] at h; subst h
            rw [indexPath_eq_getElem _ _ (by omega)] at hp
            exact ⟨by simp only; omega, fun _ => hp⟩
        · rename_i hlt
          simp only [Option.some.injEq] at h; subst h
          exact ⟨by simp only; omega, fun hh => absurd hh hlt⟩
      · simp only [Option.some.injEq] at h; subst h
        rw [moveBy_PathIndex, moveBy_Path, moveBy_NextTarget]
        exact ⟨h0, hc⟩
    · try dsimp only at h
      split at h
      · simp only [Option.some.injEq] at h; subst h
        exact ⟨h0, hc⟩
      · simp only [Option.some.injEq] at h; subst h
        rw [moveBy_PathIndex, moveBy_Path, moveBy_NextTarget]
        exact ⟨h0, hc⟩
  · try dsimp only at h
    split at h
    · split at h
      · simp at h
      · try dsimp only at h
        split at h
        · simp at h
        · try dsimp only at h
          split at h
          · simp only [Option.some.injEq] at h; subst h
            rename_i first rest hex
            refine ⟨le_refl _, fun _ => ?_⟩
            simp only [hex, Int.toNat_zero, List.getElem?_cons_zero]
          · simp only [Option.some.injEq] at h; subst h
            exact ⟨h0, hc⟩
    · simp only [Option.some.injEq] at h; subst h
      exact ⟨h0, hc⟩
  · split at h
    · try dsimp only at h
      split at h
      · split at h
        · split at h
          · simp at h
          · rename_i p hp
            simp only [Option.some.injEq] at h; subst h
            rw [indexPath_eq_getElem _ _ (by omega)] at hp
            exact ⟨by simp only; omega, fun _ => hp⟩
        · simp only [Option.some.injEq] at h; subst h
          refine ⟨by simp only; omega, fun hh => ?_⟩
          simp only [List.length_nil, Nat.cast_zero] at hh
          omega
      · simp only [Option.some.injEq] at h; subst h
        rw [moveBy_PathIndex, moveBy_Path, moveBy_NextTarget]
        exact ⟨h0, hc⟩
    · try dsimp only at h
      simp only [Option.some.injEq] at h; subst h
      rw [moveBy_PathIndex, moveBy_Path, moveBy_NextTarget]
      exact ⟨h0, hc⟩

/-- The fields that `NewWorshipper` sets for the cursor. -/
theorem newWorshipper_cursor (side : Int) (speedDraw : ℚ) (colorDraw : Fin 5)
    (m : ShrineMap) (w : Worshipper) (h : NewWorshipper side speedDraw colorDraw m = some w) :
    w.PathIndex = 0 ∧ w.Path.head? = (if w.Path = [] then none else some w.NextTarget) := by
  unfold NewWorshipper at h
  simp only [mapWidthPixels_eq, worshipperSpeed] at h
  split at h
  · simp at h
  · split at h
    · simp at h
    · split at h
      · simp only [Option.some.injEq] at h; subst h
        rename_i hpath
        simp [hpath]
      · simp only [Option.some.injEq] at h; subst h
        simp

theorem spawned_cursor (sqrt : ℚ → ℚ) (w : Worshipper) (hw : Spawned sqrt w) :
    0 ≤ w.PathIndex ∧
    (w.PathIndex < (w.Path.length : Int) →
      w.Path[w.PathIndex.toNat]? = some w.NextTarget) := by
  induction hw with
  | create side speedDraw colorDraw shrineMap w h =>
    obtain ⟨h1, h2⟩ := newWorshipper_cursor side speedDraw colorDraw shrineMap w h
    rw [h1]
    refine ⟨le_refl _, fun hlt => ?_⟩
    have hne : w.Path ≠ [] := by
      intro hnil
      rw [hnil] at hlt
      simp at hlt
    rw [if_neg hne] at h2
    rw [Int.toNat_zero, ← List.head?_eq_getElem?]
    exact h2
  | update shrineMap w w1 _ h ih =>
    exact update_cursor sqrt shrineMap w w1 h ih.1 ih.2

/-- Claim C30: for every worshipper created by `NewWorshipper` and updated any number of
times (on any maps, with any square-root function), `PathIndex >= 0` and, whenever
`PathIndex < len(Path)`, `NextTarget = Path[PathIndex]`; consequently the index
`Path[PathIndex + 1]` that `Update` reads when `PathIndex + 1 < len(Path)` is in range,
and on a 12x16 map `Update` returns. -/
theorem waypoint_cursor_invariant (sqrt : ℚ → ℚ) (w : Worshipper) (hw : Spawned sqrt w) :
    0 ≤ w.PathIndex ∧
    (w.PathIndex < (w.Path.length : Int) →
      w.Path[w.PathIndex.toNat]? = some w.NextTarget) ∧
    (w.PathIndex + 1 < (w.Path.length : Int) →
      ∃ p, indexPath w.Path (w.PathIndex + 1) = some p) ∧
    (∀ m : ShrineMap, IsGrid m → ∃ w1, w.Update sqrt m = some w1) := by
  obtain ⟨h0, hc⟩ := spawned_cursor sqrt w hw
  refine ⟨h0, hc, ?_, ?_⟩
  · intro hlt
    obtain ⟨p, hp, _⟩ := indexPath_some w.Path (w.PathIndex + 1) (by omega) hlt
    exact ⟨p, hp⟩
  · intro m hm
    exact update_total sqrt m hm w (by omega)

set_option maxRecDepth 100000 in
/-- Claim C30 at the worshipper that `NewWorshipper` creates on `corridorMap`. -/
theorem waypoint_cursor_invariant_witness :
    Spawned sqrtModel corridorWorshipper ∧
    (0 ≤ corridorWorshipper.PathIndex ∧
    (corridorWorshipper.PathIndex < (corridorWorshipper.Path.length : Int) →
      corridorWorshipper.Path[corridorWorshipper.PathIndex.toNat]?
        = some corridorWorshipper.NextTarget) ∧
    (corridorWorshipper.PathIndex + 1 < (corridorWorshipper.Path.length : Int) →
      ∃ p, indexPath corridorWorshipper.Path (corridorWorshipper.PathIndex + 1) = some p) ∧
    (∀ m : ShrineMap, IsGrid m → ∃ w1, corridorWorshipper.Update sqrtModel m = some w1)) :=
  ⟨Spawned.create 0 0 0 corridorMap corridorWorshipper (by decide!),
   waypoint_cursor_invariant sqrtModel corridorWorshipper
     (Spawned.create 0 0 0 corridorMap corridorWorshipper (by decide!))⟩

/-! ## The path-following step -/

theorem moveBy_pos (w : Worshipper) (dx dy d : ℚ) (hd : 0 < d) :
    (w.moveBy dx dy d).X = w.X + dx / d * w.Speed ∧
    (w.moveBy dx dy d).Y = w.Y + dy / d * w.Speed := by
  unfold Worshipper.moveBy
  rw [if_pos hd]
  exact ⟨rfl, rfl⟩

/-- The path-following branch, which `StateApproaching` and `StateLeaving` share up to
what happens when the path is exhausted. -/
theorem update_path_branch (sqrt : ℚ → ℚ) (m : ShrineMap) (w : Worshipper)
    (hs : w.State = StateApproaching ∨ w.State = StateLeaving) (hne : w.Path ≠ [])
    (h0 : 0 ≤ w.PathIndex) (hi : w.PathIndex < (w.Path.length : Int)) :
    ∃ w1, w.Update sqrt m = some w1 ∧
      (pathfindingProximityThreshold ≤ w.waypointDistance sqrt →
        w1 = w.moveBy ((tileToPixel w.NextTarget).1 - w.X)
          ((tileToPixel w.NextTarget).2 - w.Y) (w.waypointDistance sqrt)) ∧
      (w.waypointDistance sqrt < pathfindingProximityThreshold →
        w1.X = w.X ∧ w1.Y = w.Y ∧ w1.PathIndex = w.PathIndex + 1) := by
  have hlen : 0 < w.Path.length := List.length_pos.mpr hne
  have hf : w.followsPath = true := by
    unfold Worshipper.followsPath
    exact decide_eq_true ⟨hlen, hi⟩
  unfold Worshipper.Update Worshipper.waypointDistance
  rcases hs with hs | hs
  · rw [hs]
    dsimp only
    rw [if_pos hf]
    split
    · rename_i hd
      split
      · rename_i hlt
        obtain ⟨p, hp, _⟩ := indexPath_some w.Path (w.PathIndex + 1) (by omega) hlt
        rw [hp]
        exact ⟨_, rfl, fun hge => absurd hd (not_lt.mpr hge), fun _ => ⟨rfl, rfl, rfl⟩⟩
      · exact ⟨_, rfl, fun hge => absurd hd (not_lt.mpr hge), fun _ => ⟨rfl, rfl, rfl⟩⟩
    · rename_i hd
      exact ⟨_, rfl, fun _ => rfl, fun hlt => absurd hlt hd⟩
  · rw [hs]
    dsimp only
    rw [if_pos hf]
    split
    · rename_i hd
      split
      · rename_i hlt
        obtain ⟨p, hp, _⟩ := indexPath_some w.Path (w.PathIndex + 1) (by omega) hlt
        rw [hp]
        exact ⟨_, rfl, fun hge => absurd hd (not_lt.mpr hge), fun _ => ⟨rfl, rfl, rfl⟩⟩
      · exact ⟨_, rfl, fun hge => absurd hd (not_lt.mpr hge), fun _ => ⟨rfl, rfl, rfl⟩⟩
    · rename_i hd
      exact ⟨_, rfl, fun _ => rfl, fun hlt => absurd hlt hd⟩

/-- The geometry of a step of length `s` along `(dx, dy) / d` when `d` is the Euclidean
length of `(dx, dy)`. -/
theorem unit_step_geometry (dx dy d s : ℚ) (hd : 0 < d) (h2 : d * d = dx * dx + dy * dy) :
    (dx / d * s) ^ 2 + (dy / d * s) ^ 2 = s ^ 2 ∧
    (dx - dx / d * s) ^ 2 + (dy - dy / d * s) ^ 2 = (d - s) ^ 2 := by
  have hne : d ≠ 0 := ne_of_gt hd
  constructor
  · field_simp
    nlinarith [h2]
  · field_simp
    have : (dx * d - dx * s) ^ 2 + (dy * d - dy * s) ^ 2
        = (dx * dx + dy * dy) * (d - s) ^ 2 := by ring
    rw [this, ← h2]
    ring

/-- Claim C24: for a worshipper in `StateApproaching` or `StateLeaving` whose cursor is
inside its non-empty path, `Update` returns. Let `d` be the distance it computes to the
centre of the waypoint tile `NextTarget`. If `d` is at least
`pathfindingProximityThreshold`, the new position is the old one plus `Speed` times
`(dx, dy) / d`, and `PathIndex` and `State` are unchanged; when `d` is the Euclidean
distance (`d * d = dx * dx + dy * dy`, the square root is exact there), the displacement
has length `Speed` and the new distance to the centre is `d - Speed`. If `d` is below the
threshold the position is unchanged and `PathIndex` increases by one. -/
theorem path_following_step (sqrt : ℚ → ℚ) (m : ShrineMap) (w : Worshipper)
    (hs : w.State = StateApproaching ∨ w.State = StateLeaving) (hne : w.Path ≠ [])
    (h0 : 0 ≤ w.PathIndex) (hi : w.PathIndex < (w.Path.length : Int)) :
    ∃ w1, w.Update sqrt m = some w1 ∧
      (pathfindingProximityThreshold ≤ w.waypointDistance sqrt →
        w1.PathIndex = w.PathIndex ∧ w1.State = w.State ∧
        w1.X = w.X + ((tileToPixel w.NextTarget).1 - w.X) / w.waypointDistance sqrt
          * w.Speed ∧
        w1.Y = w.Y + ((tileToPixel w.NextTarget).2 - w.Y) / w.waypointDistance sqrt
          * w.Speed ∧
        (w.waypointDistance sqrt * w.waypointDistance sqrt =
            ((tileToPixel w.NextTarget).1 - w.X) * ((tileToPixel w.NextTarget).1 - w.X) +
            ((tileToPixel w.NextTarget).2 - w.Y) * ((tileToPixel w.NextTarget).2 - w.Y) →
          (w1.X - w.X) ^ 2 + (w1.Y - w.Y) ^ 2 = w.Speed ^ 2 ∧
          ((tileToPixel w.NextTarget).1 - w1.X) ^ 2 + ((tileToPixel w.NextTarget).2 - w1.Y) ^ 2
            = (w.waypointDistance sqrt - w.Speed) ^ 2)) ∧
      (w.waypointDistance sqrt < pathfindingProximityThreshold →
        w1.X = w.X ∧ w1.Y = w.Y ∧ w1.PathIndex = w.PathIndex + 1) := by
  obtain ⟨w1, hu, hfar, hnear⟩ := update_path_branch sqrt m w hs hne h0 hi
  refine ⟨w1, hu, ?_, hnear⟩
  intro hge
  have hd : 0 < w.waypointDistance sqrt :=
    lt_of_lt_of_le (by norm_num [pathfindingProximityThreshold]) hge
  have hw1 := hfar hge
  obtain ⟨hx, hy⟩ := moveBy_pos w ((tileToPixel w.NextTarget).1 - w.X)
    ((tileToPixel w.NextTarget).2 - w.Y) (w.waypointDistance sqrt) hd
  rw [← hw1] at hx hy
  refine ⟨by rw [hw1, moveBy_PathIndex], by rw [hw1, moveBy_State], hx, hy, ?_⟩
  intro h2
  obtain ⟨g1, g2⟩ := unit_step_geometry ((tileToPixel w.NextTarget).1 - w.X)
    ((tileToPixel w.NextTarget).2 - w.Y) (w.waypointDistance sqrt) w.Speed hd h2
  rw [hx, hy]
  constructor
  · rw [← g1]; ring
  · rw [← g2]; ring

set_option maxRecDepth 100000 in
/-- Claim C24 at `stepWorshipper`, 15 pixels left of the centre of its waypoint: one
`Update` moves it by its speed `1` to `X = 530`. -/
theorem path_following_step_witness :
    (stepWorshipper.State = StateApproaching ∨ stepWorshipper.State = StateLeaving) ∧
    stepWorshipper.Path ≠ [] ∧ 0 ≤ stepWorshipper.PathIndex ∧
    stepWorshipper.PathIndex < (stepWorshipper.Path.length : Int) ∧
    stepWorshipper.waypointDistance sqrtModel = 15 ∧
    stepWorshipper.Update sqrtModel corridorMap = some { stepWorshipper with X := 530 } ∧
    ∃ w1, stepWorshipper.Update sqrtModel corridorMap = some w1 ∧
      (pathfindingProximityThreshold ≤ stepWorshipper.waypointDistance sqrtModel →
        w1.PathIndex = stepWorshipper.PathIndex ∧ w1.State = stepWorshipper.State ∧
        w1.X = stepWorshipper.X + ((tileToPixel stepWorshipper.NextTarget).1 -
          stepWorshipper.X) / stepWorshipper.waypointDistance sqrtModel
          * stepWorshipper.Speed ∧
        w1.Y = stepWorshipper.Y + ((tileToPixel stepWorshipper.NextTarget).2 -
          stepWorshipper.Y) / stepWorshipper.waypointDistance sqrtModel
          * stepWorshipper.Speed ∧
        (stepWorshipper.waypointDistance sqrtModel *
            stepWorshipper.waypointDistance sqrtModel =
            ((tileToPixel stepWorshipper.NextTarget).1 - stepWorshipper.X) *
              ((tileToPixel stepWorshipper.NextTarget).1 - stepWorshipper.X) +
            ((tileToPixel stepWorshipper.NextTarget).2 - stepWorshipper.Y) *
              ((tileToPixel stepWorshipper.NextTarget).2 - stepWorshipper.Y) →
          (w1.X - stepWorshipper.X) ^ 2 + (w1.Y - stepWorshipper.Y) ^ 2
            = stepWorshipper.Speed ^ 2 ∧
          ((tileToPixel stepWorshipper.NextTarget).1 - w1.X) ^ 2 +
            ((tileToPixel stepWorshipper.NextTarget).2 - w1.Y) ^ 2
            = (stepWorshipper.waypointDistance sqrtModel - stepWorshipper.Speed) ^ 2)) ∧
      (stepWorshipper.waypointDistance sqrtModel < pathfindingProximityThreshold →
        w1.X = stepWorshipper.X ∧ w1.Y = stepWorshipper.Y ∧
        w1.PathIndex = stepWorshipper.PathIndex + 1) :=
  ⟨Or.inl rfl, by decide, by decide, by decide, by decide!, by decide!,
   path_following_step sqrtModel corridorMap stepWorshipper (Or.inl rfl) (by decide)
     (by decide) (by decide)⟩

/-! ## Worshippers never leave the removal margin -/

theorem sqrtUpper_dominates : SqrtDominates sqrtUpper := by
  intro a b
  unfold sqrtUpper
  rw [abs_le]
  constructor <;> nlinarith [sq_nonneg (a - 1), sq_nonneg (a + 1), sq_nonneg b]

/-- A movement step toward a target column between the two exit columns keeps `X` within
1.5 pixels of the interval between them. -/
theorem moveBy_x_bound (w : Worshipper) (tx dy d : ℚ) (hs : 0 ≤ w.Speed ∧ w.Speed ≤ 3 / 2)
    (ht : -50 ≤ tx ∧ tx ≤ 1074) (hx : -103 / 2 ≤ w.X ∧ w.X ≤ 2151 / 2)
    (hd : |tx - w.X| ≤ d) :
    -103 / 2 ≤ (w.moveBy (tx - w.X) dy d).X ∧ (w.moveBy (tx - w.X) dy d).X ≤ 2151 / 2 := by
  unfold Worshipper.moveBy
  split
  · rename_i hpos
    simp only
    have hpos1 : (0 : ℚ) < d := hpos
    obtain ⟨h1, h2⟩ := abs_le.mp hd
    by_cases hdx : 0 ≤ tx - w.X
    · have hr0 : 0 ≤ (tx - w.X) / d := div_nonneg hdx (le_of_lt hpos1)
      have hr1 : (tx - w.X) / d ≤ 1 := (div_le_one hpos1).mpr h2
      have hm0 : 0 ≤ (tx - w.X) / d * w.Speed := mul_nonneg hr0 hs.1
      have hm1 : (tx - w.X) / d * w.Speed ≤ w.Speed := by
        calc (tx - w.X) / d * w.Speed ≤ 1 * w.Speed :=
              mul_le_mul_of_nonneg_right hr1 hs.1
          _ = w.Speed := one_mul _
      constructor <;> linarith [hs.2, ht.1, ht.2, hx.1, hx.2]
    · have hdx1 : tx - w.X ≤ 0 := le_of_lt (not_le.mp hdx)
      have hr0 : (tx - w.X) / d ≤ 0 := div_nonpos_of_nonpos_of_nonneg hdx1 (le_of_lt hpos1)
      have hr1 : -1 ≤ (tx - w.X) / d := by
        rw [le_div_iff₀ hpos1]; linarith
      have hm0 : (tx - w.X) / d * w.Speed ≤ 0 := mul_nonpos_of_nonpos_of_nonneg hr0 hs.1
      have hm1 : -w.Speed ≤ (tx - w.X) / d * w.Speed := by
        calc -w.Speed = -1 * w.Speed := by ring
          _ ≤ (tx - w.X) / d * w.Speed := mul_le_mul_of_nonneg_right hr1 hs.1
      constructor <;> linarith [hs.2, ht.1, ht.2, hx.1, hx.2]
  · exact hx

/-- What one `Update` can do to the fields that the margin argument reads. -/
theorem update_frame (sqrt : ℚ → ℚ) (m : ShrineMap) (w w1 : Worshipper)
    (h : w.Update sqrt m = some w1) :
    w1.Speed = w.Speed ∧ w1.TargetX = w.TargetX ∧
    (w1.Path = w.Path ∨ w1.Path = [] ∨ ∃ s t, findPath m s t = some (w1.Path, none)) ∧
    (w1.X = w.X ∨ ∃ tx dy,
      w1.X = (w.moveBy (tx - w.X) dy (sqrt ((tx - w.X) * (tx - w.X) + dy * dy))).X ∧
      ((w.followsPath = true ∧ tx = (tileToPixel w.NextTarget).1) ∨ tx = 512 ∨
        tx = w.TargetX)) := by
  unfold Worshipper.Update at h
  split at h
  · split at h
    · rename_i hf
      try dsimp only at h
      split at h
      · split at h
        · split at h
          · simp at h
          · simp only [Option.some.injEq] at h; subst h
            exact ⟨rfl, rfl, Or.inl rfl, Or.inl rfl⟩
        · simp only [Option.some.injEq] at h; subst h
          exact ⟨rfl, rfl, Or.inl rfl, Or.inl rfl⟩
      · simp only [Option.some.injEq] at h; subst h
        refine ⟨?_, ?_, Or.inl (moveBy_Path _ _ _ _), Or.inr ⟨_, _, rfl, Or.inl ⟨hf, rfl⟩⟩⟩
        · unfold Worshipper.moveBy; split <;> rfl
        · unfold Worshipper.moveBy; split <;> rfl
    · try dsimp only at h
      split at h
      · simp only [Option.some.injEq] at h; subst h
        exact ⟨rfl, rfl, Or.inl rfl, Or.inl rfl⟩
      · simp only [Option.some.injEq] at h; subst h
        refine ⟨?_, ?_, Or.inl (moveBy_Path _ _ _ _),
          Or.inr ⟨_, _, rfl, Or.inr (Or.inl donationBoxPixel_eq.1)⟩⟩
        · unfold Worshipper.moveBy; split <;> rfl
        · unfold Worshipper.moveBy; split <;> rfl
  · try dsimp only at h
    split at h
    · split at h
      · simp at h
      · try dsimp only at h
        split at h
        · simp at h
        · rename_i path pathErr hp
          try dsimp only at h
          split at h
          · rename_i first rest hex
            simp only [Option.some.injEq] at h; subst h
            rcases pathErr with _ | e
            · exact ⟨rfl, rfl, Or.inr (Or.inr ⟨_, _, hp⟩), Or.inl rfl⟩
            · simp at hex
          · simp only [Option.some.injEq] at h; subst h
            exact ⟨rfl, rfl, Or.inl rfl, Or.inl rfl⟩
    · simp only [Option.some.injEq] at h; subst h
      exact ⟨rfl, rfl, Or.inl rfl, Or.inl rfl⟩
  · split at h
    · rename_i hf
      try dsimp only at h
      split at h
      · split at h
        · split at h
          · simp at h
          · simp only [Option.some.injEq] at h; subst h
            exact ⟨rfl, rfl, Or.inl rfl, Or.inl rfl⟩
        · simp only [Option.some.injEq] at h; subst h
          exact ⟨rfl, rfl, Or.inr (Or.inl rfl), Or.inl rfl⟩
      · simp only [Option.some.injEq] at h; subst h
        refine ⟨?_, ?_, Or.inl (moveBy_Path _ _ _ _), Or.inr ⟨_, _, rfl, Or.inl ⟨hf, rfl⟩⟩⟩
        · unfold Worshipper.moveBy; split <;> rfl
        · unfold Worshipper.moveBy; split <;> rfl
    · try dsimp only at h
      simp only [Option.some.injEq] at h; subst h
      refine ⟨?_, ?_, Or.inl (moveBy_Path _ _ _ _), Or.inr ⟨_, _, rfl, Or.inr (Or.inr rfl)⟩⟩
      · unfold Worshipper.moveBy; split <;> rfl
      · unfold Worshipper.moveBy; split <;> rfl

/-- On a 12x16 map every tile of a path returned by `findPath` is on the grid. -/
theorem findPath_inBounds (m : ShrineMap) (hm : IsGrid m) (s t : Point) (path : List Point)
    (h : findPath m s t = some (path, none)) : ∀ p ∈ path, InBounds p := by
  rcases findPath_grid_cases m hm s t with ⟨e, he⟩ | ⟨path1, hp1, hon⟩
  · rw [he] at h; simp at h
  · rw [hp1] at h
    simp only [Option.some.injEq, Prod.mk.injEq, and_true] at h
    subst h
    intro p hp
    exact walkable_inBounds m p (hon.2.2.2 p hp)

theorem newWorshipper_X (side : Int) (speedDraw : ℚ) (colorDraw : Fin 5)
    (m : ShrineMap) (w : Worshipper) (h : NewWorshipper side speedDraw colorDraw m = some w) :
    (w.X = -50 ∧ w.TargetX = 1074) ∨ (w.X = 1074 ∧ w.TargetX = -50) := by
  unfold NewWorshipper at h
  simp only [mapWidthPixels_eq, worshipperSpeed] at h
  have ht : (((if side = 0 then (-50 : ℚ) else 1024 + 50) = -50 ∧
      (if side = 0 then (1024 : ℚ) + 50 else -50) = 1074) ∨
      ((if side = 0 then (-50 : ℚ) else 1024 + 50) = 1074 ∧
      (if side = 0 then (1024 : ℚ) + 50 else -50) = -50)) := by
    split
    · left; constructor <;> norm_num
    · right; constructor <;> norm_num
  split at h
  · simp at h
  · split at h
    · simp at h
    · split at h
      · simp only [Option.some.injEq] at h; subst h
        exact ht
      · simp only [Option.some.injEq] at h; subst h
        exact ht

/-- A worshipper created on a 12x16 map with a speed draw in `[0, 1)` is in play. -/
theorem newWorshipper_inPlay (side : Int) (speedDraw : ℚ) (colorDraw : Fin 5)
    (m : ShrineMap) (hm : IsGrid m) (hd0 : 0 ≤ speedDraw) (hd1 : speedDraw < 1)
    (w : Worshipper) (h : NewWorshipper side speedDraw colorDraw m = some w) :
    w.InPlay := by
  obtain ⟨_, _, hpi, hsp, htx⟩ := newWorshipper_fields side speedDraw colorDraw m w h
  obtain ⟨_, hhead⟩ := newWorshipper_cursor side speedDraw colorDraw m w h
  obtain ⟨w2, hw2, hcases⟩ := newWorshipper_grid side speedDraw colorDraw m hm
  rw [h] at hw2
  simp only [Option.some.injEq] at hw2
  subst hw2
  refine ⟨?_, htx, ?_, ?_, by omega, ?_⟩
  · rw [hsp]; constructor <;> linarith
  · rcases newWorshipper_X side speedDraw colorDraw m w h with ⟨hx, _⟩ | ⟨hx, _⟩ <;>
      rw [hx] <;> constructor <;> norm_num
  · rcases hcases with ⟨t, path, _, hp, hpath, _⟩ | ⟨_, hnil⟩
    · rw [hpath]
      exact findPath_inBounds m hm _ _ path hp
    · rw [hnil]; simp
  · intro hlt
    rw [hpi] at hlt ⊢
    have hne : w.Path ≠ [] := by
      intro hnil
      rw [hnil] at hlt
      simp at hlt
    rw [if_neg hne] at hhead
    rw [Int.toNat_zero, ← List.head?_eq_getElem?]
    exact hhead

/-- One `Update` on a 12x16 map, with a square root that dominates, returns and keeps a
worshipper in play. -/
theorem update_inPlay (sqrt : ℚ → ℚ) (hsqrt : SqrtDominates sqrt) (m : ShrineMap)
    (hm : IsGrid m) (w : Worshipper) (hw : w.InPlay) :
    ∃ w1, w.Update sqrt m = some w1 ∧ w1.InPlay := by
  obtain ⟨w1, h⟩ := update_total sqrt m hm w (by have := hw.cursor; omega)
  refine ⟨w1, h, ?_⟩
  obtain ⟨hsp, htx, hpath, hx⟩ := update_frame sqrt m w w1 h
  obtain ⟨hc0, hc1⟩ := update_cursor sqrt m w w1 h hw.cursor hw.next
  refine ⟨by rw [hsp]; exact hw.speed, by rw [htx]; exact hw.target, ?_, ?_, hc0, hc1⟩
  · rcases hx with hx | ⟨tx, dy, hx, htgt⟩
    · rw [hx]; exact hw.xBound
    · rw [hx]
      apply moveBy_x_bound w tx dy _ ⟨by linarith [hw.speed.1], le_of_lt hw.speed.2⟩ ?_
        hw.xBound (hsqrt _ _)
      rcases htgt with ⟨hf, rfl⟩ | rfl | rfl
      · unfold Worshipper.followsPath at hf
        simp only [decide_eq_true_eq] at hf
        have hnext := hw.next hf.2
        have hmem : w.NextTarget ∈ w.Path := List.getElem?_mem hnext
        obtain ⟨b1, b2, _, _⟩ := hw.pathInBounds _ hmem
        rw [tileToPixel_eq]
        simp only
        have c1 : (0 : ℚ) ≤ (w.NextTarget.X : ℚ) := by exact_mod_cast b1
        have c2 : (w.NextTarget.X : ℚ) ≤ 15 := by
          have : w.NextTarget.X ≤ 15 := by omega
          exact_mod_cast this
        constructor <;> linarith
      · constructor <;> norm_num
      · rcases hw.target with ht | ht <;> rw [ht] <;> constructor <;> norm_num
  · rcases hpath with hp | hp | ⟨s, t, hp⟩
    · rw [hp]; exact hw.pathInBounds
    · rw [hp]; simp
    · exact findPath_inBounds m hm s t _ hp

theorem inPlay_onScreen (w : Worshipper) (hw : w.InPlay) :
    -100 ≤ w.X ∧ w.X ≤ 1124 ∧ w.IsOffScreen = false := by
  obtain ⟨h1, h2⟩ := hw.xBound
  refine ⟨by linarith, by linarith, ?_⟩
  rcases hoff : w.IsOffScreen with _ | _
  · rfl
  · rcases ((isOffScreen_iff w).mp hoff).2 with h | h <;> linarith

theorem run_inPlay (sqrt : ℚ → ℚ) (hsqrt : SqrtDominates sqrt) (ms : List ShrineMap) :
    ∀ (w : Worshipper), w.InPlay → (∀ m ∈ ms, IsGrid m) →
      ∃ tr, runUpdates sqrt ms w = some tr ∧ tr.length = ms.length ∧
        ∀ v ∈ tr, v.InPlay := by
  induction ms with
  | nil =>
    intro w _ _
    exact ⟨[], rfl, rfl, by simp⟩
  | cons m ms ih =>
    intro w hw hms
    obtain ⟨w1, hu, hw1⟩ := update_inPlay sqrt hsqrt m (hms m (List.mem_cons_self _ _)) w hw
    obtain ⟨tr, h1, h2, h3⟩ := ih w1 hw1 (fun x hx => hms x (List.mem_cons_of_mem _ hx))
    refine ⟨w1 :: tr, by simp only [runUpdates, hu, h1], by simp [h2], ?_⟩
    intro v hv
    rcases List.mem_cons.mp hv with rfl | hv1
    · exact hw1
    · exact h3 v hv1

theorem updateAll_inPlay (sqrt : ℚ → ℚ) (hsqrt : SqrtDominates sqrt) (m : ShrineMap)
    (hm : IsGrid m) :
    ∀ ws : List Worshipper, (∀ w ∈ ws, w.InPlay) →
      ∃ us, updateAll sqrt m ws = some us ∧ us.length = ws.length ∧ ∀ u ∈ us, u.InPlay := by
  intro ws
  induction ws with
  | nil => intro _; exact ⟨[], rfl, rfl, by simp⟩
  | cons w ws ih =>
    intro h
    obtain ⟨u, hu, hin⟩ := update_inPlay sqrt hsqrt m hm w (h w (List.mem_cons_self _ _))
    obtain ⟨us, hus, hl, hall⟩ := ih (fun v hv => h v (List.mem_cons_of_mem _ hv))
    refine ⟨u :: us, by rw [updateAll_cons, hu, hus], by simp [hl], ?_⟩
    intro v hv
    rcases List.mem_cons.mp hv with rfl | hv1
    · exact hin
    · exact hall v hv1

/-- Claim C25: with a square root that dominates (`|a| <= sqrt (a * a + b * b)`), a
worshipper created by `NewWorshipper` on a 12x16 map with a speed draw in `[0, 1)` has
`X = -50` or `1074`, the opposite `TargetX`, and `1 <= Speed < 1.5`; every sequence of
`Update` calls on 12x16 maps returns, and in every state of it `X` is within
`[-100, 1124]` and `IsOffScreen` is false. Hence a call of `updateWorshippers` on a
population of worshippers in play removes nobody: the population it leaves is the whole
list of updated worshippers, again in play. -/
theorem removal_unreachable (sqrt : ℚ → ℚ) (hsqrt : SqrtDominates sqrt) :
    (∀ (side : Int) (speedDraw : ℚ) (colorDraw : Fin 5) (m0 : ShrineMap) (w0 : Worshipper),
      IsGrid m0 → 0 ≤ speedDraw → speedDraw < 1 →
      NewWorshipper side speedDraw colorDraw m0 = some w0 →
      ((w0.X = -50 ∧ w0.TargetX = 1074) ∨ (w0.X = 1074 ∧ w0.TargetX = -50)) ∧
      1 ≤ w0.Speed ∧ w0.Speed < 3 / 2 ∧
      ∀ ms : List ShrineMap, (∀ m ∈ ms, IsGrid m) →
        ∃ tr, runUpdates sqrt ms w0 = some tr ∧ tr.length = ms.length ∧
          ∀ v ∈ w0 :: tr, -100 ≤ v.X ∧ v.X ≤ 1124 ∧ v.IsOffScreen = false) ∧
    (∀ (draws : Draws) (g : MikoGameWithWorshippers),
      IsGrid g.shrineMap → 0 ≤ draws.speed → draws.speed < 1 →
      (∀ w ∈ g.worshippers, w.InPlay) →
      ∃ g2 us g3, spawnStep draws g = some g2 ∧
        updateAll sqrt g2.shrineMap g2.worshippers = some us ∧
        updateWorshippers sqrt draws g = some g3 ∧ g3.worshippers = us ∧
        us.length = g2.worshippers.length ∧ ∀ w ∈ g3.worshippers, w.InPlay) := by
  constructor
  · intro side speedDraw colorDraw m0 w0 hm0 hd0 hd1 h0
    have hin := newWorshipper_inPlay side speedDraw colorDraw m0 hm0 hd0 hd1 w0 h0
    refine ⟨newWorshipper_X side speedDraw colorDraw m0 w0 h0, hin.speed.1, hin.speed.2, ?_⟩
    intro ms hms
    obtain ⟨tr, h1, h2, h3⟩ := run_inPlay sqrt hsqrt ms w0 hin hms
    refine ⟨tr, h1, h2, ?_⟩
    intro v hv
    rcases List.mem_cons.mp hv with rfl | hv1
    · exact inPlay_onScreen _ hin
    · exact inPlay_onScreen v (h3 v hv1)
  · intro draws g hm hd0 hd1 hall
    obtain ⟨g2, hg2⟩ := spawnStep_total draws g hm
    obtain ⟨h1, _, _, h4⟩ := spawnStep_cases draws g g2 hg2
    have hall2 : ∀ w ∈ g2.worshippers, w.InPlay := by
      rcases h4 with ⟨_, _, _, w, hw, hws⟩ | ⟨_, _, hws⟩
      · rw [hws]
        intro v hv
        rcases List.mem_append.mp hv with hv1 | hv1
        · exact hall v hv1
        · simp only [List.mem_singleton] at hv1
          subst hv1
          exact newWorshipper_inPlay _ _ _ _ hm hd0 hd1 v hw
      · rw [hws]; exact hall
    obtain ⟨us, hus, hl, hin⟩ := updateAll_inPlay sqrt hsqrt g2.shrineMap (h1 ▸ hm)
      g2.worshippers hall2
    have hfilter : us.filter (fun u => !u.IsOffScreen) = us := by
      apply List.filter_eq_self.mpr
      intro u hu
      rw [(inPlay_onScreen u (hin u hu)).2.2]
      rfl
    refine ⟨g2, us, _, hg2, hus, by rw [updateWorshippers_eq, hg2]; dsimp only; rw [hus],
      hfilter, hl, ?_⟩
    intro w hw
    simp only [hfilter] at hw
    exact hin w hw

/-- Claim C25 for the evaluable square-root bound `sqrtUpper`. -/
theorem removal_unreachable_witness :
    SqrtDominates sqrtUpper ∧
    ((∀ (side : Int) (speedDraw : ℚ) (colorDraw : Fin 5) (m0 : ShrineMap) (w0 : Worshipper),
      IsGrid m0 → 0 ≤ speedDraw → speedDraw < 1 →
      NewWorshipper side speedDraw colorDraw m0 = some w0 →
      ((w0.X = -50 ∧ w0.TargetX = 1074) ∨ (w0.X = 1074 ∧ w0.TargetX = -50)) ∧
      1 ≤ w0.Speed ∧ w0.Speed < 3 / 2 ∧
      ∀ ms : List ShrineMap, (∀ m ∈ ms, IsGrid m) →
        ∃ tr, runUpdates sqrtUpper ms w0 = some tr ∧ tr.length = ms.length ∧
          ∀ v ∈ w0 :: tr, -100 ≤ v.X ∧ v.X ≤ 1124 ∧ v.IsOffScreen = false) ∧
    (∀ (draws : Draws) (g : MikoGameWithWorshippers),
      IsGrid g.shrineMap → 0 ≤ draws.speed → draws.speed < 1 →
      (∀ w ∈ g.worshippers, w.InPlay) →
      ∃ g2 us g3, spawnStep draws g = some g2 ∧
        updateAll sqrtUpper g2.shrineMap g2.worshippers = some us ∧
        updateWorshippers sqrtUpper draws g = some g3 ∧ g3.worshippers = us ∧
        us.length = g2.worshippers.length ∧ ∀ w ∈ g3.worshippers, w.InPlay)) :=
  ⟨sqrtUpper_dominates, removal_unreachable sqrtUpper sqrtUpper_dominates⟩

/-! ## The heap order after an in-place update -/

set_option maxRecDepth 1000000 in
/-- Claim C22 (where the code departs from it): in the search on `detourMap` from `(5, 1)`
to `(6, 8)`, the open list at the start of the eleventh iteration (index 10) is not
heap-ordered: the node of tile `(4, 4)`, whose `G` and `F` were lowered in place in the
iteration before, sits at index 3 with `F = 10` below its parent at index 1 with
`F = 12`. In the twelfth iteration (index 11) `heap.Pop` then returns the node of tile
`(4, 0)` with `F = 12` although the node of `(4, 4)` with `F = 10` is in the open
list. -/
theorem pop_minimum_fails_on_detour :
    findPath detourMap ⟨5, 1⟩ ⟨6, 8⟩ =
      findPathLoop detourMap ⟨6, 8⟩ searchBudget (startOpenList ⟨5, 1⟩ ⟨6, 8⟩) [] ∧
    (searchStates detourMap ⟨6, 8⟩ searchBudget (startOpenList ⟨5, 1⟩ ⟨6, 8⟩) [])[10]?.map
        (fun st => (st.1.map (fun n => (n.Point, n.G, n.F)), heapOrdered st.1)) =
      some ([(⟨5, 5⟩, 6, 10), (⟨3, 2⟩, 3, 12), (⟨3, 1⟩, 2, 12), (⟨4, 4⟩, 4, 10),
        (⟨4, 0⟩, 2, 12)], false) ∧
    (searchStates detourMap ⟨6, 8⟩ searchBudget (startOpenList ⟨5, 1⟩ ⟨6, 8⟩) [])[11]?.map
        (fun st => (st.1.map (fun n => (n.Point, n.G, n.F)),
          (heap.Pop st.1).map (fun r => (r.1.Point, r.1.F)), popsMinimum st.1)) =
      some ([(⟨4, 0⟩, 2, 12), (⟨3, 2⟩, 3, 12), (⟨3, 1⟩, 2, 12), (⟨4, 4⟩, 4, 10),
        (⟨4, 5⟩, 7, 12)], some (⟨4, 0⟩, 12), false) := by
  decide!

/-! ## The states of the search loop -/

/-- One iteration of the main loop that does not pop the goal keeps `SearchInv`. -/
theorem searchInv_step (m : ShrineMap) (hm : IsGrid m) (start goal : Point)
    (o : NodeList) (c : ClosedList) (cur : Node) (o1 o2 : NodeList)
    (inv : SearchInv m start goal o c) (hpop : heap.Pop o = some (cur, o1))
    (hg : ¬ (cur.Point.X = goal.X ∧ cur.Point.Y = goal.Y))
    (ho2 : directions.foldlM (relaxNeighbor m goal cur ((cur.Point, cur) :: c)) o1 = some o2) :
    SearchInv m start goal o2 ((cur.Point, cur) :: c) := by
  have hperm := pop_perm o cur o1 hpop
  have hcur_mem : cur ∈ o := hperm.mem_iff.mpr (List.mem_cons_self _ _)
  have hcur := inv.linked cur hcur_mem
  have hpts : (pts o).Perm (cur.Point :: pts o1) := by
    have := hperm.map Node.Point
    simpa [pts] using this
  have hnd := hpts.nodup_iff.mp inv.nodupOpen
  have hcur_notin : cur.Point ∉ pts o1 := (List.nodup_cons.mp hnd).1
  have hnd1 : (pts o1).Nodup := (List.nodup_cons.mp hnd).2
  have hcur_open : cur.Point ∈ pts o := hpts.mem_iff.mpr (List.mem_cons_self _ _)
  have hcur_closed : cur.Point ∉ keys c := inv.disjoint _ hcur_open
  obtain ⟨o3, ho3, e1, e2, e3, e4⟩ := expand_spec m hm goal cur ((cur.Point, cur) :: c) o1
  rw [ho2] at ho3
  simp only [Option.some.injEq] at ho3
  subst ho3
  have hkeys : keys ((cur.Point, cur) :: c) = cur.Point :: keys c := rfl
  have hsub1 : ∀ p ∈ pts o1, p ∈ pts o := fun p hp =>
    hpts.mem_iff.mpr (List.mem_cons_of_mem _ hp)
  have hmem1 : ∀ n ∈ o1, n ∈ o := fun n hn => hperm.mem_iff.mpr (List.mem_cons_of_mem _ hn)
  constructor
  · intro n hn
    rcases e1 n hn with h | ⟨h1, h2, h3, _⟩
    · exact inv.linked n (hmem1 n h)
    · exact linked_child m start cur hcur n h1 h2 h3
  · exact e3 hnd1
  · intro p hp
    rw [hkeys]
    obtain ⟨n, hn, rfl⟩ := List.mem_map.mp hp
    rcases e1 n hn with h | ⟨_, _, _, h4⟩
    · have hp1 : n.Point ∈ pts o1 := List.mem_map_of_mem _ h
      intro hc
      rcases List.mem_cons.mp hc with h5 | h5
      · rw [h5] at hp1; exact hcur_notin hp1
      · exact inv.disjoint _ (hsub1 _ hp1) h5
    · rw [hkeys] at h4; exact h4
  · rw [hkeys]
    exact List.nodup_cons.mpr ⟨hcur_closed, inv.nodupClosed⟩
  · intro p hp
    rw [hkeys] at hp
    rcases List.mem_cons.mp hp with rfl | h
    · exact linked_walkable m start cur hcur
    · exact inv.walkClosed p h
  · rw [hkeys]
    intro hc
    rcases List.mem_cons.mp hc with h | h
    · apply hg
      rw [← h]
      exact ⟨rfl, rfl⟩
    · exact inv.goalOpen h
  · intro p hp q hadj hw
    rw [hkeys] at hp
    rcases List.mem_cons.mp hp with rfl | h
    · exact e4 q hadj hw
    · rcases inv.frontier p h q hadj hw with h1 | h1
      · left; rw [hkeys]; exact List.mem_cons_of_mem _ h1
      · rcases List.mem_cons.mp (hpts.mem_iff.mp h1) with h2 | h2
        · left; rw [hkeys, h2]; exact List.mem_cons_self _ _
        · right; exact e2 q h2
  · rcases inv.startSeen with h1 | h1
    · left; rw [hkeys]; exact List.mem_cons_of_mem _ h1
    · rcases List.mem_cons.mp (hpts.mem_iff.mp h1) with h2 | h2
      · left; rw [hkeys, h2]; exact List.mem_cons_self _ _
      · right; exact e2 start h2

/-- The popped node of a consistent state holds a walkable tile that was not closed. -/
theorem searchInv_pop (m : ShrineMap) (start goal : Point) (o : NodeList) (c : ClosedList)
    (cur : Node) (o1 : NodeList) (inv : SearchInv m start goal o c)
    (hpop : heap.Pop o = some (cur, o1)) :
    cur ∈ o ∧ cur.Point ∉ keys c ∧ Walkable m cur.Point := by
  have hperm := pop_perm o cur o1 hpop
  have hcur_mem : cur ∈ o := hperm.mem_iff.mpr (List.mem_cons_self _ _)
  exact ⟨hcur_mem, inv.disjoint _ (List.mem_map_of_mem _ hcur_mem),
    linked_walkable m start cur (inv.linked cur hcur_mem)⟩

/-- The closed list of a consistent state with a non-empty open list has fewer than 192
tiles. -/
theorem searchInv_room (m : ShrineMap) (start goal : Point) (o : NodeList) (c : ClosedList)
    (inv : SearchInv m start goal o c) (hlen : o.length > 0) :
    (keys c).length + 1 ≤ 192 := by
  obtain ⟨cur, o1, hpop⟩ := pop_total o hlen
  obtain ⟨_, h2, h3⟩ := searchInv_pop m start goal o c cur o1 inv hpop
  have := length_le_of_inBounds (cur.Point :: keys c)
    (List.nodup_cons.mpr ⟨h2, inv.nodupClosed⟩)
    (by
      intro p hp
      rcases List.mem_cons.mp hp with rfl | h
      · exact walkable_inBounds m _ h3
      · exact walkable_inBounds m p (inv.walkClosed p h))
  simpa using this

/-- Every recorded state of the loop is consistent, and the number of recorded states
plus the number of closed tiles at the start is at most 192. -/
theorem searchStates_spec (m : ShrineMap) (hm : IsGrid m) (start goal : Point) (fuel : Nat) :
    ∀ (o : NodeList) (c : ClosedList), SearchInv m start goal o c →
      (searchStates m goal fuel o c).length + (keys c).length ≤ 192 ∧
      ∀ st ∈ searchStates m goal fuel o c, SearchInv m start goal st.1 st.2 := by
  induction fuel with
  | zero =>
    intro o c inv
    have := length_le_of_inBounds (keys c) inv.nodupClosed
      (fun p hp => walkable_inBounds m p (inv.walkClosed p hp))
    simp only [searchStates, List.length_nil, zero_add, List.not_mem_nil, false_implies,
      implies_true, and_true]
    exact this
  | succ k ih =>
    intro o c inv
    unfold searchStates
    by_cases hlen : o.length > 0
    swap
    · rw [if_neg hlen]
      have := length_le_of_inBounds (keys c) inv.nodupClosed
        (fun p hp => walkable_inBounds m p (inv.walkClosed p hp))
      simp only [List.length_nil, zero_add, List.not_mem_nil, false_implies,
        implies_true, and_true]
      exact this
    rw [if_pos hlen]
    have hroom := searchInv_room m start goal o c inv hlen
    obtain ⟨cur, o1, hpop⟩ := pop_total o hlen
    rw [hpop]
    dsimp only
    by_cases hg : cur.Point.X = goal.X ∧ cur.Point.Y = goal.Y
    · rw [if_pos hg]
      refine ⟨by simp only [List.length_singleton]; omega, ?_⟩
      intro st hst
      simp only [List.mem_singleton] at hst
      subst hst
      exact inv
    rw [if_neg hg]
    obtain ⟨o2, ho2, _⟩ := expand_spec m hm goal cur ((cur.Point, cur) :: c) o1
    rw [ho2]
    dsimp only
    have inv2 := searchInv_step m hm start goal o c cur o1 o2 inv hpop hg ho2
    obtain ⟨h1, h2⟩ := ih o2 ((cur.Point, cur) :: c) inv2
    have hkeys : keys ((cur.Point, cur) :: c) = cur.Point :: keys c := rfl
    rw [hkeys] at h1
    simp only [List.length_cons] at h1 ⊢
    refine ⟨by omega, ?_⟩
    intro st hst
    rcases List.mem_cons.mp hst with rfl | h
    · exact inv
    · exact h2 st h

/-- The loop is finished after as many iterations as there are recorded states: any
iteration bound above that number gives the same result and the same states. -/
theorem findPathLoop_fuel (m : ShrineMap) (goal : Point) (fuel : Nat) :
    ∀ (o : NodeList) (c : ClosedList) (fuel2 : Nat),
      (searchStates m goal fuel o c).length < fuel →
      (searchStates m goal fuel o c).length < fuel2 →
      findPathLoop m goal fuel2 o c = findPathLoop m goal fuel o c ∧
      searchStates m goal fuel2 o c = searchStates m goal fuel o c := by
  induction fuel with
  | zero => intro o c fuel2 h; simp at h
  | succ k ih =>
    intro o c fuel2 h1 h2
    cases fuel2 with
    | zero => simp at h2
    | succ k2 =>
      unfold searchStates at h1 h2 ⊢
      unfold findPathLoop
      by_cases hlen : o.length > 0
      swap
      · simp only [if_neg hlen, and_self]
      simp only [if_pos hlen] at h1 h2 ⊢
      rcases hpop : heap.Pop o with _ | ⟨cur, o1⟩
      · simp only [and_self]
      · rw [hpop] at h1 h2
        dsimp only at h1 h2 ⊢
        by_cases hg : cur.Point.X = goal.X ∧ cur.Point.Y = goal.Y
        · simp only [if_pos hg, and_self]
        · simp only [if_neg hg] at h1 h2 ⊢
          rcases hf : directions.foldlM (relaxNeighbor m goal cur ((cur.Point, cur) :: c)) o1
            with _ | o2
          · simp only [and_self]
          · rw [hf] at h1 h2
            dsimp only at h1 h2 ⊢
            simp only [List.length_cons] at h1 h2
            have h3 : (searchStates m goal k o2 ((cur.Point, cur) :: c)).length < k := by omega
            obtain ⟨e1, e2⟩ := ih o2 ((cur.Point, cur) :: c) k2 h3 (by omega)
            rw [e1, e2]
            exact ⟨rfl, rfl⟩

theorem searchStates_head (m : ShrineMap) (goal : Point) (fuel : Nat) (o : NodeList)
    (c : ClosedList) :
    ∀ st ∈ (searchStates m goal fuel o c).head?, st = (o, c) := by
  intro st hst
  cases fuel with
  | zero => simp [searchStates] at hst
  | succ k =>
    unfold searchStates at hst
    split at hst
    · simp only [List.head?_cons, Option.mem_def, Option.some.injEq] at hst
      exact hst.symm
    · simp at hst

/-- From one recorded state to the next the popped node is added to the closed list. -/
theorem searchStates_chain (m : ShrineMap) (goal : Point) (fuel : Nat) :
    ∀ (o : NodeList) (c : ClosedList),
      (searchStates m goal fuel o c).Chain' (fun s t =>
        ∃ cur o1, heap.Pop s.1 = some (cur, o1) ∧ t.2 = (cur.Point, cur) :: s.2) := by
  induction fuel with
  | zero => intro o c; simp [searchStates]
  | succ k ih =>
    intro o c
    unfold searchStates
    split
    · rcases hpop : heap.Pop o with _ | ⟨cur, o1⟩
      · simp
      · dsimp only
        split
        · simp
        · rcases hf : directions.foldlM (relaxNeighbor m goal cur ((cur.Point, cur) :: c)) o1
            with _ | o2
          · simp
          · dsimp only
            apply List.Chain'.cons' (ih o2 _)
            intro y hy
            have := searchStates_head m goal k o2 _ y hy
            subst this
            exact ⟨cur, o1, hpop, rfl⟩
    · simp

/-- Claim C27: on every 12x16 map `findPath` returns for every start and goal. When the
search loop is entered (start and goal distinct, on the grid and walkable), the iterations
of the loop, each recorded with its open and closed list, number at most `16 * 12 = 192`
and the loop is finished after them (every larger iteration bound gives the result of
`findPath`); at the start of every iteration no tile is held twice across the open and
closed lists, and each iteration moves the popped node to the closed list, which only
grows. -/
theorem search_terminates (m : ShrineMap) (hm : IsGrid m) (start goal : Point) :
    (∃ r, findPath m start goal = some r) ∧
    (InBounds start → InBounds goal → Walkable m start → Walkable m goal → start ≠ goal →
      findPath m start goal =
        findPathLoop m goal searchBudget (startOpenList start goal) [] ∧
      (searchStates m goal searchBudget (startOpenList start goal) []).length ≤ 192 ∧
      (∀ fuel, (searchStates m goal searchBudget (startOpenList start goal) []).length < fuel →
        findPathLoop m goal fuel (startOpenList start goal) [] = findPath m start goal) ∧
      (∀ st ∈ searchStates m goal searchBudget (startOpenList start goal) [],
        (pts st.1 ++ keys st.2).Nodup) ∧
      (searchStates m goal searchBudget (startOpenList start goal) []).Chain' (fun s t =>
        ∃ cur o1, heap.Pop s.1 = some (cur, o1) ∧ t.2 = (cur.Point, cur) :: s.2)) := by
  constructor
  · rcases findPath_grid_cases m hm start goal with ⟨e, h⟩ | ⟨path, h, _⟩
    · exact ⟨_, h⟩
    · exact ⟨_, h⟩
  · intro hs hg ws wg hne
    have hne2 : ¬ (start.X = goal.X ∧ start.Y = goal.Y) :=
      fun h => hne (point_eq_of_coords _ _ h)
    have hfp : findPath m start goal =
        findPathLoop m goal searchBudget (startOpenList start goal) [] :=
      findPath_search m start goal ((isValidPosition_iff start).mpr hs)
        ((isValidPosition_iff goal).mpr hg) ws wg hne2
    have inv0 : SearchInv m start goal (startOpenList start goal) [] :=
      searchInv_initial m start goal ws _ _ _
    obtain ⟨h1, h2⟩ := searchStates_spec m hm start goal searchBudget _ _ inv0
    simp only [keys, List.map_nil, List.length_nil, add_zero] at h1
    refine ⟨hfp, h1, ?_, ?_, searchStates_chain m goal searchBudget _ _⟩
    · intro fuel hf
      rw [hfp]
      exact (findPathLoop_fuel m goal searchBudget _ _ fuel
        (lt_of_le_of_lt h1 (by decide)) hf).1
    · intro st hst
      have inv := h2 st hst
      rw [List.nodup_append]
      exact ⟨inv.nodupOpen, inv.nodupClosed, fun p hp hc => inv.disjoint p hp hc⟩

set_option maxRecDepth 100000 in
/-- Claim C27 at the built-in map, from the left spawn tile `(0, 11)` to the tile `(8, 5)`
below the donation box. -/
theorem search_terminates_witness :
    IsGrid createMikoShrineMap ∧
    ((∃ r, findPath createMikoShrineMap ⟨0, 11⟩ ⟨8, 5⟩ = some r) ∧
    (InBounds ⟨0, 11⟩ → InBounds ⟨8, 5⟩ → Walkable createMikoShrineMap ⟨0, 11⟩ →
      Walkable createMikoShrineMap ⟨8, 5⟩ → (⟨0, 11⟩ : Point) ≠ ⟨8, 5⟩ →
      findPath createMikoShrineMap ⟨0, 11⟩ ⟨8, 5⟩ =
        findPathLoop createMikoShrineMap ⟨8, 5⟩ searchBudget (startOpenList ⟨0, 11⟩ ⟨8, 5⟩) [] ∧
      (searchStates createMikoShrineMap ⟨8, 5⟩ searchBudget
        (startOpenList ⟨0, 11⟩ ⟨8, 5⟩) []).length ≤ 192 ∧
      (∀ fuel, (searchStates createMikoShrineMap ⟨8, 5⟩ searchBudget
          (startOpenList ⟨0, 11⟩ ⟨8, 5⟩) []).length < fuel →
        findPathLoop createMikoShrineMap ⟨8, 5⟩ fuel (startOpenList ⟨0, 11⟩ ⟨8, 5⟩) [] =
          findPath createMikoShrineMap ⟨0, 11⟩ ⟨8, 5⟩) ∧
      (∀ st ∈ searchStates createMikoShrineMap ⟨8, 5⟩ searchBudget
          (startOpenList ⟨0, 11⟩ ⟨8, 5⟩) [],
        (pts st.1 ++ keys st.2).Nodup) ∧
      (searchStates createMikoShrineMap ⟨8, 5⟩ searchBudget
        (startOpenList ⟨0, 11⟩ ⟨8, 5⟩) []).Chain' (fun s t =>
        ∃ cur o1, heap.Pop s.1 = some (cur, o1) ∧ t.2 = (cur.Point, cur) :: s.2))) :=
  ⟨by decide, search_terminates createMikoShrineMap (by decide) ⟨0, 11⟩ ⟨8, 5⟩⟩

/-! ## Parent chains: `G` counts the links and no tile repeats -/

theorem foldlM_some_inv {α β : Type} (f : β → α → Option β) (Q : β → Prop) (l : List α) :
    ∀ (b b1 : β), (∀ x a y, a ∈ l → f x a = some y → Q x → Q y) → Q b →
      l.foldlM f b = some b1 → Q b1 := by
  induction l with
  | nil =>
    intro b b1 _ hq h
    simp only [List.foldlM_nil, Option.pure_def, Option.some.injEq] at h
    subst h
    exact hq
  | cons a rest ih =>
    intro b b1 hstep hq h
    rw [List.foldlM_cons] at h
    rcases hfa : f b a with _ | b2
    · rw [hfa] at h; simp at h
    · rw [hfa] at h
      simp only [Option.bind_eq_bind, Option.some_bind] at h
      exact ih b2 b1 (fun x a2 y ha => hstep x a2 y (List.mem_cons_of_mem _ ha))
        (hstep b a b2 (List.mem_cons_self _ _) hfa hq) h

/-- A node that a relaxation puts into the open list, or updates there, has the current
node as parent and a `G` one higher. -/
theorem relaxNeighbor_counted (m : ShrineMap) (goal : Point) (cur : Node)
    (c : ClosedList) (o o1 : NodeList) (dir : Point)
    (h : relaxNeighbor m goal cur c o dir = some o1) :
    ∀ n ∈ o1, n ∈ o ∨ (n.Parent = some cur ∧ n.G = cur.G + 1) := by
  unfold relaxNeighbor at h
  dsimp only at h
  split at h
  · simp at h
  · simp only [Option.some.injEq] at h; subst h
    exact fun n hn => Or.inl hn
  · split at h
    · simp only [Option.some.injEq] at h; subst h
      exact fun n hn => Or.inl hn
    · split at h
      · split at h
        · simp at h
        · split at h
          · intro n hn
            have hp := fix_perm _ _ _ h
            rcases List.mem_or_eq_of_mem_set (hp.mem_iff.mp hn) with h1 | h1
            · exact Or.inl h1
            · right; subst h1; exact ⟨rfl, rfl⟩
          · simp only [Option.some.injEq] at h; subst h
            exact fun n hn => Or.inl hn
      · intro n hn
        have hp := push_perm _ _ _ h
        rcases List.mem_cons.mp (hp.mem_iff.mp hn) with h1 | h1
        · right; subst h1; exact ⟨rfl, rfl⟩
        · exact Or.inl h1

theorem expand_counted (m : ShrineMap) (goal : Point) (cur : Node) (c : ClosedList)
    (o o2 : NodeList)
    (h : directions.foldlM (relaxNeighbor m goal cur c) o = some o2) :
    ∀ n ∈ o2, n ∈ o ∨ (n.Parent = some cur ∧ n.G = cur.G + 1) := by
  apply foldlM_some_inv (relaxNeighbor m goal cur c)
    (fun o1 => ∀ n ∈ o1, n ∈ o ∨ (n.Parent = some cur ∧ n.G = cur.G + 1)) directions o o2
    ?_ (fun n hn => Or.inl hn) h
  intro x a y _ hxy hq n hn
  rcases relaxNeighbor_counted m goal cur c x y a hxy n hn with h1 | h1
  · exact hq n h1
  · exact Or.inr h1

theorem chain_eq_cons : (n : Node) → n.chain = n.Point :: n.chain.tail
  | .mk _ none _ _ _ => rfl
  | .mk _ (some _) _ _ _ => rfl

theorem chain_of_parent : (n cur : Node) → n.Parent = some cur →
    n.chain = n.Point :: cur.chain
  | .mk _ none _ _ _, _, h => by simp [Node.Parent] at h
  | .mk _ (some parent) _ _ _, cur, h => by
    simp only [Node.Parent, Option.some.injEq] at h
    subst h
    rfl

theorem counted_of_parent : (n cur : Node) → n.Parent = some cur → n.G = cur.G + 1 →
    cur.Counted → n.Counted
  | .mk _ none _ _ _, _, h, _, _ => by simp [Node.Parent] at h
  | .mk _ (some parent) _ _ _, cur, h, hg, hc => by
    simp only [Node.Parent, Option.some.injEq] at h
    subst h
    exact ⟨hg, hc⟩

theorem counted_chain_length : (n : Node) → n.Counted → n.chain.length = n.G + 1
  | .mk _ none _ _ _, h => by
    simp only [Node.Counted] at h
    simp [Node.chain, Node.G, h]
  | .mk _ (some parent) _ _ _, h => by
    obtain ⟨h1, h2⟩ := h
    have := counted_chain_length parent h2
    simp only [Node.chain, List.length_cons, Node.G, this, h1]

/-- One iteration of the main loop that does not pop the goal keeps `ChainInv`. -/
theorem chainInv_step (m : ShrineMap) (hm : IsGrid m) (goal : Point)
    (o : NodeList) (c : ClosedList) (cur : Node) (o1 o2 : NodeList)
    (cinv : ChainInv o c)
    (hpop : heap.Pop o = some (cur, o1))
    (ho2 : directions.foldlM (relaxNeighbor m goal cur ((cur.Point, cur) :: c)) o1 = some o2) :
    ChainInv o2 ((cur.Point, cur) :: c) := by
  have hperm := pop_perm o cur o1 hpop
  have hcur_mem : cur ∈ o := hperm.mem_iff.mpr (List.mem_cons_self _ _)
  have hmem1 : ∀ n ∈ o1, n ∈ o := fun n hn => hperm.mem_iff.mpr (List.mem_cons_of_mem _ hn)
  have hkeys : keys ((cur.Point, cur) :: c) = cur.Point :: keys c := rfl
  obtain ⟨o3, ho3, e1, _⟩ := expand_spec m hm goal cur ((cur.Point, cur) :: c) o1
  rw [ho2] at ho3
  simp only [Option.some.injEq] at ho3
  subst ho3
  have e5 := expand_counted m goal cur ((cur.Point, cur) :: c) o1 o2 ho2
  have hcurchain : ∀ p ∈ cur.chain, p ∈ keys ((cur.Point, cur) :: c) := by
    intro p hp
    rw [chain_eq_cons cur] at hp
    rw [hkeys]
    rcases List.mem_cons.mp hp with rfl | h
    · exact List.mem_cons_self _ _
    · exact List.mem_cons_of_mem _ (cinv.closedChain cur hcur_mem p h)
  have hnew : ∀ n ∈ o2, n ∈ o1 ∨
      (n.Parent = some cur ∧ n.G = cur.G + 1 ∧ n.Point ∉ keys ((cur.Point, cur) :: c)) := by
    intro n hn
    rcases e5 n hn with h | ⟨h1, h2⟩
    · exact Or.inl h
    · rcases e1 n hn with h | ⟨_, _, _, h4⟩
      · exact Or.inl h
      · exact Or.inr ⟨h1, h2, h4⟩
  constructor
  · intro n hn
    rcases hnew n hn with h | ⟨h1, h2, _⟩
    · exact cinv.counted n (hmem1 n h)
    · exact counted_of_parent n cur h1 h2 (cinv.counted cur hcur_mem)
  · intro n hn
    rcases hnew n hn with h | ⟨h1, _, h3⟩
    · exact cinv.simple n (hmem1 n h)
    · rw [chain_of_parent n cur h1]
      exact List.nodup_cons.mpr ⟨fun hc => h3 (hcurchain _ hc), cinv.simple cur hcur_mem⟩
  · intro n hn p hp
    rcases hnew n hn with h | ⟨h1, _, _⟩
    · rw [hkeys]
      exact List.mem_cons_of_mem _ (cinv.closedChain n (hmem1 n h) p hp)
    · rw [chain_of_parent n cur h1] at hp
      exact hcurchain p hp

theorem chainInv_initial (start : Point) (h f : Nat) :
    ChainInv [Node.mk start none 0 h f] [] := by
  constructor
  · intro n hn
    simp only [List.mem_singleton] at hn
    subst hn
    simp [Node.Counted]
  · intro n hn
    simp only [List.mem_singleton] at hn
    subst hn
    simp [Node.chain]
  · intro n hn p hp
    simp only [List.mem_singleton] at hn
    subst hn
    simp [Node.chain] at hp

/-- When the loop returns a path, it was reconstructed from a node that one of the
recorded states pops: a node of the goal tile whose `G` counts its parent links and whose
chain has no tile twice. -/
theorem findPathLoop_goal (m : ShrineMap) (hm : IsGrid m) (start goal : Point) (fuel : Nat) :
    ∀ (o : NodeList) (c : ClosedList) (path : List Point),
      SearchInv m start goal o c → ChainInv o c →
      findPathLoop m goal fuel o c = some (path, none) →
      ∃ st ∈ searchStates m goal fuel o c, ∃ goalNode rest,
        heap.Pop st.1 = some (goalNode, rest) ∧ goalNode.Point = goal ∧
        reconstructPath goalNode = path ∧ goalNode.Counted ∧ goalNode.chain.Nodup := by
  induction fuel with
  | zero => intro o c path _ _ h; simp [findPathLoop] at h
  | succ k ih =>
    intro o c path inv cinv h
    unfold findPathLoop at h
    unfold searchStates
    by_cases hlen : o.length > 0
    swap
    · rw [if_neg hlen] at h
      simp at h
    rw [if_pos hlen] at h ⊢
    obtain ⟨cur, o1, hpop⟩ := pop_total o hlen
    rw [hpop] at h ⊢
    dsimp only at h ⊢
    have hcur_mem : cur ∈ o := (searchInv_pop m start goal o c cur o1 inv hpop).1
    by_cases hg : cur.Point.X = goal.X ∧ cur.Point.Y = goal.Y
    · rw [if_pos hg] at h ⊢
      simp only [Option.some.injEq, Prod.mk.injEq, and_true] at h
      exact ⟨(o, c), List.mem_cons_self _ _, cur, o1, hpop, point_eq_of_coords _ _ hg, h,
        cinv.counted cur hcur_mem, cinv.simple cur hcur_mem⟩
    rw [if_neg hg] at h ⊢
    obtain ⟨o2, ho2, _⟩ := expand_spec m hm goal cur ((cur.Point, cur) :: c) o1
    rw [ho2] at h ⊢
    dsimp only at h ⊢
    obtain ⟨st, hst, hrest⟩ := ih o2 ((cur.Point, cur) :: c) path
      (searchInv_step m hm start goal o c cur o1 o2 inv hpop hg ho2)
      (chainInv_step m hm goal o c cur o1 o2 cinv hpop ho2) h
    exact ⟨st, List.mem_cons_of_mem _ hst, hrest⟩

/-- Claim C28: on a 12x16 map a path returned by `findPath` contains no tile twice and
has at most 192 tiles. When it comes from the search loop (start and goal distinct), it is
reconstructed from the node of the goal tile at the moment that node is popped; `G`
decreases by exactly 1 along every parent link of that node down to `0`, and the length
of the path minus one equals its `G`. -/
theorem returned_path_simple (m : ShrineMap) (hm : IsGrid m) (start goal : Point)
    (path : List Point) (h : findPath m start goal = some (path, none)) :
    path.Nodup ∧ path.length ≤ 192 ∧
    (start = goal → path = [start]) ∧
    (start ≠ goal →
      ∃ st ∈ searchStates m goal searchBudget (startOpenList start goal) [],
        ∃ goalNode rest, heap.Pop st.1 = some (goalNode, rest) ∧ goalNode.Point = goal ∧
          reconstructPath goalNode = path ∧ goalNode.Counted ∧
          path.length - 1 = goalNode.G) := by
  obtain ⟨hs, hg, ws, wg⟩ := findPath_ok_preconditions m start goal path h
  have hbound : path.Nodup → path.length ≤ 192 := by
    intro hnd
    apply length_le_of_inBounds path hnd
    rcases findPath_grid_cases m hm start goal with ⟨e, he⟩ | ⟨path1, hp1, hon⟩
    · rw [he] at h; simp at h
    · rw [hp1] at h
      simp only [Option.some.injEq, Prod.mk.injEq, and_true] at h
      subst h
      exact fun p hp => walkable_inBounds m p (hon.2.2.2 p hp)
  by_cases hne : start = goal
  · subst hne
    have := findPath_same_tile m start ((isValidPosition_iff start).mpr hs) ws
    rw [this] at h
    simp only [Option.some.injEq, Prod.mk.injEq, and_true] at h
    subst h
    exact ⟨by simp, by simp, fun _ => rfl, fun hc => absurd rfl hc⟩
  · have hne2 : ¬ (start.X = goal.X ∧ start.Y = goal.Y) :=
      fun hc => hne (point_eq_of_coords _ _ hc)
    have hfp := findPath_search m start goal ((isValidPosition_iff start).mpr hs)
      ((isValidPosition_iff goal).mpr hg) ws wg hne2
    rw [hfp] at h
    obtain ⟨st, hst, goalNode, rest, hpop, hpt, hrec, hcnt, hnd⟩ :=
      findPathLoop_goal m hm start goal searchBudget _ _ path
        (searchInv_initial m start goal ws _ _ _) (chainInv_initial start _ _) h
    have hpath : path = goalNode.chain.reverse := by
      rw [← hrec, reconstructPath_eq]
    have hnd2 : path.Nodup := by
      rw [hpath]
      exact List.nodup_reverse.mpr hnd
    have hlen : path.length - 1 = goalNode.G := by
      rw [hpath, List.length_reverse, counted_chain_length goalNode hcnt]
      omega
    exact ⟨hnd2, hbound hnd2, fun hc => absurd hc hne,
      fun _ => ⟨st, hst, goalNode, rest, hpop, hpt, hrec, hcnt, hlen⟩⟩

set_option maxRecDepth 100000 in
/-- Claim C28 at the built-in map, from the left spawn tile `(0, 11)` to the tile `(8, 5)`
below the donation box: the path has 15 tiles. -/
theorem returned_path_simple_witness :
    IsGrid createMikoShrineMap ∧
    findPath createMikoShrineMap ⟨0, 11⟩ ⟨8, 5⟩ =
      some ([⟨0, 11⟩, ⟨1, 11⟩, ⟨2, 11⟩, ⟨3, 11⟩, ⟨3, 10⟩, ⟨3, 9⟩, ⟨3, 8⟩, ⟨4, 8⟩, ⟨4, 7⟩,
        ⟨5, 7⟩, ⟨6, 7⟩, ⟨7, 7⟩, ⟨8, 7⟩, ⟨8, 6⟩, ⟨8, 5⟩], none) ∧
    (([⟨0, 11⟩, ⟨1, 11⟩, ⟨2, 11⟩, ⟨3, 11⟩, ⟨3, 10⟩, ⟨3, 9⟩, ⟨3, 8⟩, ⟨4, 8⟩, ⟨4, 7⟩,
        ⟨5, 7⟩, ⟨6, 7⟩, ⟨7, 7⟩, ⟨8, 7⟩, ⟨8, 6⟩, ⟨8, 5⟩] : List Point).Nodup ∧
    ([⟨0, 11⟩, ⟨1, 11⟩, ⟨2, 11⟩, ⟨3, 11⟩, ⟨3, 10⟩, ⟨3, 9⟩, ⟨3, 8⟩, ⟨4, 8⟩, ⟨4, 7⟩,
        ⟨5, 7⟩, ⟨6, 7⟩, ⟨7, 7⟩, ⟨8, 7⟩, ⟨8, 6⟩, ⟨8, 5⟩] : List Point).length ≤ 192 ∧
    ((⟨0, 11⟩ : Point) = ⟨8, 5⟩ →
      ([⟨0, 11⟩, ⟨1, 11⟩, ⟨2, 11⟩, ⟨3, 11⟩, ⟨3, 10⟩, ⟨3, 9⟩, ⟨3, 8⟩, ⟨4, 8⟩, ⟨4, 7⟩,
        ⟨5, 7⟩, ⟨6, 7⟩, ⟨7, 7⟩, ⟨8, 7⟩, ⟨8, 6⟩, ⟨8, 5⟩] : List Point) = [⟨0, 11⟩]) ∧
    ((⟨0, 11⟩ : Point) ≠ ⟨8, 5⟩ →
      ∃ st ∈ searchStates createMikoShrineMap ⟨8, 5⟩ searchBudget
          (startOpenList ⟨0, 11⟩ ⟨8, 5⟩) [],
        ∃ goalNode rest, heap.Pop st.1 = some (goalNode, rest) ∧ goalNode.Point = ⟨8, 5⟩ ∧
          reconstructPath goalNode =
            [⟨0, 11⟩, ⟨1, 11⟩, ⟨2, 11⟩, ⟨3, 11⟩, ⟨3, 10⟩, ⟨3, 9⟩, ⟨3, 8⟩, ⟨4, 8⟩, ⟨4, 7⟩,
              ⟨5, 7⟩, ⟨6, 7⟩, ⟨7, 7⟩, ⟨8, 7⟩, ⟨8, 6⟩, ⟨8, 5⟩] ∧
          goalNode.Counted ∧
          ([⟨0, 11⟩, ⟨1, 11⟩, ⟨2, 11⟩, ⟨3, 11⟩, ⟨3, 10⟩, ⟨3, 9⟩, ⟨3, 8⟩, ⟨4, 8⟩, ⟨4, 7⟩,
            ⟨5, 7⟩, ⟨6, 7⟩, ⟨7, 7⟩, ⟨8, 7⟩, ⟨8, 6⟩, ⟨8, 5⟩] : List Point).length - 1
            = goalNode.G)) :=
  ⟨by decide, by decide,
   returned_path_simple createMikoShrineMap (by decide) ⟨0, 11⟩ ⟨8, 5⟩ _ (by decide)⟩

end EdomaeElf
